import Mathlib

/-!
# transport.StreamBundle: a shallow embedding

The development follows `src/transport/stream_bundle.go`; the error classifier `IsIOError` of
`src/cmn/err.go` comes first, in its own namespace.

Conventions of the embedding

* Go maps keyed by `DaemonID` (`bundle`, `cluster.NodeMap`) are association lists; a `range`
  loop visits the entries in list order, which stands for the arbitrary order Go picks.
* Pointers to mutable objects (`*robin`, `*Stream`, the reader, the refcount) become explicit
  state passing: every operation returns the updated objects.
* `int` and `int64` are `Int`; the one place where overflow matters (`atomic.AddInt64` on the
  round-robin counter) wraps explicitly modulo `2^64`. `int` is taken to be 64 bits wide.
* A Go runtime abort (failed `cmn.Assert`, nil dereference, index out of range) is the outcome
  `panic` of a send, or `none` of the construction and resync functions.
* The membership oracle is not modelled as an object: the snapshot that `sowner.Get()` returns
  is an argument of the function that reads it.
* Code of the repository that lies outside `src/` (package `cluster`, the single `Stream`, the
  reader interface) is modelled from the specification and marked as such.
* A Go `error` is a value of an inductive type with one constructor per dynamic type that the
  code tells apart; a nil pointer of type `*os.PathError` or `*os.SyscallError` held by a
  non-nil interface value has a constructor of its own.

The file first gives the embedding, then the notions the statements use and some concrete
inputs, then the theorems.
-/

namespace cmn

/-! ## Errors and their classification -/

/-- The constant `syscall.EIO` (Linux): I/O error. -/
def EIO : Nat := 5

/-- The constant `syscall.ENXIO` (Linux): no such device or address. -/
def ENXIO : Nat := 6

/-- The constant `syscall.EBADF` (Linux): bad file number. -/
def EBADF : Nat := 9

/-- The constant `syscall.EBUSY` (Linux): device or resource busy. -/
def EBUSY : Nat := 16

/-- The constant `syscall.ENODEV` (Linux): no such device. -/
def ENODEV : Nat := 19

/-- The constant `syscall.ENOTDIR` (Linux): not a directory. -/
def ENOTDIR : Nat := 20

/-- The constant `syscall.ENOSPC` (Linux): no space left on device. -/
def ENOSPC : Nat := 28

/-- The constant `syscall.EROFS` (Linux): read-only file system. -/
def EROFS : Nat := 30

/-- The constant `syscall.ESTALE` (Linux): stale file handle. -/
def ESTALE : Nat := 116

/-- The constant `syscall.EUCLEAN` (Linux): structure needs cleaning. -/
def EUCLEAN : Nat := 117

/-- The constant `syscall.EDQUOT` (Linux): quota exceeded. -/
def EDQUOT : Nat := 122

/-- A value of the Go interface type `error`, by dynamic type: the nil interface, the
singleton `io.ErrShortWrite`, a `syscall.Errno` (an unsigned number), a non-nil `*os.PathError`
(fields `Op`, `Path`, `Err` of the object it points to), the nil pointer of type
`*os.PathError` (an interface value that is not nil), a non-nil `*os.SyscallError` (fields
`Syscall`, `Err`), the nil pointer of type `*os.SyscallError`, and an error of any other
dynamic type, told apart by its message. The comparisons `IsIOError` makes, with nil, with
`io.ErrShortWrite` and with an errno constant, are equalities of these values. -/
inductive GoError where
  | nil
  | ErrShortWrite
  | Errno (n : Nat)
  | PathError (Op Path : String) (Err : GoError)
  | nilPathError
  | SyscallError (Syscall : String) (Err : GoError)
  | nilSyscallError
  | other (msg : String)
deriving DecidableEq, Repr

/-- The closure `isIO` of `IsIOError`: a chain of `e == syscall.E...` comparisons. -/
def isIO (e : GoError) : Bool :=
  decide (e = GoError.Errno EIO) ||
    decide (e = GoError.Errno ENOTDIR) ||
    decide (e = GoError.Errno EBUSY) ||
    decide (e = GoError.Errno ENXIO) ||
    decide (e = GoError.Errno EBADF) ||
    decide (e = GoError.Errno ENODEV) ||
    decide (e = GoError.Errno EUCLEAN) ||
    decide (e = GoError.Errno EROFS) ||
    decide (e = GoError.Errno EDQUOT) ||
    decide (e = GoError.Errno ESTALE) ||
    decide (e = GoError.Errno ENOSPC)

/-- Function `IsIOError`: the two comparisons, then the type switch on `err`. The result is
`none` when the call aborts: in the arms of the two pointer types `e.Err` dereferences `e`,
which is a runtime panic when `e` is the nil pointer. -/
def IsIOError (err : GoError) : Option Bool :=
  if err = GoError.nil then some false
  else if err = GoError.ErrShortWrite then some true
  else
    match err with
    | GoError.PathError _ _ e => some ( isIO e)
    | GoError.nilPathError => none
    | GoError.SyscallError _ e => some ( isIO e)
    | GoError.nilSyscallError => none
    | _ => some false

/-- The errno values that the statement about `IsIOError` lists. -/
def listedErrnos : List Nat :=
  [ EIO, ENOTDIR, EBUSY, ENXIO, EBADF, ENODEV, EUCLEAN, EROFS, EDQUOT, ESTALE, ENOSPC]

end cmn

namespace transport

/-! ## Maps as association lists -/

/-- Lookup `m[k]` of a Go map; `none` stands for the zero value with `ok == false`. -/
def mapGet {V : Type} : List (String × V) → String → Option V
  | [], _ => none
  | (k1, v) :: rest, k => if k1 = k then some v else mapGet rest k

/-- Assignment `m[k] = v` of a Go map: overwrite the entry when present, add it otherwise. -/
def mapSet {V : Type} : List (String × V) → String → V → List (String × V)
  | [], k, v => [(k, v)]
  | (k1, v1) :: rest, k, v => if k1 = k then (k1, v) :: rest else (k1, v1) :: mapSet rest k v

/-- Builtin `delete(m, k)` of a Go map. -/
def mapDel {V : Type} : List (String × V) → String → List (String × V)
  | [], _ => []
  | (k1, v1) :: rest, k => if k1 = k then mapDel rest k else (k1, v1) :: mapDel rest k

/-- The keys of a map, in iteration order. -/
def mapKeys {V : Type} (m : List (String × V)) : List String :=
  m.map Prod.fst

/-! ## Data model -/

/-- Modelled from the spec: `cluster.Snode` is declared outside `src/`; a node has an opaque
`DaemonID` and one URL per network tag. -/
structure Snode where
  DaemonID : String
  urls : List (String × String)

/-- Modelled from the spec: `Snode.URL(network)` selects the node URL of the given network tag. -/
def Snode.URL (si : Snode) (network : String) : String :=
  (mapGet si.urls network).getD ""

/-- Modelled from the spec: `cluster.NodeMap`, declared outside `src/`, maps every NodeID of a
role to its node (`map[string]*Snode`). -/
abbrev NodeMap := List (String × Snode)

/-- Modelled from the spec: `cluster.Smap`, a versioned snapshot partitioned by role. -/
structure Smap where
  Version : Int
  Tmap : NodeMap
  Pmap : NodeMap

/-- Modelled from the spec: `transport.Header`, declared outside `src/`; the bundle passes it on
to the stream and never looks into it. -/
structure Header where
  Objname : String
  Size : Int
deriving DecidableEq, Repr

/-- Modelled from the spec: `SendCallback`, declared outside `src/`, is a Go function value; the
bundle only tests it for nil and passes it on, so the embedding keeps its identity. -/
abbrev SendCallback := Nat

/-- The `io.ReadCloser` that a stream receives: nil, the reader the caller passed to `Send`
itself, or the child returned by the `n`-th call of `Open()` on that reader. -/
inductive ReadCloser where
  | nil
  | caller
  | reopened (n : Nat)
deriving DecidableEq, Repr

/-- Modelled from the spec: `cmn.ReadOpenCloser`, declared outside `src/`, as `Send` sees it:
the number of `Open()` calls made on it so far and, for every call number (counted from 1),
whether that call returns an error. -/
structure ReadOpenCloser where
  opened : Nat
  openFails : Nat → Bool

/-- The arguments of one `Stream.Send` call; `prc` is the address of the completion refcount. -/
structure Handoff where
  hdr : Header
  reader : ReadCloser
  cb : Option SendCallback
  prc : Option Nat
deriving DecidableEq, Repr

/-- Modelled from the spec: `transport.Stream` is declared outside `src/` and is opaque to the
bundle. The embedding records what the bundle does to a stream: the `Send` calls it received
(`handed`), the number of `Fin` and `Stop` calls, whether it reports `Terminated()`, and the
stream's own decision, for its `n`-th `Send` call counted from 0, to refuse it. -/
structure Stream where
  url : String
  terminated : Bool
  fins : Nat
  stops : Nat
  handed : List Handoff
  refuses : Nat → Bool

/-- Modelled from the spec: `NewStream(client, toURL, extra)` yields a fresh active stream to
`toURL`; `refuses` is the future behaviour of the wire, chosen by the environment. -/
def NewStream (refuses : Nat → Bool) (toURL : String) : Stream :=
  { url := toURL, terminated := false, fins := 0, stops := 0, handed := [], refuses := refuses }

/-- Modelled from the spec: `Stream.Send(header, reader, callback, refcount)` hands the object
to the stream; the Boolean is `true` when the stream returns an error. -/
def Stream.Send (s : Stream) (hdr : Header) (reader : ReadCloser) (cb : Option SendCallback)
    (prc : Option Nat) : Stream × Bool :=
  ({ s with handed := s.handed ++ [⟨hdr, reader, cb, prc⟩] }, s.refuses s.handed.length)

/-- Modelled from the spec: `Stream.Stop()`, the abortive close, terminates immediately. -/
def Stream.Stop (s : Stream) : Stream :=
  { s with stops := s.stops + 1, terminated := true }

/-- Modelled from the spec: `Stream.Fin()`, the graceful close, drains and terminates. -/
def Stream.Fin (s : Stream) : Stream :=
  { s with fins := s.fins + 1, terminated := true }

/-- Modelled from the spec: `Stream.Terminated()` reports whether the stream has terminated. -/
def Stream.Terminated (s : Stream) : Bool := s.terminated

/-- The private type `robin`: streams to the same destination and the round-robin counter. -/
structure robin where
  stsdest : List Stream
  i : Int

/-- The private type `bundle`: `map[string]*robin`, indexed by DaemonID. -/
abbrev bundle := List (String × robin)

/-- Modelled from the spec: `transport.Extra`, declared outside `src/`; the bundle reads its
default per-send callback. -/
structure Extra where
  Callback : Option SendCallback

/-- The struct `StreamBundle`. `streams` is the atomically published pointer (`none` is the nil
pointer); `sowner`, `smaplock` and `client` carry no state of their own here. -/
structure StreamBundle where
  smap : Smap
  lsnode : Snode
  network : String
  trname : String
  streams : Option bundle
  extra : Extra
  rxNodeType : Int
  multiplier : Int

/-- The errors `Send` builds with `fmt.Errorf`, by kind. -/
inductive SendErr where
  | noStreams
  | destinationMismatch (id : String)
  | reopen
  | streamSend
deriving DecidableEq, Repr

/-- How a call ends: it returns nil, returns an error, or aborts with a runtime panic. -/
inductive Outcome where
  | ok
  | error (e : SendErr)
  | panic
deriving DecidableEq, Repr

/-! ## The send path -/

/-- Method `StreamBundle.get`: load the published pointer; a nil pointer gives the nil map. -/
def StreamBundle.get (sb : StreamBundle) : bundle :=
  match sb.streams with
  | none => []
  | some bun => bun

/-- Two's complement wrap-around of a 64-bit signed integer. -/
def wrap64 (x : Int) : Int :=
  (x + 9223372036854775808) % 18446744073709551616 - 9223372036854775808

/-- What `sendOne` leaves behind: the outcome, the robin and the reader after the call, and
the `Stream.Send` call it made, if any, as (index into `stsdest`, arguments). -/
structure SendOneResult where
  out : Outcome
  robin : robin
  reader : Option ReadOpenCloser
  handed : Option (Nat × Handoff)

/-- The reopening statement of `sendOne`: `reader2 = reader`, and
`if reopen && reader != nil { reader2, err = reader.Open() }`. The result is the reader the
stream will get and the caller's reader after the statement; `none` when `Open()` fails. -/
def openFor (reader : Option ReadOpenCloser) (reopen : Bool) :
    Option (ReadCloser × Option ReadOpenCloser) :=
  match reader with
  | none => some (ReadCloser.nil, none)
  | some r =>
    if reopen then
      if r.openFails (r.opened + 1) then none
      else some (ReadCloser.reopened (r.opened + 1), some { r with opened := r.opened + 1 })
    else some (ReadCloser.caller, some r)

/-- Method `StreamBundle.sendOne`. -/
def sendOne (sb : StreamBundle) (rb : robin) (hdr : Header) (reader : Option ReadOpenCloser)
    (cb : Option SendCallback) (prc : Option Nat) (reopen : Bool) : SendOneResult :=
  match openFor reader reopen with
  | none =>
    -- failed to reopen reader: return before any stream is chosen
    { out := Outcome.error SendErr.reopen, robin := rb,
      reader := reader.map (fun r => { r with opened := r.opened + 1 }), handed := none }
  | some (reader2, rd) =>
    -- if sb.multiplier > 1 { i = int(atomic.AddInt64(&robin.i, 1)) % len(robin.stsdest) }
    let rb1 : robin := if sb.multiplier > 1 then { rb with i := wrap64 (rb.i + 1) } else rb
    if sb.multiplier > 1 ∧ rb.stsdest.length = 0 then
      -- integer division by zero
      { out := Outcome.panic, robin := rb1, reader := rd, handed := none }
    else
      let i : Int := if sb.multiplier > 1 then Int.tmod rb1.i rb.stsdest.length else 0
      -- s := robin.stsdest[i]
      if i < 0 then { out := Outcome.panic, robin := rb1, reader := rd, handed := none }
      else
        match rb.stsdest[i.toNat]? with
        | none => { out := Outcome.panic, robin := rb1, reader := rd, handed := none }
        | some s =>
          -- err = s.Send(hdr, reader2, cb, prc)
          let r := s.Send hdr reader2 cb prc
          { out := if r.2 then Outcome.error SendErr.streamSend else Outcome.ok,
            robin := { rb1 with stsdest := rb1.stsdest.set i.toNat r.1 },
            reader := rd,
            handed := some (i.toNat, ⟨hdr, reader2, cb, prc⟩) }

/-- The state a fanout loop of `Send` leaves behind; `trace` lists the `Stream.Send` calls in
the order they were made, as (DaemonID, index into `stsdest`, arguments). -/
structure LoopResult where
  out : Outcome
  streams : bundle
  reader : Option ReadOpenCloser
  trace : List (String × Nat × Handoff)

/-- The `Stream.Send` call of one `sendOne`, tagged with the destination. -/
def traceOf (id : String) (r : SendOneResult) : List (String × Nat × Handoff) :=
  match r.handed with
  | none => []
  | some (k, h) => [(id, k, h)]

/-- The broadcast loop of `Send`: `for _, robin := range streams`, with the `reopen` flag. -/
def broadcastLoop (sb : StreamBundle) (hdr : Header) (cb : Option SendCallback)
    (prc : Option Nat) : Bool → Option ReadOpenCloser → bundle → LoopResult
  | _, rd, [] => { out := Outcome.ok, streams := [], reader := rd, trace := [] }
  | reopen, rd, (id, rb) :: rest =>
    let r := sendOne sb rb hdr rd cb prc reopen
    match r.out with
    | Outcome.ok =>
      let t := broadcastLoop sb hdr cb prc true r.reader rest
      { out := t.out, streams := (id, r.robin) :: t.streams, reader := t.reader,
        trace := traceOf id r ++ t.trace }
    | o => { out := o, streams := (id, r.robin) :: rest, reader := r.reader, trace := traceOf id r }

/-- The second loop of a targeted `Send`: `for _, di := range nodes`, with the `reopen` flag.
The robin is looked up in the bundle on every round, as `streams[di.DaemonID]` does. -/
def targetedLoop (sb : StreamBundle) (hdr : Header) (cb : Option SendCallback)
    (prc : Option Nat) : Bool → Option ReadOpenCloser → bundle → List Snode → LoopResult
  | _, rd, bun, [] => { out := Outcome.ok, streams := bun, reader := rd, trace := [] }
  | reopen, rd, bun, di :: rest =>
    match mapGet bun di.DaemonID with
    | none =>
      -- a nil *robin; not reachable, the first loop of Send has found every node
      { out := Outcome.panic, streams := bun, reader := rd, trace := [] }
    | some rb =>
      let r := sendOne sb rb hdr rd cb prc reopen
      match r.out with
      | Outcome.ok =>
        let t := targetedLoop sb hdr cb prc true r.reader (mapSet bun di.DaemonID r.robin) rest
        { out := t.out, streams := t.streams, reader := t.reader,
          trace := traceOf di.DaemonID r ++ t.trace }
      | o =>
        { out := o, streams := mapSet bun di.DaemonID r.robin, reader := r.reader,
          trace := traceOf di.DaemonID r }

/-- What a `Send` leaves behind: the outcome, the bundle, the caller's reader, the heap of
completion refcounts (a refcount's address is its position) and the trace of handoffs. -/
structure SendResult where
  out : Outcome
  sb : StreamBundle
  reader : Option ReadOpenCloser
  heap : List Int
  trace : List (String × Nat × Handoff)

/-- The callback `Send` uses: `if cb == nil { cb = sb.extra.Callback }`. -/
def effectiveCb (sb : StreamBundle) (cb : Option SendCallback) : Option SendCallback :=
  match cb with
  | none => sb.extra.Callback
  | some c => some c

/-- Method `StreamBundle.Send`. `nodes = none` is the nil slice (broadcast); `heap` holds the
refcounts allocated so far. -/
def Send (sb : StreamBundle) (heap : List Int) (hdr : Header) (reader : Option ReadOpenCloser)
    (cb : Option SendCallback) (nodes : Option (List Snode)) : SendResult :=
  let streams := sb.get
  if streams.length = 0 then
    { out := Outcome.error SendErr.noStreams, sb := sb, reader := reader, heap := heap, trace := [] }
  else
    let cb1 := effectiveCb sb cb
    match nodes with
    | none =>
      let alloc : Bool := cb1.isSome && decide (streams.length > 1)
      let prc : Option Nat := if alloc then some heap.length else none
      let heap1 : List Int := if alloc then heap ++ [(streams.length : Int)] else heap
      let t := broadcastLoop sb hdr cb1 prc false reader streams
      { out := t.out, sb := { sb with streams := some t.streams }, reader := t.reader,
        heap := heap1, trace := t.trace }
    | some ns =>
      -- first, find out whether the designated streams are present
      match ns.find? (fun di => (mapGet streams di.DaemonID).isNone) with
      | some di =>
        { out := Outcome.error (SendErr.destinationMismatch di.DaemonID), sb := sb,
          reader := reader, heap := heap, trace := [] }
      | none =>
        let alloc : Bool := cb1.isSome && decide (ns.length > 1)
        let prc : Option Nat := if alloc then some heap.length else none
        let heap1 : List Int := if alloc then heap ++ [(ns.length : Int)] else heap
        -- second, do send
        let t := targetedLoop sb hdr cb1 prc false reader streams ns
        { out := t.out, sb := { sb with streams := some t.streams }, reader := t.reader,
          heap := heap1, trace := t.trace }

/-- Method `StreamBundle.SendV` on the slice that its variadic parameter holds: the body of the
method, `return sb.Send(hdr, reader, cb, nodes)`. A call that spreads a slice,
`sb.SendV(hdr, reader, cb, s...)`, passes `s` itself, be it nil, empty or not. -/
def SendVSlice (sb : StreamBundle) (heap : List Int) (hdr : Header)
    (reader : Option ReadOpenCloser) (cb : Option SendCallback) (nodes : Option (List Snode)) :
    SendResult :=
  Send sb heap hdr reader cb nodes

/-- Method `StreamBundle.SendV` called with its node arguments written out,
`sb.SendV(hdr, reader, cb, n1, ..., nk)`; `nodes` lists the node arguments. Go passes the nil
slice when there is no node argument and a new slice of the `k` arguments otherwise. -/
def SendV (sb : StreamBundle) (heap : List Int) (hdr : Header) (reader : Option ReadOpenCloser)
    (cb : Option SendCallback) (nodes : List Snode) : SendResult :=
  SendVSlice sb heap hdr reader cb (if nodes.length = 0 then none else some nodes)

/-! ## Construction and reconciliation -/

/-- Modelled from the spec: the role selectors `cluster.Targets`, `cluster.Proxies` and
`cluster.AllNodes`, a closed enumeration declared outside `src/`. -/
def Targets : Int := 0

/-- Modelled from the spec: role selector `cluster.Proxies`. -/
def Proxies : Int := 1

/-- Modelled from the spec: role selector `cluster.AllNodes`. -/
def AllNodes : Int := 2

/-- Modelled from the spec: `cmn.URLPath(cmn.Version, cmn.Transport, trname)`, the fixed path
scheme `/v1/transport/<transport name>`. -/
def transportPath (trname : String) : String :=
  "/v1/transport/" ++ trname

/-- Collect entries into a map, one assignment per entry. -/
def mapOfList {V : Type} (l : List (String × V)) : List (String × V) :=
  l.foldl (fun acc p => mapSet acc p.1 p.2) []

/-- Modelled from the spec: `cluster.NodeMapDelta(old, new)` is declared outside `src/`; it
returns `added = new \ old` and `removed = old \ new` by NodeID, both taken over the union of
the maps of each side. -/
def NodeMapDelta (old new : List NodeMap) : NodeMap × NodeMap :=
  let o := old.flatten
  let n := new.flatten
  (mapOfList (n.filter (fun p => (mapGet o p.1).isNone)),
   mapOfList (o.filter (fun p => (mapGet n p.1).isNone)))

/-- The `switch sb.rxNodeType` of `resync`: the node maps of a snapshot that the role selects;
`none` is the `default` branch, `cmn.Assert(false)`. -/
def roleMaps (ntype : Int) (smap : Smap) : Option (List NodeMap) :=
  if ntype = Targets then some [smap.Tmap]
  else if ntype = Proxies then some [smap.Pmap]
  else if ntype = AllNodes then some [smap.Tmap, smap.Pmap]
  else none

/-- What a `resync` leaves behind: the bundle, the streams it created as
(DaemonID, index, URL) and the robins it deleted, in the state it left them in. -/
structure ResyncResult where
  sb : StreamBundle
  created : List (String × Nat × String)
  removed : List (String × robin)

/-- The robin `resync` builds for an added node: `multiplier` new streams to `toURL`. The
multiplier of a constructed bundle is at least 1, so `make(stsdest, sb.multiplier)` does not
abort. -/
def newRobin (wire : String → Nat → Nat → Bool) (sb : StreamBundle) (toURL : String) : robin :=
  { stsdest := (List.range sb.multiplier.toNat).map (fun k => NewStream (wire toURL k) toURL),
    i := 0 }

/-- The loop `for id, si := range added` of `resync`, on the new bundle and the creation log. -/
def addLoop (wire : String → Nat → Nat → Bool) (sb : StreamBundle) :
    bundle × List (String × Nat × String) → List (String × Snode) →
    bundle × List (String × Nat × String)
  | acc, [] => acc
  | acc, (id, si) :: rest =>
    if id = sb.lsnode.DaemonID then addLoop wire sb acc rest
    else
      let toURL := si.URL sb.network ++ transportPath sb.trname
      addLoop wire sb
        (mapSet acc.1 id (newRobin wire sb toURL),
         acc.2 ++ (List.range sb.multiplier.toNat).map (fun k => (id, k, toURL))) rest

/-- The inner loop of the removal: `for k := 0; k < sb.multiplier; k++`, stopping every stream
that is not terminated; `none` when `stsdest[k]` is out of range. -/
def stopStreams (m : Nat) (orobin : robin) : Option robin :=
  (List.range m).foldlM
    (fun (r : robin) (k : Nat) =>
      match r.stsdest[k]? with
      | none => none
      | some os =>
        some (if os.Terminated then r else { r with stsdest := r.stsdest.set k os.Stop }))
    orobin

/-- The loop `for id := range removed` of `resync`, on the new bundle and the removal log;
`none` when `nbundle[id]` is nil or too short. -/
def removeLoop (sb : StreamBundle) :
    bundle × List (String × robin) → List (String × Snode) → Option (bundle × List (String × robin))
  | acc, [] => some acc
  | acc, (id, _) :: rest =>
    if id = sb.lsnode.DaemonID then removeLoop sb acc rest
    else
      match mapGet acc.1 id with
      | none => none
      | some orobin =>
        match stopStreams sb.multiplier.toNat orobin with
        | none => none
        | some stopped => removeLoop sb (mapDel acc.1 id, acc.2 ++ [(id, stopped)]) rest

/-- Method `StreamBundle.resync`; `smap` is what `sb.sowner.Get()` returns and `wire` the
behaviour of the streams it may create. `none` is a failed assertion or a runtime panic. -/
def resync (wire : String → Nat → Nat → Bool) (sb : StreamBundle) (smap : Smap) :
    Option ResyncResult :=
  if smap.Version = sb.smap.Version then some { sb := sb, created := [], removed := [] }
  else if ¬ (smap.Version > sb.smap.Version) then none
  else
    match roleMaps sb.rxNodeType sb.smap, roleMaps sb.rxNodeType smap with
    | none, _ => none
    | some _, none => none
    | some old, some new =>
      let delta := NodeMapDelta old new
      -- nbundle starts as a copy of the old bundle (the capacity hint has no effect)
      let grown := addLoop wire sb (sb.get, []) delta.1
      match removeLoop sb (grown.1, []) delta.2 with
      | none => none
      | some shrunk =>
        some { sb := { sb with streams := some shrunk.1, smap := smap },
               created := grown.2, removed := shrunk.2 }

/-- Method `StreamBundle.SmapChanged`: skip when the version is unchanged, else `resync`. -/
def SmapChanged (wire : String → Nat → Nat → Bool) (sb : StreamBundle) (smap : Smap) :
    Option ResyncResult :=
  if smap.Version = sb.smap.Version then some { sb := sb, created := [], removed := [] }
  else resync wire sb smap

/-- How a call of `resync` ends. A failed `cmn.Assert` carries what the call had done when the
assertion failed: the bundle object as it then was, the streams created and the robins removed
until then. -/
inductive ResyncEnd where
  /-- The call returned and left `r` behind. -/
  | returned (r : ResyncResult)
  /-- A `cmn.Assert` failed after the call had done what `r` holds. -/
  | assertFailed (r : ResyncResult)
  /-- A runtime panic inside the removal loop: `nbundle[id]` is nil or `stsdest[k]` is out of
  range. The state it leaves behind is not tracked. -/
  | panicked

/-- Method `StreamBundle.resync` once more, statement by statement, telling a failed assertion
from a runtime panic and keeping what had been done when the assertion failed. Up to the
`switch` nothing is created, stopped or assigned: the call has done `r0`. -/
def resyncEnd (wire : String → Nat → Nat → Bool) (sb : StreamBundle) (smap : Smap) : ResyncEnd :=
  let r0 : ResyncResult := { sb := sb, created := [], removed := [] }
  if smap.Version = sb.smap.Version then ResyncEnd.returned r0
  else if ¬ (smap.Version > sb.smap.Version) then
    -- cmn.Assert(smap.Version > sb.smap.Version)
    ResyncEnd.assertFailed r0
  else
    match roleMaps sb.rxNodeType sb.smap, roleMaps sb.rxNodeType smap with
    -- default: cmn.Assert(false)
    | none, _ => ResyncEnd.assertFailed r0
    | some _, none => ResyncEnd.assertFailed r0
    | some old, some new =>
      let delta := NodeMapDelta old new
      let grown := addLoop wire sb (sb.get, []) delta.1
      match removeLoop sb (grown.1, []) delta.2 with
      | none => ResyncEnd.panicked
      | some shrunk =>
        ResyncEnd.returned
          { sb := { sb with streams := some shrunk.1, smap := smap },
            created := grown.2, removed := shrunk.2 }

/-- Method `StreamBundle.SmapChanged` once more, with the end of its `resync` call. -/
def SmapChangedEnd (wire : String → Nat → Nat → Bool) (sb : StreamBundle) (smap : Smap) :
    ResyncEnd :=
  if smap.Version = sb.smap.Version then
    ResyncEnd.returned { sb := sb, created := [], removed := [] }
  else resyncEnd wire sb smap

/-- What a call that ended returned, if it returned. -/
def ResyncEnd.result : ResyncEnd → Option ResyncResult
  | ResyncEnd.returned r => some r
  | ResyncEnd.assertFailed _ => none
  | ResyncEnd.panicked => none

/-- Function `NewStreamBundle`; `smap` is the snapshot the oracle holds during construction,
`extra = none` the nil pointer and `multiplier` the variadic argument list. `none` is a failed
`cmn.Assert`. -/
def NewStreamBundle (wire : String → Nat → Nat → Bool) (smap : Smap) (lsnode : Snode)
    (network trname : String) (extra : Option Extra) (ntype : Int) (multiplier : List Int) :
    Option StreamBundle :=
  if ¬ (ntype = Targets ∨ ntype = Proxies ∨ ntype = AllNodes) then none
  else
    let sb : StreamBundle :=
      { smap := { Version := 0, Tmap := [], Pmap := [] }, lsnode := lsnode, network := network,
        trname := trname, streams := none, extra := extra.getD { Callback := none },
        rxNodeType := ntype, multiplier := 1 }
    match multiplier with
    | [] => (resync wire sb smap).map (fun r => r.sb)
    | m :: _ =>
      if ¬ (m > 1 ∧ m < 256) then none
      else (resync wire { sb with multiplier := m } smap).map (fun r => r.sb)

/-! ## Close and statistics -/

/-- The constant `closeFin` (`iota`), the graceful action of `apply`. -/
def closeFin : Int := 0

/-- The constant `closeStop`, the abortive action of `apply`. -/
def closeStop : Int := 1

/-- The body of the inner loop of `apply` for one stream: skip a terminated stream, else `Fin`
or `Stop` by `action`; `none` is the `default` branch, `cmn.Assert(false)`. -/
def applyStream (action : Int) (s : Stream) : Option Stream :=
  if s.Terminated then some s
  else if action = closeFin then some s.Fin
  else if action = closeStop then some s.Stop
  else none

/-- The inner loop of `apply`: `for _, s := range robin.stsdest`. -/
def applyStreams (action : Int) : List Stream → Option (List Stream)
  | [] => some []
  | s :: rest =>
    match applyStream action s with
    | none => none
    | some s1 =>
      match applyStreams action rest with
      | none => none
      | some rest1 => some (s1 :: rest1)

/-- The outer loop of `apply`: `for _, robin := range streams`. -/
def applyRobins (action : Int) : bundle → Option bundle
  | [] => some []
  | (id, rb) :: rest =>
    match applyStreams action rb.stsdest with
    | none => none
    | some sts =>
      match applyRobins action rest with
      | none => none
      | some rest1 => some ((id, { rb with stsdest := sts }) :: rest1)

/-- Method `StreamBundle.apply`; a nil bundle pointer gives nothing to do. -/
def StreamBundle.apply (sb : StreamBundle) (action : Int) : Option StreamBundle :=
  match sb.streams with
  | none => some sb
  | some bun => (applyRobins action bun).map (fun b => { sb with streams := some b })

/-- Method `StreamBundle.Close`; unregistering from the listeners leaves the bundle as it is. -/
def Close (sb : StreamBundle) (gracefully : Bool) : Option StreamBundle :=
  if gracefully then StreamBundle.apply sb closeFin else StreamBundle.apply sb closeStop

/-- Modelled from the spec: `transport.Stats`, the per-stream counters, declared outside
`src/`; `Num` is the number of objects the stream was given. -/
structure Stats where
  Num : Nat
deriving DecidableEq, Repr

/-- Modelled from the spec: `Stream.GetStats()` reports the counters of the stream. -/
def Stream.GetStats (s : Stream) : Stats :=
  { Num := s.handed.length }

/-- The type `BundleStats`: `map[string]*Stats`, by DaemonID. -/
abbrev BundleStats := List (String × Stats)

/-- Method `StreamBundle.GetStats`, as its loop over the bundle: the stats of `stsdest[0]` for
every destination; `none` when `stsdest[0]` is out of range. -/
def statsOf : bundle → Option BundleStats
  | [] => some []
  | (id, rb) :: rest =>
    match rb.stsdest[0]? with
    | none => none
    | some s =>
      match statsOf rest with
      | none => none
      | some stats => some ((id, s.GetStats) :: stats)

/-- Method `StreamBundle.GetStats`. -/
def GetStats (sb : StreamBundle) : Option BundleStats :=
  statsOf sb.get

/-- The states of a bundle that can be reached from construction by calls of `resync`, `Send`
and `Close` that return; `GetStats` leaves the state as it is. -/
inductive Reachable : StreamBundle → Prop where
  | construct (wire : String → Nat → Nat → Bool) (smap : Smap) (lsnode : Snode)
      (network trname : String) (extra : Option Extra) (ntype : Int) (multiplier : List Int)
      (sb : StreamBundle)
      (h : NewStreamBundle wire smap lsnode network trname extra ntype multiplier = some sb) :
      Reachable sb
  | resync (wire : String → Nat → Nat → Bool) (sb : StreamBundle) (smap : Smap)
      (r : ResyncResult) (hsb : Reachable sb) (h : resync wire sb smap = some r) :
      Reachable r.sb
  | send (sb : StreamBundle) (heap : List Int) (hdr : Header) (reader : Option ReadOpenCloser)
      (cb : Option SendCallback) (nodes : Option (List Snode)) (hsb : Reachable sb)
      (h : (Send sb heap hdr reader cb nodes).out ≠ Outcome.panic) :
      Reachable (Send sb heap hdr reader cb nodes).sb
  | close (sb sb2 : StreamBundle) (gracefully : Bool) (hsb : Reachable sb)
      (h : Close sb gracefully = some sb2) : Reachable sb2

/-! ## States, runs and the notions the statements use -/

/-- The role-selected node IDs of a snapshot: targets, proxies, or both. -/
def selected (ntype : Int) (smap : Smap) : List String :=
  if ntype = Targets then mapKeys smap.Tmap
  else if ntype = Proxies then mapKeys smap.Pmap
  else mapKeys smap.Tmap ++ mapKeys smap.Pmap

/-- The role selectors that `NewStreamBundle` admits. -/
def validRole (ntype : Int) : Prop :=
  ntype = Targets ∨ ntype = Proxies ∨ ntype = AllNodes

/-- Every robin of the bundle has exactly `m` streams. -/
def robinsHave (m : Nat) (b : bundle) : Prop :=
  ∀ k rb, mapGet b k = some rb → rb.stsdest.length = m

/-- The state of a bundle between two reconciliations: the role is one of the three selectors,
the keys of the published bundle are the role-selected nodes of the remembered snapshot other
than the local node, and every robin has `multiplier` streams. -/
structure Synced (sb : StreamBundle) : Prop where
  role : validRole sb.rxNodeType
  keys : ∀ k, k ∈ mapKeys sb.get ↔
    k ∈ selected sb.rxNodeType sb.smap ∧ k ≠ sb.lsnode.DaemonID
  lens : robinsHave sb.multiplier.toNat sb.get

/-- The multiplier a call of `NewStreamBundle` asks for: the first variadic argument, else 1. -/
def multiplierOf (multiplier : List Int) : Int :=
  match multiplier with
  | [] => 1
  | m :: _ => m

/-- The variadic multiplier passes the assertion of `NewStreamBundle`, or is omitted. -/
def validMultiplier (multiplier : List Int) : Prop :=
  match multiplier with
  | [] => True
  | m :: _ => 1 < m ∧ m < 256

/-- The bundle object as `NewStreamBundle` has it right before its call of `resync`. -/
def unsynced (lsnode : Snode) (network trname : String) (extra : Option Extra) (ntype : Int)
    (m : Int) : StreamBundle :=
  { smap := { Version := 0, Tmap := [], Pmap := [] }, lsnode := lsnode, network := network,
    trname := trname, streams := none, extra := extra.getD { Callback := none },
    rxNodeType := ntype, multiplier := m }

/-- The role selects no node other than the local one. -/
def noRemotePeers (ntype : Int) (smap : Smap) (lsnode : Snode) : Prop :=
  ∀ k ∈ selected ntype smap, k = lsnode.DaemonID

/-- The robin is as `resync` built it and can take `n` more sends before its counter leaves the
non-negative range of `int64`. -/
def robinOK (sb : StreamBundle) (n : Nat) (rb : robin) : Prop :=
  rb.stsdest.length = sb.multiplier.toNat ∧ 0 ≤ rb.i ∧ rb.i + n < 9223372036854775808

/-- Every stream of the robin accepts every send. -/
def accepting (rb : robin) : Prop :=
  ∀ s ∈ rb.stsdest, ∀ n, s.refuses n = false

/-- The index `sendOne` computes for a robin whose counter has not wrapped: the incremented
counter modulo the multiplier, or 0 when the multiplier is 1. -/
def pickIndex (sb : StreamBundle) (rb : robin) : Nat :=
  if sb.multiplier > 1 then ((rb.i + 1) % sb.multiplier).toNat else 0

/-- The counter `sendOne` leaves in a robin whose counter has not wrapped. -/
def nextCounter (sb : StreamBundle) (rb : robin) : Int :=
  if sb.multiplier > 1 then rb.i + 1 else rb.i

/-- The arguments of one `sendOne` call on a given robin. -/
structure SendArgs where
  hdr : Header
  reader : Option ReadOpenCloser
  cb : Option SendCallback
  prc : Option Nat
  reopen : Bool

/-- Sequential sends to one destination: `sendOne` is called on the same robin once for every
entry of `calls`, in order. -/
def sendMany (sb : StreamBundle) (rb : robin) (calls : List SendArgs) : robin :=
  calls.foldl (fun r a => (sendOne sb r a.hdr a.reader a.cb a.prc a.reopen).robin) rb

/-- The number of handoffs that stream `k` of `m` gets out of `N` sends. -/
def share (m N k : Nat) : Nat :=
  N / m + (if 1 ≤ k ∧ k ≤ N % m then 1 else 0)

/-- One `resync` per snapshot the oracle publishes, in order. -/
def resyncAll (wire : String → Nat → Nat → Bool) : StreamBundle → List Smap → Option StreamBundle
  | sb, [] => some sb
  | sb, smap :: rest =>
    match resync wire sb smap with
    | none => none
    | some r => resyncAll wire r.sb rest

/-- Construction while the oracle holds the first snapshot, then one `resync` for each of the
later snapshots. -/
def bundleAfter (wire : String → Nat → Nat → Bool) (lsnode : Snode) (network trname : String)
    (extra : Option Extra) (ntype : Int) (multiplier : List Int) : List Smap → Option StreamBundle
  | [] => none
  | smap :: rest =>
    match NewStreamBundle wire smap lsnode network trname extra ntype multiplier with
    | none => none
    | some sb => resyncAll wire sb rest

/-- The versions of the snapshots are positive and strictly increasing. -/
def increasingVersions (snaps : List Smap) : Prop :=
  List.Chain (fun a b => a < b) (0 : Int) (snaps.map (fun s => s.Version))

/-- The number of destinations of a fanout: the size of the bundle for a broadcast, the length
of the node list for a targeted send. -/
def fanoutWidth (sb : StreamBundle) (nodes : Option (List Snode)) : Nat :=
  match nodes with
  | none => sb.get.length
  | some ns => ns.length

/-- The send gets past the checks of `Send`: the bundle is not empty and, for a targeted send,
every listed node is a key of the bundle. -/
def reachesFanout (sb : StreamBundle) (nodes : Option (List Snode)) : Prop :=
  sb.get ≠ [] ∧ ∀ ns, nodes = some ns → ∀ di ∈ ns, (mapGet sb.get di.DaemonID).isSome = true

/-- Every robin of the bundle is well formed, can take `n` more sends, and has accepting
streams. -/
def bundleOK (sb : StreamBundle) (n : Nat) (bun : bundle) : Prop :=
  ∀ p ∈ bun, robinOK sb n p.2 ∧ accepting p.2

/-- The children returned by `n` successive `Open()` calls on a reader opened `o` times. -/
def reopenedFrom (o n : Nat) : List ReadCloser :=
  (List.range n).map (fun j => ReadCloser.reopened (o + j + 1))

/-- The readers a fanout over `n` destinations hands out, in order, when every `Open()`
succeeds: with `reopen` unset the first destination gets the caller's reader. -/
def handedReaders (reopen : Bool) (o : Nat) (n : Nat) : List ReadCloser :=
  match reopen, n with
  | true, n => reopenedFrom o n
  | false, 0 => []
  | false, n + 1 => ReadCloser.caller :: reopenedFrom o n

/-- The number of `Open()` calls of a fanout over `n` destinations. -/
def opensOf (reopen : Bool) (n : Nat) : Nat :=
  if reopen then n else n - 1

/-- The projection of a trace on the destination and the reader handed to it. -/
def readersOfTrace (t : List (String × Nat × Handoff)) : List (String × ReadCloser) :=
  t.map (fun e => (e.1, e.2.2.reader))

/-- The destinations of a fanout in the order they are processed. -/
def fanoutIDs (sb : StreamBundle) (nodes : Option (List Snode)) : List String :=
  match nodes with
  | none => mapKeys sb.get
  | some ns => ns.map (fun di => di.DaemonID)

/-- The largest number of sends one robin can get from one fanout: one in a broadcast, the
length of the node list (which may repeat a node) in a targeted send. -/
def fanoutLoad (nodes : Option (List Snode)) : Nat :=
  match nodes with
  | none => 1
  | some ns => ns.length

/-! ## Concrete inputs used by the evaluations below -/

/-- A header. -/
def hdrA : Header := { Objname := "obj", Size := 8 }

/-- A node with the given ID and no URL. -/
def nodeOf (id : String) : Snode := { DaemonID := id, urls := [] }

/-- An active stream that accepts every send. -/
def streamA : Stream := NewStream (fun _ => false) "http://a/v1/transport/tr"

/-- A reader whose every `Open()` succeeds. -/
def readerA : ReadOpenCloser := { opened := 0, openFails := fun _ => false }

/-- A reader whose first `Open()` succeeds and whose second `Open()` returns an error. -/
def readerB : ReadOpenCloser := { opened := 0, openFails := fun n => n == 2 }

/-- A bundle object with the given published pointer and multiplier, serving targets. -/
def sbOf (streams : Option bundle) (m : Int) : StreamBundle :=
  { smap := { Version := 1, Tmap := [], Pmap := [] }, lsnode := nodeOf "local", network := "data",
    trname := "tr", streams := streams, extra := { Callback := none }, rxNodeType := Targets,
    multiplier := m }

/-- A bundle of one destination with one accepting stream, multiplier 1. -/
def sbOne : StreamBundle :=
  sbOf (some [("t1", ⟨[streamA], 0⟩)]) 1

/-- A bundle of two destinations with one accepting stream each, multiplier 1. -/
def sbTwo : StreamBundle :=
  sbOf (some [("t1", ⟨[streamA], 0⟩), ("t2", ⟨[streamA], 0⟩)]) 1

/-- A bundle of three destinations with one accepting stream each, multiplier 1. -/
def sbThree : StreamBundle :=
  sbOf (some [("t1", ⟨[streamA], 0⟩), ("t2", ⟨[streamA], 0⟩), ("t3", ⟨[streamA], 0⟩)]) 1

/-- A wire on which every stream accepts every send. -/
def wireA : String → Nat → Nat → Bool := fun _ _ _ => false

/-- A snapshot of version 1 whose only target is the local node. -/
def smapLocalOnly : Smap :=
  { Version := 1, Tmap := [("local", nodeOf "local")], Pmap := [] }

/-- A snapshot of version 1 with two targets besides the local node. -/
def smapTwoTargets : Smap :=
  { Version := 1,
    Tmap := [("local", nodeOf "local"), ("t1", nodeOf "t1"), ("t2", nodeOf "t2")],
    Pmap := [("p1", nodeOf "p1")] }

/-- A snapshot of version 2: target t1 has become a proxy and target t3 has joined. -/
def smapNext : Smap :=
  { Version := 2,
    Tmap := [("local", nodeOf "local"), ("t2", nodeOf "t2"), ("t3", nodeOf "t3")],
    Pmap := [("p1", nodeOf "p1"), ("t1", nodeOf "t1")] }

/-- A fresh robin of two accepting streams. -/
def robinA2 : robin := { stsdest := [streamA, streamA], i := 0 }

/-- Three header-only sends. -/
def callsA3 : List SendArgs :=
  [⟨hdrA, none, none, none, false⟩, ⟨hdrA, none, none, none, false⟩,
   ⟨hdrA, none, none, none, false⟩]

/-! ## Further notions and inputs: close, statistics, long runs, resync -/

/-- A snapshot of version 0 that lists two targets besides the local node. -/
def smapZero : Smap :=
  { Version := 0,
    Tmap := [("local", nodeOf "local"), ("t1", nodeOf "t1"), ("t2", nodeOf "t2")],
    Pmap := [] }

/-- What `Close` is to do to one stream, in the words of the specification: nothing when the
stream is terminated, else one `Fin` when graceful and one `Stop` when not. -/
def closedStream (gracefully : Bool) (s : Stream) : Stream :=
  if s.terminated then s else if gracefully then s.Fin else s.Stop

/-- What `Close` is to do to a bundle: `closedStream` on every stream of every robin. -/
def closedBundle (gracefully : Bool) (bun : bundle) : bundle :=
  bun.map (fun p => (p.1, { p.2 with stsdest := p.2.stsdest.map (closedStream gracefully) }))

/-- A robin of three accepting streams whose counter holds the largest `int64`. -/
def robinFull : robin :=
  { stsdest := [streamA, streamA, streamA], i := 9223372036854775807 }

/-- Broadcasts in a row, as the loop of `Test_Bundle` makes them: `n` calls of `SendV` with a
header, no reader and a callback, each of which has to return nil. -/
def broadcasts : Nat → StreamBundle → Option StreamBundle
  | 0, sb => some sb
  | n + 1, sb =>
    if (SendV sb [] hdrA none (some 7) []).out = Outcome.ok then
      broadcasts n (SendV sb [] hdrA none (some 7) []).sb
    else none

/-- The scenario of `Test_Bundle` on a snapshot with targets t1 and t2: construction with
multiplier `m`, `n` broadcasts, a graceful `Close`, then `GetStats`. -/
def statsAfter (m : Int) (n : Nat) : Option BundleStats :=
  match NewStreamBundle wireA smapTwoTargets (nodeOf "local") "data" "tr" none Targets [m] with
  | none => none
  | some sb =>
    match broadcasts n sb with
    | none => none
    | some sb1 =>
      match Close sb1 true with
      | none => none
      | some sb2 => GetStats sb2

/-- Every robin stored in the bundle has exactly `m` streams. -/
def allRobins (m : Nat) (bun : bundle) : Prop :=
  ∀ p ∈ bun, p.2.stsdest.length = m

/-- A snapshot of version 1 with one target besides the local node. -/
def smapOneTarget : Smap :=
  { Version := 1, Tmap := [("local", nodeOf "local"), ("t1", nodeOf "t1")], Pmap := [] }

/-- The bundle that `NewStreamBundle` builds on `smapOneTarget` with multiplier 3. -/
def sbFresh : StreamBundle :=
  (NewStreamBundle wireA smapOneTarget (nodeOf "local") "data" "tr" none Targets [3]).getD
    (sbOf none 3)

/-- The state after `n` header-only broadcasts in a row, whatever each one returns. -/
def sendSeq : Nat → StreamBundle → StreamBundle
  | 0, sb => sb
  | n + 1, sb => sendSeq n (Send sb [] hdrA none none none).sb

/-- A snapshot of version 2 in which target t1 stays and target t2 joins. -/
def smapGrow : Smap :=
  { Version := 2,
    Tmap := [("local", nodeOf "local"), ("t1", nodeOf "t1"), ("t2", nodeOf "t2")],
    Pmap := [] }

/-- Two bundles have the same keys and, key by key, robins with as many streams. -/
def sameShape (b b2 : bundle) : Prop :=
  ∀ k, (mapGet b2 k).map (fun rb => rb.stsdest.length)
    = (mapGet b k).map (fun rb => rb.stsdest.length)

/-! ## Further notions and inputs: failed fanouts and the completion refcount -/

/-- Ghost counter of the broadcast loop of `Send`: the number of `sendOne` calls the loop
makes. The loop returns at the first call that does not return nil, which is then the last
one counted. -/
def broadcastCalls (sb : StreamBundle) (hdr : Header) (cb : Option SendCallback)
    (prc : Option Nat) : Bool → Option ReadOpenCloser → bundle → Nat
  | _, _, [] => 0
  | reopen, rd, (_, rb) :: rest =>
    let r := sendOne sb rb hdr rd cb prc reopen
    match r.out with
    | Outcome.ok => broadcastCalls sb hdr cb prc true r.reader rest + 1
    | _ => 1

/-- Ghost counter of the second loop of a targeted `Send`: the number of `sendOne` calls the
loop makes, the call on a nil robin included. -/
def targetedCalls (sb : StreamBundle) (hdr : Header) (cb : Option SendCallback)
    (prc : Option Nat) : Bool → Option ReadOpenCloser → bundle → List Snode → Nat
  | _, _, _, [] => 0
  | reopen, rd, bun, di :: rest =>
    match mapGet bun di.DaemonID with
    | none => 1
    | some rb =>
      let r := sendOne sb rb hdr rd cb prc reopen
      match r.out with
      | Outcome.ok =>
        targetedCalls sb hdr cb prc true r.reader (mapSet bun di.DaemonID r.robin) rest + 1
      | _ => 1

/-- Ghost counter of `Send`: the number of `sendOne` calls it makes, which is 0 when `Send`
returns before its fanout loop. When `Send` returns an error out of the loop, this is the
position, counted from 1, of the destination at which it failed. -/
def sendCalls (sb : StreamBundle) (heap : List Int) (hdr : Header)
    (reader : Option ReadOpenCloser) (cb : Option SendCallback) (nodes : Option (List Snode)) :
    Nat :=
  let streams := sb.get
  if streams.length = 0 then 0
  else
    let cb1 := effectiveCb sb cb
    match nodes with
    | none =>
      let alloc : Bool := cb1.isSome && decide (streams.length > 1)
      let prc : Option Nat := if alloc then some heap.length else none
      broadcastCalls sb hdr cb1 prc false reader streams
    | some ns =>
      match ns.find? (fun di => (mapGet streams di.DaemonID).isNone) with
      | some _ => 0
      | none =>
        let alloc : Bool := cb1.isSome && decide (ns.length > 1)
        let prc : Option Nat := if alloc then some heap.length else none
        targetedCalls sb hdr cb1 prc false reader streams ns

/-- The number of `Send` calls the stream has accepted so far: those it received and did not
answer with an error. -/
def Stream.accepted (s : Stream) : Nat :=
  ((List.range s.handed.length).filter (fun n => !s.refuses n)).length

/-- The number of `Send` calls the streams of the robin have accepted so far. -/
def robin.accepted (rb : robin) : Nat :=
  (rb.stsdest.map Stream.accepted).sum

/-- The number of `Send` calls the streams of the bundle have accepted so far. -/
def acceptedIn (bun : bundle) : Nat :=
  (bun.map (fun p => p.2.accepted)).sum

/-- Modelled from the spec: the completion of an accepted handoff decrements the shared
refcount it carries by one, and the callback fires when the refcount reaches zero. The result
is the value of the refcount at address `a` after `c` completions. -/
def refcountAfter (heap : List Int) (a : Nat) (c : Nat) : Option Int :=
  heap[a]?.map (fun v => v - (c : Int))

/-- A stream that answers every send with an error. -/
def streamR : Stream := NewStream (fun _ => true) "http://r/v1/transport/tr"

/-- A bundle of three destinations, multiplier 1, in which the stream to `t2` answers every
send with an error. -/
def sbRefusing : StreamBundle :=
  sbOf (some [("t1", ⟨[streamA], 0⟩), ("t2", ⟨[streamR], 0⟩), ("t3", ⟨[streamA], 0⟩)]) 1

/-- The bundle `sbTwo` with the default callback 9 in its `Extra`. -/
def sbTwoDefault : StreamBundle :=
  { sbTwo with extra := { Callback := some 9 } }

/-! ## Facts about maps -/

theorem mapGet_mapSet {V : Type} (m : List (String × V)) (k k2 : String) (v : V) :
    mapGet (mapSet m k v) k2 = if k = k2 then some v else mapGet m k2 := by
  induction m with
  | nil => simp [mapSet, mapGet]
  | cons p rest ih =>
    obtain ⟨k1, v1⟩ := p
    by_cases h1 : k1 = k
    · subst h1
      by_cases h2 : k1 = k2 <;> simp [mapSet, mapGet, h2]
    · by_cases h2 : k1 = k2
      · subst h2
        simp [mapSet, mapGet, h1, Ne.symm h1]
      · simp [mapSet, mapGet, h1, h2, ih]

theorem mapGet_mapDel {V : Type} (m : List (String × V)) (k k2 : String) :
    mapGet (mapDel m k) k2 = if k = k2 then none else mapGet m k2 := by
  induction m with
  | nil => simp [mapDel, mapGet]
  | cons p rest ih =>
    obtain ⟨k1, v1⟩ := p
    by_cases h1 : k1 = k
    · subst h1
      by_cases h2 : k1 = k2
      · subst h2
        simpa [mapDel, mapGet] using ih
      · simp [mapDel, mapGet, h2, ih]
    · by_cases h2 : k1 = k2
      · subst h2
        simp [mapDel, mapGet, h1, Ne.symm h1]
      · simp [mapDel, mapGet, h1, h2, ih]

theorem mem_mapKeys_iff {V : Type} (m : List (String × V)) (k : String) :
    k ∈ mapKeys m ↔ (mapGet m k).isSome = true := by
  induction m with
  | nil => simp [mapKeys, mapGet]
  | cons p rest ih =>
    obtain ⟨k1, v1⟩ := p
    have ih2 : k ∈ List.map Prod.fst rest ↔ (mapGet rest k).isSome = true := ih
    by_cases h1 : k1 = k
    · simp [mapKeys, mapGet, h1]
    · have h3 : ¬ k = k1 := fun h => h1 h.symm
      simp only [mapKeys, mapGet, h1, List.map_cons, List.mem_cons, h3, false_or, if_false]
      exact ih2

theorem mapGet_mem {V : Type} (m : List (String × V)) (k : String) (v : V)
    (h : mapGet m k = some v) : (k, v) ∈ m := by
  induction m with
  | nil => simp [mapGet] at h
  | cons p rest ih =>
    obtain ⟨k1, v1⟩ := p
    by_cases h1 : k1 = k
    · simp [mapGet, h1] at h
      simp [h1, h]
    · simp [mapGet, h1] at h
      exact List.mem_cons_of_mem _ (ih h)

theorem mapGet_foldl_mapSet {V : Type} (l acc : List (String × V)) (k : String) :
    (mapGet (l.foldl (fun a p => mapSet a p.1 p.2) acc) k).isSome = true ↔
      (mapGet acc k).isSome = true ∨ k ∈ mapKeys l := by
  induction l generalizing acc with
  | nil => simp [mapKeys]
  | cons p rest ih =>
    rw [List.foldl_cons, ih, mapGet_mapSet]
    by_cases h : p.1 = k
    · simp [mapKeys, h]
    · have h3 : ¬ k = p.1 := fun e => h e.symm
      simp [mapKeys, h, h3]

theorem mem_mapKeys_mapOfList {V : Type} (l : List (String × V)) (k : String) :
    k ∈ mapKeys (mapOfList l) ↔ k ∈ mapKeys l := by
  rw [mem_mapKeys_iff, mapOfList, mapGet_foldl_mapSet]
  simp [mapGet]

theorem mem_mapKeys_filter {V : Type} (l : List (String × V)) (q : String → Bool) (k : String) :
    k ∈ mapKeys (l.filter (fun p => q p.1)) ↔ k ∈ mapKeys l ∧ q k = true := by
  simp only [mapKeys, List.mem_map, List.mem_filter]
  constructor
  · rintro ⟨p, ⟨hp, hq⟩, rfl⟩
    exact ⟨⟨p, hp, rfl⟩, hq⟩
  · rintro ⟨⟨p, hp, rfl⟩, hq⟩
    exact ⟨p, ⟨hp, hq⟩, rfl⟩

/-- The key sets that the modelled `NodeMapDelta` returns. -/
theorem NodeMapDelta_keys (old new : List NodeMap) (k : String) :
    (k ∈ mapKeys (NodeMapDelta old new).1 ↔
      k ∈ mapKeys new.flatten ∧ k ∉ mapKeys old.flatten) ∧
    (k ∈ mapKeys (NodeMapDelta old new).2 ↔
      k ∈ mapKeys old.flatten ∧ k ∉ mapKeys new.flatten) := by
  have key : ∀ a b : NodeMap, k ∈ mapKeys (mapOfList (a.filter (fun p => (mapGet b p.1).isNone)))
      ↔ k ∈ mapKeys a ∧ k ∉ mapKeys b := by
    intro a b
    rw [mem_mapKeys_mapOfList, mem_mapKeys_filter a (fun x => (mapGet b x).isNone) k,
      mem_mapKeys_iff b k]
    cases mapGet b k <;> simp
  exact ⟨key _ _, key _ _⟩

/-! ## Facts about resync -/

theorem roleMaps_of_valid (ntype : Int) (smap : Smap) (h : validRole ntype) :
    ∃ ms, roleMaps ntype smap = some ms ∧ mapKeys ms.flatten = selected ntype smap := by
  rcases h with h | h | h
  · exact ⟨[smap.Tmap], by simp [roleMaps, h], by simp [selected, h]⟩
  · exact ⟨[smap.Pmap], by simp [roleMaps, h, Proxies, Targets],
      by simp [selected, h, Proxies, Targets]⟩
  · exact ⟨[smap.Tmap, smap.Pmap], by simp [roleMaps, h, Proxies, Targets, AllNodes],
      by simp [selected, h, Proxies, Targets, AllNodes, mapKeys]⟩

theorem mapKeys_mapSet {V : Type} (m : List (String × V)) (k : String) (v : V) :
    mapKeys (mapSet m k v) = if k ∈ mapKeys m then mapKeys m else mapKeys m ++ [k] := by
  induction m with
  | nil => simp [mapSet, mapKeys]
  | cons p rest ih =>
    obtain ⟨k1, v1⟩ := p
    have ih2 : List.map Prod.fst (mapSet rest k v)
        = if k ∈ List.map Prod.fst rest then List.map Prod.fst rest
          else List.map Prod.fst rest ++ [k] := ih
    by_cases h1 : k1 = k
    · simp [mapSet, mapKeys, h1]
    · have h3 : ¬ k = k1 := fun e => h1 e.symm
      by_cases h4 : k ∈ List.map Prod.fst rest
      · simp only [mapSet, h1, if_false, mapKeys, List.map_cons, ih2, h4, if_true, List.mem_cons,
          or_true]
      · simp only [mapSet, h1, if_false, mapKeys, List.map_cons, ih2, h4, List.mem_cons, h3,
          or_self, List.cons_append]

theorem nodup_mapKeys_mapOfList {V : Type} (l : List (String × V)) :
    (mapKeys (mapOfList l)).Nodup := by
  have gen : ∀ (l acc : List (String × V)), (mapKeys acc).Nodup →
      (mapKeys (l.foldl (fun a p => mapSet a p.1 p.2) acc)).Nodup := by
    intro l
    induction l with
    | nil => intro acc h; simpa using h
    | cons p rest ih =>
      intro acc h
      rw [List.foldl_cons]
      apply ih
      rw [mapKeys_mapSet]
      by_cases hk : p.1 ∈ mapKeys acc
      · simpa [hk] using h
      · simp only [hk, if_false]
        rw [List.nodup_append]
        refine ⟨h, List.nodup_singleton _, ?_⟩
        intro a ha hb
        simp only [List.mem_singleton] at hb
        subst hb
        exact hk ha
  exact gen l [] (by simp [mapKeys])

theorem addLoop_spec (wire : String → Nat → Nat → Bool) (sb : StreamBundle)
    (l : List (String × Snode)) (acc : bundle × List (String × Nat × String))
    (hlen : robinsHave sb.multiplier.toNat acc.1) :
    robinsHave sb.multiplier.toNat (addLoop wire sb acc l).1 ∧
    ∀ k, (mapGet (addLoop wire sb acc l).1 k).isSome = true ↔
      (mapGet acc.1 k).isSome = true ∨ (k ∈ mapKeys l ∧ k ≠ sb.lsnode.DaemonID) := by
  induction l generalizing acc with
  | nil => simp [addLoop, mapKeys, hlen]
  | cons p rest ih =>
    obtain ⟨id, si⟩ := p
    by_cases hid : id = sb.lsnode.DaemonID
    · have h := ih acc hlen
      simp only [addLoop, hid, if_true]
      refine ⟨h.1, fun k => ?_⟩
      rw [h.2 k]
      by_cases hk : k = sb.lsnode.DaemonID
      · simp [hk]
      · simp [mapKeys, hk]
    · have hlen2 : robinsHave sb.multiplier.toNat
          (mapSet acc.1 id (newRobin wire sb (si.URL sb.network ++ transportPath sb.trname))) := by
        intro k rb hk
        rw [mapGet_mapSet] at hk
        by_cases hkid : id = k
        · simp only [hkid, if_true, Option.some.injEq] at hk
          rw [← hk]
          simp [newRobin]
        · simp only [hkid, if_false] at hk
          exact hlen k rb hk
      have h := ih (mapSet acc.1 id (newRobin wire sb (si.URL sb.network ++ transportPath sb.trname)),
        acc.2 ++ (List.range sb.multiplier.toNat).map
          (fun k => (id, k, si.URL sb.network ++ transportPath sb.trname))) hlen2
      simp only [addLoop, hid, if_false]
      refine ⟨h.1, fun k => ?_⟩
      rw [h.2 k, mapGet_mapSet]
      by_cases hkid : id = k
      · subst hkid
        simp [mapKeys, hid]
      · have h3 : ¬ k = id := fun e => hkid e.symm
        simp [mapKeys, hkid, h3]

theorem stopStreams_spec (m : Nat) (rb : robin) (h : m ≤ rb.stsdest.length) :
    ∃ rb2, stopStreams m rb = some rb2 ∧ rb2.stsdest.length = rb.stsdest.length := by
  induction m with
  | zero => exact ⟨rb, by simp [stopStreams], rfl⟩
  | succ n ih =>
    obtain ⟨r1, hr1, hl1⟩ := ih (Nat.le_of_succ_le h)
    have hn : n < r1.stsdest.length := by omega
    unfold stopStreams at hr1 ⊢
    rw [List.range_succ, List.foldlM_append, hr1]
    simp only [Option.bind_eq_bind, Option.some_bind, List.foldlM_cons, List.foldlM_nil]
    rw [List.getElem?_eq_getElem hn]
    by_cases ht : (r1.stsdest[n]).Terminated = true
    · exact ⟨r1, by simp [ht], hl1⟩
    · exact ⟨{ r1 with stsdest := r1.stsdest.set n (r1.stsdest[n]).Stop }, by simp [ht],
        by simp [hl1]⟩

theorem removeLoop_spec (sb : StreamBundle) (l : List (String × Snode))
    (acc : bundle × List (String × robin))
    (hnd : (mapKeys l).Nodup)
    (hin : ∀ k ∈ mapKeys l, k ≠ sb.lsnode.DaemonID → (mapGet acc.1 k).isSome = true)
    (hlen : robinsHave sb.multiplier.toNat acc.1) :
    ∃ res, removeLoop sb acc l = some res ∧
      ∀ k, mapGet res.1 k
        = if k ∈ mapKeys l ∧ k ≠ sb.lsnode.DaemonID then none else mapGet acc.1 k := by
  induction l generalizing acc with
  | nil => exact ⟨acc, by simp [removeLoop], by simp [mapKeys]⟩
  | cons p rest ih =>
    obtain ⟨id, si⟩ := p
    have hnd2 : (mapKeys rest).Nodup := by
      simp only [mapKeys, List.map_cons, List.nodup_cons] at hnd
      exact hnd.2
    have hnotin : id ∉ mapKeys rest := by
      simp only [mapKeys, List.map_cons, List.nodup_cons] at hnd
      exact hnd.1
    by_cases hid : id = sb.lsnode.DaemonID
    · obtain ⟨res, hres, hget⟩ := ih acc hnd2
        (fun k hk hne => hin k (by simp [mapKeys] at hk ⊢; exact Or.inr hk) hne) hlen
      refine ⟨res, by simp [removeLoop, hid, hres], fun k => ?_⟩
      rw [hget k]
      by_cases hk : k = sb.lsnode.DaemonID
      · simp [hk]
      · have h3 : ¬ k = id := fun e => hk (e.trans hid)
        simp only [mapKeys, List.map_cons]
        exact if_congr (by simp [h3]) rfl rfl
    · have hsome := hin id (by simp [mapKeys]) hid
      obtain ⟨orobin, horobin⟩ := Option.isSome_iff_exists.mp hsome
      have hl := hlen id orobin horobin
      obtain ⟨stopped, hstop, _⟩ := stopStreams_spec sb.multiplier.toNat orobin (by omega)
      have hin2 : ∀ k ∈ mapKeys rest, k ≠ sb.lsnode.DaemonID →
          (mapGet (mapDel acc.1 id) k).isSome = true := by
        intro k hk hne
        rw [mapGet_mapDel]
        have hkid : ¬ id = k := fun e => hnotin (e ▸ hk)
        simp only [hkid, if_false]
        exact hin k (by simp [mapKeys] at hk ⊢; exact Or.inr hk) hne
      have hlen2 : robinsHave sb.multiplier.toNat (mapDel acc.1 id) := by
        intro k rb hk
        rw [mapGet_mapDel] at hk
        by_cases hkid : id = k
        · simp [hkid] at hk
        · simp only [hkid, if_false] at hk
          exact hlen k rb hk
      obtain ⟨res, hres, hget⟩ := ih (mapDel acc.1 id, acc.2 ++ [(id, stopped)]) hnd2 hin2 hlen2
      refine ⟨res, by simp [removeLoop, hid, horobin, hstop, hres], fun k => ?_⟩
      rw [hget k, mapGet_mapDel]
      by_cases hkid : id = k
      · subst hkid
        simp [mapKeys, hid]
      · have h3 : ¬ k = id := fun e => hkid e.symm
        simp only [mapKeys, List.map_cons, hkid, if_false]
        exact if_congr (by simp [h3]) rfl rfl

theorem resync_step (wire : String → Nat → Nat → Bool) (sb : StreamBundle) (smap : Smap)
    (hs : Synced sb) (hv : smap.Version > sb.smap.Version) :
    ∃ r, resync wire sb smap = some r ∧ Synced r.sb ∧ r.sb.smap = smap ∧
      (∃ bun, r.sb.streams = some bun) ∧ r.sb.lsnode = sb.lsnode ∧
      r.sb.rxNodeType = sb.rxNodeType ∧ r.sb.multiplier = sb.multiplier := by
  obtain ⟨old, hold, holdk⟩ := roleMaps_of_valid sb.rxNodeType sb.smap hs.role
  obtain ⟨new, hnew, hnewk⟩ := roleMaps_of_valid sb.rxNodeType smap hs.role
  have hne : ¬ smap.Version = sb.smap.Version := by omega
  have hgt : smap.Version > sb.smap.Version := hv
  have hadd := addLoop_spec wire sb (NodeMapDelta old new).1 (sb.get, []) hs.lens
  have hdk := fun k => NodeMapDelta_keys old new k
  have hin : ∀ k ∈ mapKeys (NodeMapDelta old new).2, k ≠ sb.lsnode.DaemonID →
      (mapGet (addLoop wire sb (sb.get, []) (NodeMapDelta old new).1).1 k).isSome = true := by
    intro k hk hne2
    rw [hadd.2 k]
    left
    rw [← mem_mapKeys_iff, hs.keys k, ← holdk]
    exact ⟨((hdk k).2.mp hk).1, hne2⟩
  have hnd : (mapKeys (NodeMapDelta old new).2).Nodup := nodup_mapKeys_mapOfList _
  obtain ⟨res, hres, hget⟩ := removeLoop_spec sb (NodeMapDelta old new).2
    ((addLoop wire sb (sb.get, []) (NodeMapDelta old new).1).1, []) hnd hin hadd.1
  refine ⟨{ sb := { sb with streams := some res.1, smap := smap },
            created := (addLoop wire sb (sb.get, []) (NodeMapDelta old new).1).2,
            removed := res.2 }, ?_, ?_, rfl, ⟨res.1, rfl⟩, rfl, rfl, rfl⟩
  · simp only [resync, hne, if_false, hgt, not_true_eq_false, hold, hnew, hres]
  · refine ⟨hs.role, fun k => ?_, ?_⟩
    · show k ∈ mapKeys res.1 ↔ k ∈ selected sb.rxNodeType smap ∧ k ≠ sb.lsnode.DaemonID
      rw [mem_mapKeys_iff, hget k, ← hnewk]
      have h1 := hadd.2 k
      have h2 := (hdk k).1
      have h3 := (hdk k).2
      have h4 := hs.keys k
      rw [← holdk, mem_mapKeys_iff] at h4
      by_cases hrm : k ∈ mapKeys (NodeMapDelta old new).2 ∧ k ≠ sb.lsnode.DaemonID
      · rw [if_pos hrm]
        have := h3.mp hrm.1
        constructor
        · intro hf
          simp at hf
        · intro hc
          exact absurd hc.1 this.2
      · rw [if_neg hrm, h1]
        constructor
        · rintro (hx | hx)
          · have hx2 := h4.mp hx
            refine ⟨?_, hx2.2⟩
            by_contra hc
            exact hrm ⟨h3.mpr ⟨hx2.1, hc⟩, hx2.2⟩
          · exact ⟨(h2.mp hx.1).1, hx.2⟩
        · rintro ⟨hx, hl⟩
          by_cases ho : k ∈ mapKeys old.flatten
          · exact Or.inl (h4.mpr ⟨ho, hl⟩)
          · exact Or.inr ⟨h2.mpr ⟨hx, ho⟩, hl⟩
    · intro k rb hk
      have hk2 : mapGet res.1 k = some rb := hk
      rw [hget k] at hk2
      by_cases hrm : k ∈ mapKeys (NodeMapDelta old new).2 ∧ k ≠ sb.lsnode.DaemonID
      · rw [if_pos hrm] at hk2
        cases hk2
      · rw [if_neg hrm] at hk2
        exact hadd.1 k rb hk2

/-! ## Targeted sends to a missing destination (C1) -/

theorem find_missing {streams : bundle} {ns : List Snode}
    (h : ∃ di ∈ ns, mapGet streams di.DaemonID = none) :
    ∃ d, ns.find? (fun di => (mapGet streams di.DaemonID).isNone) = some d ∧ d ∈ ns ∧
      mapGet streams d.DaemonID = none := by
  obtain ⟨di, hmem, hdi⟩ := h
  cases hf : ns.find? (fun di => (mapGet streams di.DaemonID).isNone) with
  | some d =>
    have h1 := List.find?_some hf
    have h2 := List.mem_of_find?_eq_some hf
    refine ⟨d, rfl, h2, ?_⟩
    cases hg : mapGet streams d.DaemonID with
    | none => rfl
    | some v => simp [hg] at h1
  | none =>
    rw [List.find?_eq_none] at hf
    have := hf di hmem
    simp [hdi] at this

/-- C1, as stated, fails on the empty bundle: a targeted send that names a node absent from an
empty bundle returns the no-streams error, not destination-mismatch. -/
theorem C1_empty_bundle_counterexample :
    mapGet (sbOf (some []) 1).get (nodeOf "t1").DaemonID = none ∧
    (Send (sbOf (some []) 1) [] hdrA (some readerA) none (some [nodeOf "t1"])).out
      = Outcome.error SendErr.noStreams ∧
    ¬ ∃ id, (Send (sbOf (some []) 1) [] hdrA (some readerA) none (some [nodeOf "t1"])).out
      = Outcome.error (SendErr.destinationMismatch id) := by
  refine ⟨rfl, rfl, ?_⟩
  rintro ⟨id, h⟩
  have h2 : (Send (sbOf (some []) 1) [] hdrA (some readerA) none (some [nodeOf "t1"])).out
      = Outcome.error SendErr.noStreams := rfl
  rw [h2] at h
  cases h

/-- C1 (amended): on a non-empty bundle, a targeted send that lists a node whose DaemonID is not
a key of the bundle returns destination-mismatch, naming a listed node that is missing, and
changes nothing: the bundle (streams and round-robin counters), the reader (no `Open()`) and
the refcount heap are as before, and no handoff is made. -/
theorem Send_destination_mismatch (sb : StreamBundle) (heap : List Int) (hdr : Header)
    (reader : Option ReadOpenCloser) (cb : Option SendCallback) (ns : List Snode)
    (hne : sb.get ≠ [])
    (hmiss : ∃ di ∈ ns, mapGet sb.get di.DaemonID = none) :
    ∃ d ∈ ns, mapGet sb.get d.DaemonID = none ∧
      (Send sb heap hdr reader cb (some ns)).out
        = Outcome.error (SendErr.destinationMismatch d.DaemonID) ∧
      (Send sb heap hdr reader cb (some ns)).sb = sb ∧
      (Send sb heap hdr reader cb (some ns)).reader = reader ∧
      (Send sb heap hdr reader cb (some ns)).heap = heap ∧
      (Send sb heap hdr reader cb (some ns)).trace = [] := by
  obtain ⟨d, hd, hmem, hnone⟩ := find_missing hmiss
  have hlen : ¬ sb.get.length = 0 := by
    intro h0
    exact hne (List.length_eq_zero.mp h0)
  refine ⟨d, hmem, hnone, ?_⟩
  simp [Send, hlen, hd]

/-- Witness of C1: the missing node is the last one of the list. -/
theorem Send_destination_mismatch_witness :
    sbOne.get ≠ [] ∧
    (∃ di ∈ [nodeOf "t1", nodeOf "t2"], mapGet sbOne.get di.DaemonID = none) ∧
    ∃ d ∈ [nodeOf "t1", nodeOf "t2"], mapGet sbOne.get d.DaemonID = none ∧
      (Send sbOne [] hdrA (some readerA) (some 7) (some [nodeOf "t1", nodeOf "t2"])).out
        = Outcome.error (SendErr.destinationMismatch d.DaemonID) ∧
      (Send sbOne [] hdrA (some readerA) (some 7) (some [nodeOf "t1", nodeOf "t2"])).sb
        = sbOne ∧
      (Send sbOne [] hdrA (some readerA) (some 7) (some [nodeOf "t1", nodeOf "t2"])).reader
        = some readerA ∧
      (Send sbOne [] hdrA (some readerA) (some 7) (some [nodeOf "t1", nodeOf "t2"])).heap
        = [] ∧
      (Send sbOne [] hdrA (some readerA) (some 7) (some [nodeOf "t1", nodeOf "t2"])).trace
        = [] :=
  have h1 : sbOne.get ≠ [] := by simp [sbOne, sbOf, StreamBundle.get]
  have h2 : ∃ di ∈ [nodeOf "t1", nodeOf "t2"], mapGet sbOne.get di.DaemonID = none :=
    ⟨nodeOf "t2", by simp, by simp [sbOne, sbOf, StreamBundle.get, mapGet, nodeOf]⟩
  ⟨h1, h2,
    Send_destination_mismatch sbOne [] hdrA (some readerA) (some 7)
      [nodeOf "t1", nodeOf "t2"] h1 h2⟩

/-! ## Construction -/

theorem NewStreamBundle_eq (wire : String → Nat → Nat → Bool) (smap : Smap) (lsnode : Snode)
    (network trname : String) (extra : Option Extra) (ntype : Int) (multiplier : List Int)
    (hr : validRole ntype) (hm : validMultiplier multiplier) :
    NewStreamBundle wire smap lsnode network trname extra ntype multiplier
      = (resync wire (unsynced lsnode network trname extra ntype (multiplierOf multiplier))
          smap).map (fun r => r.sb) := by
  have hr2 : ntype = Targets ∨ ntype = Proxies ∨ ntype = AllNodes := hr
  cases multiplier with
  | nil => simp [NewStreamBundle, hr2, unsynced, multiplierOf]
  | cons m rest =>
    have hm2 : 1 < m ∧ m < 256 := hm
    simp [NewStreamBundle, hr2, unsynced, multiplierOf, hm2]

theorem unsynced_Synced (lsnode : Snode) (network trname : String) (extra : Option Extra)
    (ntype : Int) (m : Int) (hr : validRole ntype) :
    Synced (unsynced lsnode network trname extra ntype m) := by
  refine ⟨hr, fun k => ?_, ?_⟩
  · have : selected ntype { Version := 0, Tmap := [], Pmap := [] } = [] := by
      unfold selected
      split_ifs <;> simp [mapKeys]
    simp [unsynced, StreamBundle.get, mapKeys, this]
  · intro k rb h
    simp [unsynced, StreamBundle.get, mapGet] at h

/-- What a successful construction establishes. -/
theorem NewStreamBundle_spec (wire : String → Nat → Nat → Bool) (smap : Smap) (lsnode : Snode)
    (network trname : String) (extra : Option Extra) (ntype : Int) (multiplier : List Int)
    (hr : validRole ntype) (hm : validMultiplier multiplier) (hv : 0 ≤ smap.Version) :
    ∃ sb, NewStreamBundle wire smap lsnode network trname extra ntype multiplier = some sb ∧
      Synced sb ∧ sb.lsnode = lsnode ∧ sb.rxNodeType = ntype ∧
      sb.multiplier = multiplierOf multiplier ∧
      (0 < smap.Version → sb.smap = smap ∧ ∃ bun, sb.streams = some bun) ∧
      (smap.Version = 0 → sb.streams = none) := by
  rw [NewStreamBundle_eq wire smap lsnode network trname extra ntype multiplier hr hm]
  have hs := unsynced_Synced lsnode network trname extra ntype (multiplierOf multiplier) hr
  by_cases h0 : smap.Version = 0
  · refine ⟨unsynced lsnode network trname extra ntype (multiplierOf multiplier), ?_, hs, rfl, rfl,
      rfl, ?_, fun _ => rfl⟩
    · simp [resync, unsynced, h0]
    · intro hpos
      omega
  · have hgt : smap.Version
        > (unsynced lsnode network trname extra ntype (multiplierOf multiplier)).smap.Version := by
      show smap.Version > 0
      omega
    obtain ⟨r, hr1, hr2, hr3, hr4, hr5, hr6, hr7⟩ := resync_step wire _ smap hs hgt
    refine ⟨r.sb, by simp [hr1], hr2, hr5, hr6, hr7, fun _ => ⟨hr3, hr4⟩, fun h => absurd h h0⟩

/-! ## Sends on an empty bundle (C2) -/

theorem Send_of_get_nil (sb : StreamBundle) (heap : List Int) (hdr : Header)
    (reader : Option ReadOpenCloser) (cb : Option SendCallback) (nodes : Option (List Snode))
    (h : sb.get = []) :
    Send sb heap hdr reader cb nodes
      = { out := Outcome.error SendErr.noStreams, sb := sb, reader := reader, heap := heap,
          trace := [] } := by
  simp [Send, h]

theorem get_nil_of_unpublished (sb : StreamBundle)
    (h : sb.streams = none ∨ sb.streams = some []) : sb.get = [] := by
  rcases h with h | h <;> simp [StreamBundle.get, h]

/-- C2: a `Send` (broadcast or targeted, any header, reader, callback and node list) on a bundle
whose published pointer is nil or points to an empty map returns the no-streams error, makes no
handoff, leaves the bundle, the refcount heap and the reader (no `Open()`) as they were; and
construction over a snapshot that selects no remote peer succeeds and yields such a bundle, on
which every send fails in this way. -/
theorem Send_no_streams (sb : StreamBundle) (heap : List Int) (hdr : Header)
    (reader : Option ReadOpenCloser) (cb : Option SendCallback) (nodes : Option (List Snode))
    (wire : String → Nat → Nat → Bool) (smap : Smap) (lsnode : Snode) (network trname : String)
    (extra : Option Extra) (ntype : Int) (multiplier : List Int)
    (hempty : sb.streams = none ∨ sb.streams = some [])
    (hr : validRole ntype) (hm : validMultiplier multiplier) (hv : 0 ≤ smap.Version)
    (hpeers : noRemotePeers ntype smap lsnode) :
    Send sb heap hdr reader cb nodes
      = { out := Outcome.error SendErr.noStreams, sb := sb, reader := reader, heap := heap,
          trace := [] } ∧
    ∃ sb2, NewStreamBundle wire smap lsnode network trname extra ntype multiplier = some sb2 ∧
      (sb2.streams = none ∨ sb2.streams = some []) ∧
      Send sb2 heap hdr reader cb nodes
        = { out := Outcome.error SendErr.noStreams, sb := sb2, reader := reader, heap := heap,
            trace := [] } := by
  refine ⟨Send_of_get_nil sb heap hdr reader cb nodes (get_nil_of_unpublished sb hempty), ?_⟩
  obtain ⟨sb2, h1, h2, h3, h4, _, h6, h7⟩ :=
    NewStreamBundle_spec wire smap lsnode network trname extra ntype multiplier hr hm hv
  have hemp2 : sb2.streams = none ∨ sb2.streams = some [] := by
    by_cases h0 : smap.Version = 0
    · exact Or.inl (h7 h0)
    · obtain ⟨hsm, bun, hbun⟩ := h6 (by omega)
      right
      rw [hbun]
      congr
      cases bun with
      | nil => rfl
      | cons p rest =>
        exfalso
        have hk : p.1 ∈ mapKeys sb2.get := by
          simp [StreamBundle.get, hbun, mapKeys]
        have hk2 := (h2.keys p.1).mp hk
        rw [h4, hsm, h3] at hk2
        exact hk2.2 (hpeers p.1 hk2.1)
  exact ⟨sb2, h1, hemp2,
    Send_of_get_nil sb2 heap hdr reader cb nodes (get_nil_of_unpublished sb2 hemp2)⟩

/-- Witness of C2: a targeted send on a never published bundle, and construction on a snapshot
whose only target is the local node. -/
theorem Send_no_streams_witness :
    ((sbOf none 1).streams = none ∨ (sbOf none 1).streams = some []) ∧
    validRole Targets ∧ validMultiplier [] ∧ 0 ≤ smapLocalOnly.Version ∧
    noRemotePeers Targets smapLocalOnly (nodeOf "local") ∧
    Send (sbOf none 1) [] hdrA (some readerA) (some 7) (some [nodeOf "t1"])
      = { out := Outcome.error SendErr.noStreams, sb := sbOf none 1, reader := some readerA,
          heap := [], trace := [] } ∧
    ∃ sb2, NewStreamBundle wireA smapLocalOnly (nodeOf "local") "data" "tr" none Targets []
        = some sb2 ∧
      (sb2.streams = none ∨ sb2.streams = some []) ∧
      Send sb2 [] hdrA (some readerA) (some 7) (some [nodeOf "t1"])
        = { out := Outcome.error SendErr.noStreams, sb := sb2, reader := some readerA,
            heap := [], trace := [] } :=
  have h1 : (sbOf none 1).streams = none ∨ (sbOf none 1).streams = some [] := Or.inl rfl
  have h2 : validRole Targets := Or.inl rfl
  have h3 : validMultiplier [] := trivial
  have h4 : 0 ≤ smapLocalOnly.Version := by decide
  have h5 : noRemotePeers Targets smapLocalOnly (nodeOf "local") := by
    intro k hk
    simpa [selected, smapLocalOnly, mapKeys, nodeOf] using hk
  ⟨h1, h2, h3, h4, h5,
    Send_no_streams (sbOf none 1) [] hdrA (some readerA) (some 7) (some [nodeOf "t1"]) wireA
      smapLocalOnly (nodeOf "local") "data" "tr" none Targets [] h1 h2 h3 h4 h5⟩

/-! ## One send through a robin -/

theorem wrap64_id (x : Int) (h0 : -9223372036854775808 ≤ x) (h1 : x < 9223372036854775808) :
    wrap64 x = x := by
  unfold wrap64
  omega

theorem pickIndex_lt (sb : StreamBundle) (rb : robin) (n : Nat) (hm : 1 ≤ sb.multiplier)
    (hok : robinOK sb (n + 1) rb) : pickIndex sb rb < rb.stsdest.length := by
  obtain ⟨hlen, h0, _⟩ := hok
  unfold pickIndex
  by_cases h : sb.multiplier > 1
  · simp only [h, if_true]
    have h1 : 0 ≤ (rb.i + 1) % sb.multiplier := Int.emod_nonneg _ (by omega)
    have h2 : (rb.i + 1) % sb.multiplier < sb.multiplier := Int.emod_lt_of_pos _ (by omega)
    omega
  · simp only [h, if_false]
    omega

/-- The effect of `sendOne` once the reader is settled, on a well-formed robin. -/
theorem sendOne_of_open (sb : StreamBundle) (rb : robin) (hdr : Header)
    (reader : Option ReadOpenCloser) (cb : Option SendCallback) (prc : Option Nat)
    (reopen : Bool) (n : Nat) (reader2 : ReadCloser) (rd : Option ReadOpenCloser)
    (hm : 1 ≤ sb.multiplier) (hok : robinOK sb (n + 1) rb)
    (hopen : openFor reader reopen = some (reader2, rd)) :
    ∃ s, rb.stsdest[pickIndex sb rb]? = some s ∧
      sendOne sb rb hdr reader cb prc reopen =
        { out := if s.refuses s.handed.length then Outcome.error SendErr.streamSend
                 else Outcome.ok,
          robin := { stsdest := rb.stsdest.set (pickIndex sb rb) (s.Send hdr reader2 cb prc).1,
                     i := nextCounter sb rb },
          reader := rd,
          handed := some (pickIndex sb rb, ⟨hdr, reader2, cb, prc⟩) } := by
  have hlt := pickIndex_lt sb rb n hm hok
  obtain ⟨hlen, h0, h1⟩ := hok
  refine ⟨rb.stsdest[pickIndex sb rb], List.getElem?_eq_getElem hlt, ?_⟩
  by_cases h : sb.multiplier > 1
  · have hw : wrap64 (rb.i + 1) = rb.i + 1 := wrap64_id _ (by omega) (by omega)
    have hlenZ : (rb.stsdest.length : Int) = sb.multiplier := by omega
    have hne : ¬ rb.stsdest.length = 0 := by omega
    have hmod : Int.tmod (rb.i + 1) (rb.stsdest.length : Int) = (rb.i + 1) % sb.multiplier := by
      rw [hlenZ]
      exact Int.tmod_eq_emod (by omega) (by omega)
    have hnn : ¬ (rb.i + 1) % sb.multiplier < 0 := by
      have := Int.emod_nonneg (rb.i + 1) (show sb.multiplier ≠ 0 by omega)
      omega
    have hpi : pickIndex sb rb = ((rb.i + 1) % sb.multiplier).toNat := by simp [pickIndex, h]
    have hget : rb.stsdest[((rb.i + 1) % sb.multiplier).toNat]?
        = some rb.stsdest[pickIndex sb rb] := by
      rw [← hpi]
      exact List.getElem?_eq_getElem hlt
    have hget2 : rb.stsdest[pickIndex sb rb]? = some rb.stsdest[pickIndex sb rb] :=
      List.getElem?_eq_getElem hlt
    simp only [sendOne, hopen, h, if_true, hw, hne, and_false, if_false, hmod, hnn, hget,
      Stream.Send, nextCounter, ← hpi, hget2]
  · have hpi : pickIndex sb rb = 0 := by simp [pickIndex, h]
    have hget : rb.stsdest[0]? = some rb.stsdest[pickIndex sb rb] := by
      rw [← hpi]
      exact List.getElem?_eq_getElem hlt
    simp only [sendOne, hopen, h, if_false, false_and, Int.toNat_zero, lt_self_iff_false, hget,
      Stream.Send, nextCounter, hpi]

/-! ## Round-robin selection (C7) -/

/-- C7, as stated, fails: with multiplier 2 the first send to a freshly created robin (counter 0)
goes to stream index 1, not to index `0 mod 2 = 0`; `atomic.AddInt64` returns the incremented
counter. -/
theorem C7_fresh_robin_counterexample :
    (sendOne (sbOf none 2) { stsdest := [streamA, streamA], i := 0 } hdrA none none none
      false).handed = some (1, ⟨hdrA, ReadCloser.nil, none, none⟩) ∧
    (sendOne (sbOf none 2) { stsdest := [streamA, streamA], i := 0 } hdrA none none none
      false).handed ≠ some (0, ⟨hdrA, ReadCloser.nil, none, none⟩) ∧
    (sendOne (sbOf none 2) { stsdest := [streamA, streamA], i := 0 } hdrA none none none
      false).robin.i = 1 := by
  decide

/-- C7 (amended): for a multiplier `m > 1` and a robin of `m` streams whose counter holds `c`
with `0 ≤ c < 2^63 - 1`, a `sendOne` whose reader is settled hands the object to
`streams[(c + 1) mod m]` (the value `atomic.AddInt64` returns, the counter after the increment)
and leaves the counter at `c + 1`; the first send to a fresh robin (`c = 0`) goes to index 1. -/
theorem sendOne_round_robin (sb : StreamBundle) (rb : robin) (hdr : Header)
    (reader : Option ReadOpenCloser) (cb : Option SendCallback) (prc : Option Nat)
    (reopen : Bool) (reader2 : ReadCloser) (rd : Option ReadOpenCloser)
    (hm : sb.multiplier > 1) (hlen : rb.stsdest.length = sb.multiplier.toNat)
    (h0 : 0 ≤ rb.i) (h1 : rb.i < 9223372036854775807)
    (hopen : openFor reader reopen = some (reader2, rd)) :
    (sendOne sb rb hdr reader cb prc reopen).handed
      = some (((rb.i + 1) % sb.multiplier).toNat, ⟨hdr, reader2, cb, prc⟩) ∧
    ((rb.i + 1) % sb.multiplier).toNat < rb.stsdest.length ∧
    (sendOne sb rb hdr reader cb prc reopen).robin.i = rb.i + 1 ∧
    (rb.i = 0 → (sendOne sb rb hdr reader cb prc reopen).handed
      = some (1, ⟨hdr, reader2, cb, prc⟩)) := by
  have hok : robinOK sb (0 + 1) rb := ⟨hlen, h0, by push_cast; omega⟩
  obtain ⟨s, _, hs⟩ := sendOne_of_open sb rb hdr reader cb prc reopen 0 reader2 rd (by omega) hok
    hopen
  have hlt := pickIndex_lt sb rb 0 (by omega) hok
  have hpi : pickIndex sb rb = ((rb.i + 1) % sb.multiplier).toNat := by simp [pickIndex, hm]
  rw [hs]
  refine ⟨by simp [hpi], by rw [← hpi]; exact hlt, by simp [nextCounter, hm], ?_⟩
  intro hz
  have h1m : (1 : Int) % sb.multiplier = 1 := Int.emod_eq_of_lt (by omega) (by omega)
  simp [hpi, hz, h1m]

/-- Witness of C7 (amended): multiplier 3, counter 4, the object goes to stream 5 mod 3 = 2. -/
theorem sendOne_round_robin_witness :
    (sbOf none 3).multiplier > 1 ∧
    (sendOne (sbOf none 3) { stsdest := [streamA, streamA, streamA], i := 4 } hdrA none none none
      false).handed = some (((4 + 1 : Int) % (sbOf none 3).multiplier).toNat,
        ⟨hdrA, ReadCloser.nil, none, none⟩) ∧
    (sendOne (sbOf none 3) { stsdest := [streamA, streamA, streamA], i := 4 } hdrA none none none
      false).robin.i = 4 + 1 :=
  have h := sendOne_round_robin (sbOf none 3) { stsdest := [streamA, streamA, streamA], i := 4 }
    hdrA none none none false ReadCloser.nil none (by decide) (by decide) (by decide) (by decide)
    rfl
  ⟨by decide, h.1, h.2.2.1⟩

/-! ## Round-robin distribution (C8) -/

theorem share_succ (m N k : Nat) (hm : 1 ≤ m) (hk : k < m) :
    share m (N + 1) k = share m N k + (if k = (N + 1) % m then 1 else 0) := by
  unfold share
  have h1 := Nat.div_add_mod N m
  have h2 := Nat.div_add_mod (N + 1) m
  have h3 := Nat.mod_lt N (show m > 0 by omega)
  have h4 := Nat.mod_lt (N + 1) (show m > 0 by omega)
  rw [Nat.succ_div] at h2 ⊢
  by_cases hd : m ∣ N + 1
  · have hz : (N + 1) % m = 0 := Nat.mod_eq_zero_of_dvd hd
    simp only [hd, if_true] at h2 ⊢
    rw [Nat.mul_add, Nat.mul_one] at h2
    rw [hz] at h2 ⊢
    have hr : N % m = m - 1 := by omega
    rw [hr]
    by_cases hk0 : k = 0
    · subst hk0
      simp
    · have : 1 ≤ k ∧ k ≤ m - 1 := by omega
      simp [this, hk0]
  · simp only [hd, if_false, Nat.add_zero] at h2 ⊢
    have hr : (N + 1) % m = N % m + 1 := by omega
    rw [hr]
    by_cases hk1 : k = N % m + 1
    · have a : 1 ≤ k ∧ k ≤ N % m + 1 := by omega
      have b : ¬ (1 ≤ k ∧ k ≤ N % m) := by omega
      simp [a, b, hk1]
    · by_cases hk2 : 1 ≤ k ∧ k ≤ N % m
      · have a : 1 ≤ k ∧ k ≤ N % m + 1 := by omega
        simp [a, hk2, hk1]
      · have a : ¬ (1 ≤ k ∧ k ≤ N % m + 1) := by omega
        simp [a, hk2, hk1]

theorem share_sum (m N : Nat) (hm : 1 ≤ m) :
    ∑ k in Finset.range m, share m N k = N := by
  unfold share
  rw [Finset.sum_add_distrib, Finset.sum_const, Finset.card_range, Finset.sum_boole]
  have h3 := Nat.mod_lt N (show m > 0 by omega)
  have : (Finset.filter (fun k => 1 ≤ k ∧ k ≤ N % m) (Finset.range m))
      = Finset.Icc 1 (N % m) := by
    ext k
    simp only [Finset.mem_filter, Finset.mem_range, Finset.mem_Icc]
    omega
  rw [this, Nat.card_Icc]
  simp only [smul_eq_mul, Nat.cast_id, Nat.add_sub_cancel]
  exact Nat.div_add_mod N m

theorem share_floor_or_ceil (m N k : Nat) (hm : 1 ≤ m) :
    share m N k = N / m ∨ share m N k = (N + m - 1) / m := by
  unfold share
  by_cases hk : 1 ≤ k ∧ k ≤ N % m
  · right
    simp only [hk, and_self, if_true]
    have h1 := Nat.div_add_mod N m
    have h3 := Nat.mod_lt N (show m > 0 by omega)
    have e : N + m - 1 = m * (N / m + 1) + (N % m - 1) := by
      rw [Nat.mul_add, Nat.mul_one]
      omega
    have e2 : (N % m - 1) / m = 0 := Nat.div_eq_of_lt (by omega)
    rw [e, Nat.mul_add_div (by omega), e2]
  · left
    simp [hk]

theorem pickIndex_of_count (sb : StreamBundle) (r : robin) (n : Nat) (hm : 1 ≤ sb.multiplier)
    (hi : r.i = if sb.multiplier > 1 then (n : Int) else 0) :
    pickIndex sb r = (n + 1) % sb.multiplier.toNat := by
  have hM : ((sb.multiplier.toNat : Nat) : Int) = sb.multiplier := Int.toNat_of_nonneg (by omega)
  unfold pickIndex
  by_cases h : sb.multiplier > 1
  · simp only [h, if_true] at hi ⊢
    rw [hi, ← hM]
    have : ((n : Int) + 1) % ((sb.multiplier.toNat : Nat) : Int)
        = (((n + 1) % sb.multiplier.toNat : Nat) : Int) := by
      push_cast
      rfl
    rw [this, Int.toNat_natCast, hM]
  · simp only [h, if_false]
    have h1 : sb.multiplier.toNat = 1 := by omega
    rw [h1, Nat.mod_one]

/-- After `calls`, every stream of the robin has got its share of the handoffs. -/
theorem sendMany_spec (sb : StreamBundle) (rb : robin) (calls : List SendArgs)
    (hm : 1 ≤ sb.multiplier) (hlen : rb.stsdest.length = sb.multiplier.toNat) (hi : rb.i = 0)
    (hN : (calls.length : Int) < 9223372036854775808)
    (hopen : ∀ a ∈ calls, (openFor a.reader a.reopen).isSome = true) :
    (sendMany sb rb calls).stsdest.length = rb.stsdest.length ∧
    (sendMany sb rb calls).i = (if sb.multiplier > 1 then (calls.length : Int) else 0) ∧
    ∀ k, k < sb.multiplier.toNat →
      ((sendMany sb rb calls).stsdest[k]?).map (fun s => s.handed.length)
        = (rb.stsdest[k]?).map
            (fun s => s.handed.length + share sb.multiplier.toNat calls.length k) := by
  induction calls using List.reverseRecOn with
  | nil =>
    refine ⟨rfl, by simp [sendMany, hi], fun k hk => ?_⟩
    have : ∀ j, share sb.multiplier.toNat 0 j = 0 := by
      intro j
      unfold share
      rw [Nat.zero_div, Nat.zero_mod, if_neg (by omega)]
    simp [sendMany, this]
  | append_singleton l a ih =>
    have hl : (l.length : Int) + 1 < 9223372036854775808 := by
      simp only [List.length_append, List.length_singleton] at hN
      push_cast at hN
      exact hN
    obtain ⟨ih1, ih2, ih3⟩ := ih (by omega) (fun x hx => hopen x (by simp [hx]))
    have hM : 1 ≤ sb.multiplier.toNat := by omega
    have hstep : sendMany sb rb (l ++ [a])
        = (sendOne sb (sendMany sb rb l) a.hdr a.reader a.cb a.prc a.reopen).robin := by
      simp [sendMany, List.foldl_append]
    have hok : robinOK sb (0 + 1) (sendMany sb rb l) := by
      refine ⟨by rw [ih1, hlen], ?_, ?_⟩
      · rw [ih2]
        split_ifs <;> omega
      · rw [ih2]
        push_cast
        split_ifs <;> omega
    have hsome := hopen a (by simp)
    obtain ⟨⟨reader2, rd⟩, hop⟩ := Option.isSome_iff_exists.mp hsome
    obtain ⟨s, hs, hres⟩ := sendOne_of_open sb (sendMany sb rb l) a.hdr a.reader a.cb a.prc
      a.reopen 0 reader2 rd hm hok hop
    have hidx := pickIndex_of_count sb (sendMany sb rb l) l.length hm ih2
    rw [hstep, hres]
    refine ⟨by simp [ih1], ?_, fun k hk => ?_⟩
    · simp only [nextCounter, ih2, List.length_append, List.length_singleton]
      push_cast
      split_ifs <;> rfl
    · have hltk : pickIndex sb (sendMany sb rb l) < (sendMany sb rb l).stsdest.length :=
        pickIndex_lt sb _ 0 hm hok
      have hsh := share_succ sb.multiplier.toNat l.length k hM hk
      simp only [List.getElem?_set, hltk, if_true, List.length_append, List.length_singleton]
      rw [hsh]
      by_cases hk2 : pickIndex sb (sendMany sb rb l) = k
      · have hk3 : k = (l.length + 1) % sb.multiplier.toNat := by rw [← hk2, hidx]
        have h3 := ih3 k hk
        rw [← hk2, hs] at h3
        simp only [hk2, if_true, ← hk3, Option.map_some', Stream.Send, List.length_append,
          List.length_singleton]
        cases hrb : rb.stsdest[k]? with
        | none =>
          rw [hk2, hrb] at h3
          simp at h3
        | some s0 =>
          rw [hk2, hrb] at h3
          simp only [Option.map_some', Option.some.injEq] at h3 ⊢
          omega
      · have hk3 : ¬ k = (l.length + 1) % sb.multiplier.toNat := by
          intro e
          exact hk2 (by rw [hidx, ← e])
        simp only [hk2, if_false, hk3, Nat.add_zero]
        exact ih3 k hk

/-- C8: for a multiplier `m ≥ 1` (in particular every `m` in `[1,255]`) and `N < 2^63`, after
`N` sequential sends to one destination whose counter started at 0, stream `k` of the robin has
received `share m N k` more handoffs, which is `⌊N/m⌋` or `⌈N/m⌉`, and the shares of the `m`
streams sum to `N`. -/
theorem sendMany_balanced (sb : StreamBundle) (rb : robin) (calls : List SendArgs)
    (hm : 1 ≤ sb.multiplier) (hlen : rb.stsdest.length = sb.multiplier.toNat) (hi : rb.i = 0)
    (hN : (calls.length : Int) < 9223372036854775808)
    (hopen : ∀ a ∈ calls, (openFor a.reader a.reopen).isSome = true) :
    (∀ k, k < sb.multiplier.toNat →
      ∃ s0 s1, rb.stsdest[k]? = some s0 ∧ (sendMany sb rb calls).stsdest[k]? = some s1 ∧
        s1.handed.length = s0.handed.length + share sb.multiplier.toNat calls.length k ∧
        (share sb.multiplier.toNat calls.length k = calls.length / sb.multiplier.toNat ∨
         share sb.multiplier.toNat calls.length k
           = (calls.length + sb.multiplier.toNat - 1) / sb.multiplier.toNat)) ∧
    ∑ k in Finset.range sb.multiplier.toNat, share sb.multiplier.toNat calls.length k
      = calls.length := by
  have hM : 1 ≤ sb.multiplier.toNat := by omega
  obtain ⟨h1, _, h3⟩ := sendMany_spec sb rb calls hm hlen hi hN hopen
  refine ⟨fun k hk => ?_, share_sum _ _ hM⟩
  have hk0 : k < rb.stsdest.length := by omega
  have hk1 : k < (sendMany sb rb calls).stsdest.length := by omega
  refine ⟨rb.stsdest[k], (sendMany sb rb calls).stsdest[k], List.getElem?_eq_getElem hk0,
    List.getElem?_eq_getElem hk1, ?_, share_floor_or_ceil _ _ k hM⟩
  have h := h3 k hk
  rw [List.getElem?_eq_getElem hk0, List.getElem?_eq_getElem hk1] at h
  simpa using h

/-- Witness of C8: three sends over a fresh robin of two streams. -/
theorem sendMany_balanced_witness :
    1 ≤ (sbOf none 2).multiplier ∧ robinA2.i = 0 ∧
    ((∀ k, k < (sbOf none 2).multiplier.toNat →
      ∃ s0 s1, robinA2.stsdest[k]? = some s0 ∧
        (sendMany (sbOf none 2) robinA2 callsA3).stsdest[k]? = some s1 ∧
        s1.handed.length
          = s0.handed.length + share (sbOf none 2).multiplier.toNat callsA3.length k ∧
        (share (sbOf none 2).multiplier.toNat callsA3.length k
            = callsA3.length / (sbOf none 2).multiplier.toNat ∨
         share (sbOf none 2).multiplier.toNat callsA3.length k
           = (callsA3.length + (sbOf none 2).multiplier.toNat - 1)
               / (sbOf none 2).multiplier.toNat)) ∧
    ∑ k in Finset.range (sbOf none 2).multiplier.toNat,
      share (sbOf none 2).multiplier.toNat callsA3.length k = callsA3.length) :=
  ⟨by decide, rfl,
    sendMany_balanced (sbOf none 2) robinA2 callsA3 (by decide) rfl rfl (by decide)
      (by
        intro a ha
        simp only [callsA3, List.mem_cons, List.mem_singleton, List.not_mem_nil, or_false,
          or_self] at ha
        rw [ha]
        rfl)⟩

/-! ## The multiplier argument (C9) -/

/-- C9, as stated, fails: an explicit multiplier of 1 does not pass the assertion
`multiplier[0] > 1 && multiplier[0] < 256`, so construction aborts. -/
theorem C9_explicit_one_counterexample :
    NewStreamBundle wireA smapTwoTargets (nodeOf "local") "data" "tr" none Targets [1] = none := by
  rfl

/-- C9 (amended): with a valid role and an oracle snapshot of non-negative version, construction
with an explicitly supplied multiplier `m` succeeds if and only if `2 ≤ m ≤ 255` (so 255 is
accepted, and 1, 0, negative values and 256 abort), on success the multiplier of the bundle is
`m`, and with the argument omitted construction succeeds with multiplier 1. -/
theorem NewStreamBundle_multiplier (wire : String → Nat → Nat → Bool) (smap : Smap)
    (lsnode : Snode) (network trname : String) (extra : Option Extra) (ntype : Int) (m : Int)
    (rest : List Int) (hr : validRole ntype) (hv : 0 ≤ smap.Version) :
    ((∃ sb, NewStreamBundle wire smap lsnode network trname extra ntype (m :: rest) = some sb)
      ↔ 2 ≤ m ∧ m ≤ 255) ∧
    (∀ sb, NewStreamBundle wire smap lsnode network trname extra ntype (m :: rest) = some sb →
      sb.multiplier = m) ∧
    (∃ sb, NewStreamBundle wire smap lsnode network trname extra ntype [] = some sb ∧
      sb.multiplier = 1) := by
  have hr2 : ntype = Targets ∨ ntype = Proxies ∨ ntype = AllNodes := hr
  have hin : 2 ≤ m ∧ m ≤ 255 →
      ∃ sb, NewStreamBundle wire smap lsnode network trname extra ntype (m :: rest) = some sb ∧
        sb.multiplier = m := by
    intro hm
    have hvm : validMultiplier (m :: rest) := by
      show 1 < m ∧ m < 256
      omega
    obtain ⟨sb, h1, _, _, _, h5, _⟩ :=
      NewStreamBundle_spec wire smap lsnode network trname extra ntype (m :: rest) hr hvm hv
    exact ⟨sb, h1, h5⟩
  refine ⟨⟨?_, fun hm => ?_⟩, ?_, ?_⟩
  · rintro ⟨sb, hsb⟩
    by_contra hc
    have hbad : ¬ (1 < m ∧ m < 256) := by omega
    simp [NewStreamBundle, hr2, hbad] at hsb
  · obtain ⟨sb, h1, _⟩ := hin hm
    exact ⟨sb, h1⟩
  · intro sb hsb
    by_cases hm : 2 ≤ m ∧ m ≤ 255
    · obtain ⟨sb2, h1, h2⟩ := hin hm
      rw [h1] at hsb
      cases hsb
      exact h2
    · have hbad : ¬ (1 < m ∧ m < 256) := by omega
      simp [NewStreamBundle, hr2, hbad] at hsb
  · obtain ⟨sb, h1, _, _, _, h5, _⟩ :=
      NewStreamBundle_spec wire smap lsnode network trname extra ntype [] hr trivial hv
    exact ⟨sb, h1, h5⟩

/-- Witness of C9 (amended): multiplier 255 over a snapshot of version 1. -/
theorem NewStreamBundle_multiplier_witness :
    validRole Targets ∧ 0 ≤ smapTwoTargets.Version ∧
    ((∃ sb, NewStreamBundle wireA smapTwoTargets (nodeOf "local") "data" "tr" none Targets [255]
      = some sb) ↔ 2 ≤ (255 : Int) ∧ (255 : Int) ≤ 255) :=
  ⟨Or.inl rfl, by decide,
    (NewStreamBundle_multiplier wireA smapTwoTargets (nodeOf "local") "data" "tr" none Targets 255
      [] (Or.inl rfl) (by decide)).1⟩

/-! ## Reconciliation keeps the bundle in step with the oracle (C10) -/

theorem resyncAll_spec (wire : String → Nat → Nat → Bool) (snaps : List Smap)
    (sb : StreamBundle) (hs : Synced sb)
    (hinc : List.Chain (fun a b => a < b) sb.smap.Version (snaps.map (fun s => s.Version))) :
    ∃ sb2, resyncAll wire sb snaps = some sb2 ∧ Synced sb2 ∧
      sb2.smap = (snaps.getLast?).getD sb.smap ∧ sb2.lsnode = sb.lsnode ∧
      sb2.rxNodeType = sb.rxNodeType ∧ sb2.multiplier = sb.multiplier ∧
      (snaps ≠ [] → ∃ bun, sb2.streams = some bun) := by
  induction snaps generalizing sb with
  | nil => exact ⟨sb, rfl, hs, rfl, rfl, rfl, rfl, fun h => absurd rfl h⟩
  | cons smap rest ih =>
    simp only [List.map_cons, List.chain_cons] at hinc
    obtain ⟨r, hr1, hr2, hr3, hr4, hr5, hr6, hr7⟩ := resync_step wire sb smap hs hinc.1
    have hinc2 : List.Chain (fun a b => a < b) r.sb.smap.Version
        (rest.map (fun s => s.Version)) := by
      rw [hr3]
      exact hinc.2
    obtain ⟨sb2, h1, h2, h3, h4, h5, h6, h7⟩ := ih r.sb hr2 hinc2
    refine ⟨sb2, by simp [resyncAll, hr1, h1], h2, ?_, by rw [h4, hr5], by rw [h5, hr6],
      by rw [h6, hr7], fun _ => ?_⟩
    · rw [h3, hr3]
      cases rest with
      | nil => rfl
      | cons a l =>
        have hx : (a :: l).getLast? = some ((a :: l).getLast (by simp)) :=
          List.getLast?_eq_getLast _ _
        rw [List.getLast?_cons_cons, hx]
        rfl
    · cases rest with
      | nil =>
        simp only [resyncAll, Option.some.injEq] at h1
        rw [← h1]
        exact hr4
      | cons a l => exact h7 (by simp)

/-- C10: for every role selector, every admissible multiplier and every sequence of oracle
snapshots with strictly increasing positive versions, construction on the first snapshot and a
`resync` on each later one succeed, and after the `resync` on the last snapshot `s` considered
(hence after each one, every prefix being such a sequence) a bundle is published, the remembered
snapshot is `s` (so its version is that of `s`), and a node ID is a key of the published bundle
exactly when it is role-selected in `s` and is not the local node; the local node ID is no key. -/
theorem resync_tracks_snapshot (wire : String → Nat → Nat → Bool) (lsnode : Snode)
    (network trname : String) (extra : Option Extra) (ntype : Int) (multiplier : List Int)
    (pre : List Smap) (s : Smap)
    (hr : validRole ntype) (hm : validMultiplier multiplier)
    (hinc : increasingVersions (pre ++ [s])) :
    ∃ sb bun, bundleAfter wire lsnode network trname extra ntype multiplier (pre ++ [s]) = some sb ∧
      sb.streams = some bun ∧
      sb.smap = s ∧ sb.smap.Version = s.Version ∧
      (∀ id, id ∈ mapKeys bun ↔ id ∈ selected ntype s ∧ id ≠ lsnode.DaemonID) ∧
      lsnode.DaemonID ∉ mapKeys bun := by
  have fin : ∀ sb : StreamBundle, Synced sb → sb.smap = s → sb.lsnode = lsnode →
      sb.rxNodeType = ntype → (∃ bun, sb.streams = some bun) →
      ∃ bun, sb.streams = some bun ∧
        sb.smap = s ∧ sb.smap.Version = s.Version ∧
        (∀ id, id ∈ mapKeys bun ↔ id ∈ selected ntype s ∧ id ≠ lsnode.DaemonID) ∧
        lsnode.DaemonID ∉ mapKeys bun := by
    intro sb hs h1 h2 h3 ⟨bun, hbun⟩
    have hget : sb.get = bun := by simp [StreamBundle.get, hbun]
    have hk : ∀ id, id ∈ mapKeys bun ↔ id ∈ selected ntype s ∧ id ≠ lsnode.DaemonID := by
      intro id
      have := hs.keys id
      rw [hget, h1, h2, h3] at this
      exact this
    exact ⟨bun, hbun, h1, by rw [h1], hk, fun hmem => ((hk _).mp hmem).2 rfl⟩
  cases pre with
  | nil =>
    have hpos : 0 < s.Version := by
      simp only [increasingVersions, List.nil_append, List.map_cons, List.map_nil,
        List.chain_cons] at hinc
      exact hinc.1
    obtain ⟨sb, h1, h2, h3, h4, _, h6, _⟩ :=
      NewStreamBundle_spec wire s lsnode network trname extra ntype multiplier hr hm (by omega)
    obtain ⟨bun, hb⟩ := fin sb h2 (h6 hpos).1 h3 h4 (h6 hpos).2
    exact ⟨sb, bun, by simp [bundleAfter, h1, resyncAll], hb⟩
  | cons s0 pre2 =>
    simp only [increasingVersions, List.cons_append, List.map_cons, List.chain_cons] at hinc
    obtain ⟨sb0, h1, h2, h3, h4, _, h6, _⟩ :=
      NewStreamBundle_spec wire s0 lsnode network trname extra ntype multiplier hr hm (by omega)
    have hinc2 : List.Chain (fun a b => a < b) sb0.smap.Version
        ((pre2 ++ [s]).map (fun x => x.Version)) := by
      rw [(h6 hinc.1).1]
      exact hinc.2
    obtain ⟨sb, g1, g2, g3, g4, g5, _, g7⟩ := resyncAll_spec wire (pre2 ++ [s]) sb0 h2 hinc2
    have hlast : sb.smap = s := by
      rw [g3]
      simp
    obtain ⟨bun, hb⟩ := fin sb g2 hlast (by rw [g4, h3]) (by rw [g5, h4]) (g7 (by simp))
    exact ⟨sb, bun, by simp [bundleAfter, h1, g1], hb⟩

/-- Witness of C10: a bundle to all nodes, constructed on version 1 and resynced on version 2. -/
theorem resync_tracks_snapshot_witness :
    validRole AllNodes ∧ validMultiplier [2] ∧
    increasingVersions ([smapTwoTargets] ++ [smapNext]) ∧
    ∃ sb bun, bundleAfter wireA (nodeOf "local") "data" "tr" none AllNodes [2]
        ([smapTwoTargets] ++ [smapNext]) = some sb ∧
      sb.streams = some bun ∧
      sb.smap = smapNext ∧ sb.smap.Version = smapNext.Version ∧
      (∀ id, id ∈ mapKeys bun ↔
        id ∈ selected AllNodes smapNext ∧ id ≠ (nodeOf "local").DaemonID) ∧
      (nodeOf "local").DaemonID ∉ mapKeys bun :=
  have h1 : validRole AllNodes := Or.inr (Or.inr rfl)
  have h2 : validMultiplier [2] := by
    show (1 : Int) < 2 ∧ (2 : Int) < 256
    decide
  have h3 : increasingVersions ([smapTwoTargets] ++ [smapNext]) := by
    simp [increasingVersions, smapTwoTargets, smapNext]
  ⟨h1, h2, h3,
    resync_tracks_snapshot wireA (nodeOf "local") "data" "tr" none AllNodes [2] [smapTwoTargets]
      smapNext h1 h2 h3⟩

/-! ## The completion refcount of a fanout (C4) -/

theorem sendOne_handed (sb : StreamBundle) (rb : robin) (hdr : Header)
    (reader : Option ReadOpenCloser) (cb : Option SendCallback) (prc : Option Nat)
    (reopen : Bool) (k : Nat) (h : Handoff)
    (hh : (sendOne sb rb hdr reader cb prc reopen).handed = some (k, h)) :
    h.cb = cb ∧ h.prc = prc ∧ h.hdr = hdr := by
  unfold sendOne at hh
  cases hop : openFor reader reopen with
  | none => simp [hop] at hh
  | some pr =>
    obtain ⟨reader2, rd⟩ := pr
    simp only [hop] at hh
    split_ifs at hh
    all_goals first
      | (simp at hh; done)
      | (split at hh
         · simp at hh
         · simp only [Option.some.injEq, Prod.mk.injEq] at hh
           rw [← hh.2]
           exact ⟨rfl, rfl, rfl⟩)

theorem traceOf_carries (id : String) (r : SendOneResult) (e : String × Nat × Handoff)
    (he : e ∈ traceOf id r) : r.handed = some (e.2.1, e.2.2) ∧ e.1 = id := by
  unfold traceOf at he
  cases hr : r.handed with
  | none => simp [hr] at he
  | some kh =>
    obtain ⟨k, h⟩ := kh
    simp only [hr, List.mem_singleton] at he
    rw [he]
    exact ⟨rfl, rfl⟩

theorem broadcastLoop_cons_ok (sb : StreamBundle) (hdr : Header) (cb : Option SendCallback)
    (prc : Option Nat) (reopen : Bool) (rd : Option ReadOpenCloser) (id : String) (rb : robin)
    (rest : bundle) (h : (sendOne sb rb hdr rd cb prc reopen).out = Outcome.ok) :
    broadcastLoop sb hdr cb prc reopen rd ((id, rb) :: rest) =
      { out := (broadcastLoop sb hdr cb prc true
          (sendOne sb rb hdr rd cb prc reopen).reader rest).out,
        streams := (id, (sendOne sb rb hdr rd cb prc reopen).robin) ::
          (broadcastLoop sb hdr cb prc true
            (sendOne sb rb hdr rd cb prc reopen).reader rest).streams,
        reader := (broadcastLoop sb hdr cb prc true
          (sendOne sb rb hdr rd cb prc reopen).reader rest).reader,
        trace := traceOf id (sendOne sb rb hdr rd cb prc reopen) ++
          (broadcastLoop sb hdr cb prc true
            (sendOne sb rb hdr rd cb prc reopen).reader rest).trace } := by
  rw [broadcastLoop]
  simp only [h]

theorem broadcastLoop_cons_stop (sb : StreamBundle) (hdr : Header) (cb : Option SendCallback)
    (prc : Option Nat) (reopen : Bool) (rd : Option ReadOpenCloser) (id : String) (rb : robin)
    (rest : bundle) (h : (sendOne sb rb hdr rd cb prc reopen).out ≠ Outcome.ok) :
    broadcastLoop sb hdr cb prc reopen rd ((id, rb) :: rest) =
      { out := (sendOne sb rb hdr rd cb prc reopen).out,
        streams := (id, (sendOne sb rb hdr rd cb prc reopen).robin) :: rest,
        reader := (sendOne sb rb hdr rd cb prc reopen).reader,
        trace := traceOf id (sendOne sb rb hdr rd cb prc reopen) } := by
  rw [broadcastLoop]
  cases hout : (sendOne sb rb hdr rd cb prc reopen).out with
  | ok => exact absurd hout h
  | error e => simp only [hout]
  | panic => simp only [hout]

theorem targetedLoop_cons_ok (sb : StreamBundle) (hdr : Header) (cb : Option SendCallback)
    (prc : Option Nat) (reopen : Bool) (rd : Option ReadOpenCloser) (bun : bundle) (di : Snode)
    (rest : List Snode) (rb : robin) (hrb : mapGet bun di.DaemonID = some rb)
    (h : (sendOne sb rb hdr rd cb prc reopen).out = Outcome.ok) :
    targetedLoop sb hdr cb prc reopen rd bun (di :: rest) =
      { out := (targetedLoop sb hdr cb prc true (sendOne sb rb hdr rd cb prc reopen).reader
          (mapSet bun di.DaemonID (sendOne sb rb hdr rd cb prc reopen).robin) rest).out,
        streams := (targetedLoop sb hdr cb prc true (sendOne sb rb hdr rd cb prc reopen).reader
          (mapSet bun di.DaemonID (sendOne sb rb hdr rd cb prc reopen).robin) rest).streams,
        reader := (targetedLoop sb hdr cb prc true (sendOne sb rb hdr rd cb prc reopen).reader
          (mapSet bun di.DaemonID (sendOne sb rb hdr rd cb prc reopen).robin) rest).reader,
        trace := traceOf di.DaemonID (sendOne sb rb hdr rd cb prc reopen) ++
          (targetedLoop sb hdr cb prc true (sendOne sb rb hdr rd cb prc reopen).reader
            (mapSet bun di.DaemonID (sendOne sb rb hdr rd cb prc reopen).robin) rest).trace } := by
  rw [targetedLoop]
  simp only [hrb, h]

theorem targetedLoop_cons_stop (sb : StreamBundle) (hdr : Header) (cb : Option SendCallback)
    (prc : Option Nat) (reopen : Bool) (rd : Option ReadOpenCloser) (bun : bundle) (di : Snode)
    (rest : List Snode) (rb : robin) (hrb : mapGet bun di.DaemonID = some rb)
    (h : (sendOne sb rb hdr rd cb prc reopen).out ≠ Outcome.ok) :
    targetedLoop sb hdr cb prc reopen rd bun (di :: rest) =
      { out := (sendOne sb rb hdr rd cb prc reopen).out,
        streams := mapSet bun di.DaemonID (sendOne sb rb hdr rd cb prc reopen).robin,
        reader := (sendOne sb rb hdr rd cb prc reopen).reader,
        trace := traceOf di.DaemonID (sendOne sb rb hdr rd cb prc reopen) } := by
  rw [targetedLoop]
  cases hout : (sendOne sb rb hdr rd cb prc reopen).out with
  | ok => exact absurd hout h
  | error e => simp only [hrb, hout]
  | panic => simp only [hrb, hout]

theorem targetedLoop_cons_missing (sb : StreamBundle) (hdr : Header) (cb : Option SendCallback)
    (prc : Option Nat) (reopen : Bool) (rd : Option ReadOpenCloser) (bun : bundle) (di : Snode)
    (rest : List Snode) (hrb : mapGet bun di.DaemonID = none) :
    targetedLoop sb hdr cb prc reopen rd bun (di :: rest) =
      { out := Outcome.panic, streams := bun, reader := rd, trace := [] } := by
  rw [targetedLoop]
  simp only [hrb]

theorem traceOf_sendOne_carries (sb : StreamBundle) (rb : robin) (hdr : Header)
    (rd : Option ReadOpenCloser) (cb : Option SendCallback) (prc : Option Nat) (reopen : Bool)
    (id : String) :
    ∀ x ∈ traceOf id (sendOne sb rb hdr rd cb prc reopen), x.2.2.cb = cb ∧ x.2.2.prc = prc := by
  intro x hx
  have h1 := (traceOf_carries id _ x hx).1
  have h2 := sendOne_handed sb rb hdr rd cb prc reopen _ _ h1
  exact ⟨h2.1, h2.2.1⟩

theorem broadcastLoop_carries (sb : StreamBundle) (hdr : Header) (cb : Option SendCallback)
    (prc : Option Nat) (bun : bundle) (reopen : Bool) (rd : Option ReadOpenCloser) :
    ∀ e ∈ (broadcastLoop sb hdr cb prc reopen rd bun).trace, e.2.2.cb = cb ∧ e.2.2.prc = prc := by
  induction bun generalizing reopen rd with
  | nil => simp [broadcastLoop]
  | cons p rest ih =>
    obtain ⟨id, rb⟩ := p
    intro e he
    by_cases hout : (sendOne sb rb hdr rd cb prc reopen).out = Outcome.ok
    · rw [broadcastLoop_cons_ok sb hdr cb prc reopen rd id rb rest hout] at he
      simp only [List.mem_append] at he
      rcases he with he | he
      · exact traceOf_sendOne_carries sb rb hdr rd cb prc reopen id e he
      · exact ih _ _ e he
    · rw [broadcastLoop_cons_stop sb hdr cb prc reopen rd id rb rest hout] at he
      exact traceOf_sendOne_carries sb rb hdr rd cb prc reopen id e he

theorem targetedLoop_carries (sb : StreamBundle) (hdr : Header) (cb : Option SendCallback)
    (prc : Option Nat) (ns : List Snode) (reopen : Bool) (rd : Option ReadOpenCloser)
    (bun : bundle) :
    ∀ e ∈ (targetedLoop sb hdr cb prc reopen rd bun ns).trace,
      e.2.2.cb = cb ∧ e.2.2.prc = prc := by
  induction ns generalizing reopen rd bun with
  | nil => simp [targetedLoop]
  | cons di rest ih =>
    intro e he
    cases hrb : mapGet bun di.DaemonID with
    | none =>
      rw [targetedLoop_cons_missing sb hdr cb prc reopen rd bun di rest hrb] at he
      simp at he
    | some rb =>
      by_cases hout : (sendOne sb rb hdr rd cb prc reopen).out = Outcome.ok
      · rw [targetedLoop_cons_ok sb hdr cb prc reopen rd bun di rest rb hrb hout] at he
        simp only [List.mem_append] at he
        rcases he with he | he
        · exact traceOf_sendOne_carries sb rb hdr rd cb prc reopen di.DaemonID e he
        · exact ih _ _ _ e he
      · rw [targetedLoop_cons_stop sb hdr cb prc reopen rd bun di rest rb hrb hout] at he
        exact traceOf_sendOne_carries sb rb hdr rd cb prc reopen di.DaemonID e he

theorem find_none_of_present (streams : bundle) (ns : List Snode)
    (h : ∀ di ∈ ns, (mapGet streams di.DaemonID).isSome = true) :
    ns.find? (fun di => (mapGet streams di.DaemonID).isNone) = none := by
  rw [List.find?_eq_none]
  intro di hdi
  have := h di hdi
  cases hg : mapGet streams di.DaemonID with
  | none => simp [hg] at this
  | some v => simp

/-- A `Send` that gets past its checks, as the fanout loop it runs. -/
theorem Send_eq_fanout (sb : StreamBundle) (heap : List Int) (hdr : Header)
    (reader : Option ReadOpenCloser) (cb : Option SendCallback) (nodes : Option (List Snode))
    (hreach : reachesFanout sb nodes) :
    ∃ t : LoopResult,
      (t = match nodes with
        | none => broadcastLoop sb hdr (effectiveCb sb cb)
            (if (effectiveCb sb cb).isSome = true ∧ 1 < fanoutWidth sb nodes
              then some heap.length else none) false reader sb.get
        | some ns => targetedLoop sb hdr (effectiveCb sb cb)
            (if (effectiveCb sb cb).isSome = true ∧ 1 < fanoutWidth sb nodes
              then some heap.length else none) false reader sb.get ns) ∧
      Send sb heap hdr reader cb nodes =
        { out := t.out, sb := { sb with streams := some t.streams }, reader := t.reader,
          heap := if (effectiveCb sb cb).isSome = true ∧ 1 < fanoutWidth sb nodes
            then heap ++ [(fanoutWidth sb nodes : Int)] else heap,
          trace := t.trace } := by
  obtain ⟨hne, hpres⟩ := hreach
  have hlen : ¬ sb.get.length = 0 := fun h0 => hne (List.length_eq_zero.mp h0)
  cases nodes with
  | none =>
    refine ⟨_, rfl, ?_⟩
    by_cases hc : (effectiveCb sb cb).isSome = true ∧ 1 < sb.get.length
    · simp [Send, hlen, fanoutWidth, hc, hc.1, hc.2]
    · by_cases h1 : (effectiveCb sb cb).isSome = true
      · have h2 : ¬ 1 < sb.get.length := fun h => hc ⟨h1, h⟩
        simp [Send, hlen, fanoutWidth, h1, h2]
      · simp [Send, hlen, fanoutWidth, h1]
  | some ns =>
    refine ⟨_, rfl, ?_⟩
    have hf := find_none_of_present sb.get ns (hpres ns rfl)
    by_cases hc : (effectiveCb sb cb).isSome = true ∧ 1 < ns.length
    · simp [Send, hlen, fanoutWidth, hc, hc.1, hc.2, hf]
    · by_cases h1 : (effectiveCb sb cb).isSome = true
      · have h2 : ¬ 1 < ns.length := fun h => hc ⟨h1, h⟩
        simp [Send, hlen, fanoutWidth, h1, h2, hf]
      · simp [Send, hlen, fanoutWidth, h1, hf]

theorem Send_trace_carries (sb : StreamBundle) (heap : List Int) (hdr : Header)
    (reader : Option ReadOpenCloser) (cb : Option SendCallback) (nodes : Option (List Snode))
    (hreach : reachesFanout sb nodes) :
    ∀ e ∈ (Send sb heap hdr reader cb nodes).trace,
      e.2.2.cb = effectiveCb sb cb ∧
      e.2.2.prc = (if (effectiveCb sb cb).isSome = true ∧ 1 < fanoutWidth sb nodes
        then some heap.length else none) := by
  obtain ⟨t, ht, hS⟩ := Send_eq_fanout sb heap hdr reader cb nodes hreach
  rw [hS]
  intro e he
  have he2 : e ∈ t.trace := he
  rw [ht] at he2
  cases nodes with
  | none => exact broadcastLoop_carries sb hdr _ _ sb.get false reader e he2
  | some ns => exact targetedLoop_carries sb hdr _ _ ns false reader sb.get e he2

theorem effectiveCb_eq (sb : StreamBundle) (cb : Option SendCallback) :
    effectiveCb sb cb = (if cb.isSome = true then cb else sb.extra.Callback) := by
  cases cb <;> simp [effectiveCb]

/-- C4: for a `Send` that reaches the fanout, let the callback be the caller's `cb` when that is
non-nil and the default `sb.extra.Callback` of the bundle when the caller's is nil, and let `K`
be the number of destinations. If the callback is non-nil and `K > 1`, one refcount is
allocated with initial value `K` and every handoff of the call carries its address and the
callback; otherwise nothing is allocated and every handoff carries a nil refcount and the
callback itself. -/
theorem Send_refcount (sb : StreamBundle) (heap : List Int) (hdr : Header)
    (reader : Option ReadOpenCloser) (cb : Option SendCallback) (nodes : Option (List Snode))
    (hreach : reachesFanout sb nodes) :
    ((if cb.isSome = true then cb else sb.extra.Callback).isSome = true ∧
        1 < fanoutWidth sb nodes →
      (Send sb heap hdr reader cb nodes).heap = heap ++ [(fanoutWidth sb nodes : Int)] ∧
      ∀ e ∈ (Send sb heap hdr reader cb nodes).trace,
        e.2.2.prc = some heap.length ∧
        e.2.2.cb = (if cb.isSome = true then cb else sb.extra.Callback)) ∧
    (¬ ((if cb.isSome = true then cb else sb.extra.Callback).isSome = true ∧
        1 < fanoutWidth sb nodes) →
      (Send sb heap hdr reader cb nodes).heap = heap ∧
      ∀ e ∈ (Send sb heap hdr reader cb nodes).trace,
        e.2.2.prc = none ∧
        e.2.2.cb = (if cb.isSome = true then cb else sb.extra.Callback)) := by
  have hc := Send_trace_carries sb heap hdr reader cb nodes hreach
  obtain ⟨t, _, hS⟩ := Send_eq_fanout sb heap hdr reader cb nodes hreach
  rw [← effectiveCb_eq sb cb]
  constructor
  · intro hk
    refine ⟨by rw [hS]; simp [hk], fun e he => ?_⟩
    have := hc e he
    rw [if_pos hk] at this
    exact ⟨this.2, this.1⟩
  · intro hk
    refine ⟨by rw [hS]; simp [hk], fun e he => ?_⟩
    have := hc e he
    rw [if_neg hk] at this
    exact ⟨this.2, this.1⟩

theorem sbTwo_reaches : reachesFanout sbTwo none :=
  ⟨by simp [sbTwo, sbOf, StreamBundle.get], fun ns h => by cases h⟩

theorem sbTwoDefault_reaches : reachesFanout sbTwoDefault none :=
  ⟨by simp [sbTwoDefault, sbTwo, sbOf, StreamBundle.get], fun ns h => by cases h⟩

/-- Witness of C4: a broadcast without a callback of its own over the two destinations of a
bundle whose default callback is 9, the heap holding one earlier refcount; both handoffs carry
the default callback 9 and the new refcount at address 1, whose value is 2. -/
theorem Send_refcount_witness :
    reachesFanout sbTwoDefault none ∧
    ((if (none : Option SendCallback).isSome = true then none
        else sbTwoDefault.extra.Callback).isSome = true ∧ 1 < fanoutWidth sbTwoDefault none) ∧
    (Send sbTwoDefault [5] hdrA (some readerA) none none).heap = [5, 2] ∧
    (Send sbTwoDefault [5] hdrA (some readerA) none none).trace.length = 2 ∧
    (Send sbTwoDefault [5] hdrA (some readerA) none none).trace.map (fun e => e.2.2.cb)
      = [some 9, some 9] ∧
    (Send sbTwoDefault [5] hdrA (some readerA) none none).heap
      = [5] ++ [(fanoutWidth sbTwoDefault none : Int)] ∧
    ∀ e ∈ (Send sbTwoDefault [5] hdrA (some readerA) none none).trace,
      e.2.2.prc = some [(5 : Int)].length ∧
      e.2.2.cb = (if (none : Option SendCallback).isSome = true then none
        else sbTwoDefault.extra.Callback) :=
  have hk : (if (none : Option SendCallback).isSome = true then none
      else sbTwoDefault.extra.Callback).isSome = true ∧ 1 < fanoutWidth sbTwoDefault none := by
    decide
  have h := (Send_refcount sbTwoDefault [5] hdrA (some readerA) none none
    sbTwoDefault_reaches).1 hk
  ⟨sbTwoDefault_reaches, hk, by decide, by decide, by decide, h.1, h.2⟩

/-! ## Reader reopening along a fanout -/

theorem reopenedFrom_succ (o n : Nat) :
    reopenedFrom o (n + 1) = ReadCloser.reopened (o + 1) :: reopenedFrom (o + 1) n := by
  unfold reopenedFrom
  rw [List.range_succ_eq_map, List.map_cons, List.map_map]
  refine congrArg₂ _ rfl (List.map_congr_left fun j _ => ?_)
  simp only [Function.comp, Nat.succ_eq_add_one]
  congr 1
  omega

theorem handedReaders_succ (reopen : Bool) (o n : Nat) :
    handedReaders reopen o (n + 1)
      = (if reopen then ReadCloser.reopened (o + 1) else ReadCloser.caller) ::
          handedReaders true (if reopen then o + 1 else o) n := by
  cases reopen
  · simp [handedReaders]
  · simp [handedReaders, reopenedFrom_succ]

/-- One `sendOne` of a fanout on a well-formed, accepting robin with a reader that reopens. -/
theorem sendOne_accepts (sb : StreamBundle) (rb : robin) (hdr : Header) (r : ReadOpenCloser)
    (cb : Option SendCallback) (prc : Option Nat) (reopen : Bool) (n : Nat)
    (hm : 1 ≤ sb.multiplier) (hok : robinOK sb (n + 1) rb) (hacc : accepting rb)
    (hopen : reopen = true → r.openFails (r.opened + 1) = false) :
    (sendOne sb rb hdr (some r) cb prc reopen).out = Outcome.ok ∧
    (sendOne sb rb hdr (some r) cb prc reopen).reader
      = some { r with opened := if reopen then r.opened + 1 else r.opened } ∧
    (sendOne sb rb hdr (some r) cb prc reopen).handed
      = some (pickIndex sb rb,
          ⟨hdr, if reopen then ReadCloser.reopened (r.opened + 1) else ReadCloser.caller, cb,
            prc⟩) ∧
    robinOK sb n (sendOne sb rb hdr (some r) cb prc reopen).robin ∧
    accepting (sendOne sb rb hdr (some r) cb prc reopen).robin := by
  have hop : openFor (some r) reopen
      = some (if reopen then ReadCloser.reopened (r.opened + 1) else ReadCloser.caller,
          some { r with opened := if reopen then r.opened + 1 else r.opened }) := by
    cases reopen
    · simp [openFor]
    · simp [openFor, hopen rfl]
  obtain ⟨s, hs, hres⟩ := sendOne_of_open sb rb hdr (some r) cb prc reopen n _ _ hm hok hop
  have hsm : s ∈ rb.stsdest := List.getElem?_mem hs
  rw [hres]
  refine ⟨by simp [hacc s hsm], rfl, rfl, ?_, ?_⟩
  · obtain ⟨h1, h2, h3⟩ := hok
    refine ⟨by simp [h1], ?_, ?_⟩
    · show 0 ≤ nextCounter sb rb
      unfold nextCounter
      split_ifs <;> omega
    · show nextCounter sb rb + (n : Int) < 9223372036854775808
      unfold nextCounter
      push_cast at h3
      split_ifs <;> omega
  · intro x hx k
    rcases List.mem_or_eq_of_mem_set hx with hx | hx
    · exact hacc x hx k
    · rw [hx]
      exact hacc s hsm k

/-- A fanout whose first `Open()` fails at once: nothing is handed over. -/
theorem sendOne_reopen_fails (sb : StreamBundle) (rb : robin) (hdr : Header)
    (r : ReadOpenCloser) (cb : Option SendCallback) (prc : Option Nat)
    (hfail : r.openFails (r.opened + 1) = true) :
    sendOne sb rb hdr (some r) cb prc true =
      { out := Outcome.error SendErr.reopen, robin := rb,
        reader := some { r with opened := r.opened + 1 }, handed := none } := by
  simp [sendOne, openFor, hfail]

/-- The broadcast loop over a prefix of well-formed, accepting robins for which every `Open()`
succeeds: the prefix is served, then the loop carries on with the rest. -/
theorem broadcastLoop_split (sb : StreamBundle) (hdr : Header) (cb : Option SendCallback)
    (prc : Option Nat) (hm : 1 ≤ sb.multiplier) (pre rest : bundle) (reopen : Bool)
    (r : ReadOpenCloser) (hok : bundleOK sb 1 pre)
    (hopen : ∀ n, r.opened < n → n ≤ r.opened + opensOf reopen pre.length →
      r.openFails n = false) :
    ∃ S T, readersOfTrace T = (mapKeys pre).zip (handedReaders reopen r.opened pre.length) ∧
      mapKeys S = mapKeys pre ∧
      broadcastLoop sb hdr cb prc reopen (some r) (pre ++ rest) =
        { out := (broadcastLoop sb hdr cb prc (reopen || !pre.isEmpty)
            (some { r with opened := r.opened + opensOf reopen pre.length }) rest).out,
          streams := S ++ (broadcastLoop sb hdr cb prc (reopen || !pre.isEmpty)
            (some { r with opened := r.opened + opensOf reopen pre.length }) rest).streams,
          reader := (broadcastLoop sb hdr cb prc (reopen || !pre.isEmpty)
            (some { r with opened := r.opened + opensOf reopen pre.length }) rest).reader,
          trace := T ++ (broadcastLoop sb hdr cb prc (reopen || !pre.isEmpty)
            (some { r with opened := r.opened + opensOf reopen pre.length }) rest).trace } := by
  induction pre generalizing reopen r with
  | nil =>
    refine ⟨[], [], by simp [readersOfTrace, mapKeys], rfl, ?_⟩
    have h0 : opensOf reopen 0 = 0 := by
      unfold opensOf
      split_ifs <;> rfl
    simp [h0]
  | cons p pre2 ih =>
    obtain ⟨id, rb⟩ := p
    have hp := hok (id, rb) (by simp)
    have hop1 : reopen = true → r.openFails (r.opened + 1) = false := by
      intro hre
      apply hopen (r.opened + 1) (by omega)
      simp [opensOf, hre]
    obtain ⟨h1, h2, h3, _, _⟩ := sendOne_accepts sb rb hdr r cb prc reopen 0 hm hp.1 hp.2 hop1
    have hok2 : bundleOK sb 1 pre2 := fun q hq => hok q (by simp [hq])
    have hopen2 : ∀ n, (if reopen then r.opened + 1 else r.opened) < n →
        n ≤ (if reopen then r.opened + 1 else r.opened) + opensOf true pre2.length →
        r.openFails n = false := by
      intro n hn1 hn2
      apply hopen n
      · split_ifs at hn1 <;> omega
      · cases reopen
        · simp only [opensOf, Bool.false_eq_true, if_false, if_true, List.length_cons] at hn2 ⊢
          omega
        · simp only [opensOf, if_true, List.length_cons] at hn2 ⊢
          omega
    obtain ⟨S, T, hT, hS, hloop⟩ := ih true
      { r with opened := if reopen then r.opened + 1 else r.opened } hok2 hopen2
    have hcount : (if reopen then r.opened + 1 else r.opened) + opensOf true pre2.length
        = r.opened + opensOf reopen (pre2.length + 1) := by
      cases reopen
      · simp [opensOf]
      · simp only [opensOf, if_true]
        omega
    refine ⟨(id, (sendOne sb rb hdr (some r) cb prc reopen).robin) :: S,
      traceOf id (sendOne sb rb hdr (some r) cb prc reopen) ++ T, ?_, ?_, ?_⟩
    · simp only [readersOfTrace, traceOf, h3, List.map_append, List.map_cons, List.map_nil,
        List.singleton_append, mapKeys, List.length_cons, handedReaders_succ,
        List.zip_cons_cons]
      refine congrArg₂ _ rfl ?_
      exact hT
    · simp only [mapKeys, List.map_cons] at hS ⊢
      rw [hS]
    · rw [List.cons_append, broadcastLoop_cons_ok sb hdr cb prc reopen (some r) id rb _ h1, h2,
        hloop]
      simp only [Bool.true_or, List.length_cons, hcount, List.isEmpty_cons, Bool.not_false,
        Bool.or_true, List.cons_append, List.append_assoc]

theorem mem_mapSet {V : Type} (m : List (String × V)) (k : String) (v : V) (p : String × V)
    (h : p ∈ mapSet m k v) : p = (k, v) ∨ p ∈ m := by
  induction m with
  | nil =>
    simp only [mapSet, List.mem_singleton] at h
    exact Or.inl h
  | cons q rest ih =>
    obtain ⟨k1, v1⟩ := q
    by_cases h1 : k1 = k
    · simp only [mapSet, h1, if_true, List.mem_cons] at h
      rcases h with h | h
      · exact Or.inl h
      · exact Or.inr (List.mem_cons_of_mem _ h)
    · simp only [mapSet, h1, if_false, List.mem_cons] at h
      rcases h with h | h
      · exact Or.inr (by simp [h])
      · rcases ih h with h2 | h2
        · exact Or.inl h2
        · exact Or.inr (List.mem_cons_of_mem _ h2)

theorem robinOK_mono (sb : StreamBundle) (n : Nat) (rb : robin) (h : robinOK sb (n + 1) rb) :
    robinOK sb n rb := by
  obtain ⟨h1, h2, h3⟩ := h
  refine ⟨h1, h2, ?_⟩
  push_cast at h3
  omega

/-- The targeted loop over a prefix of listed nodes that are all present, on a bundle of
well-formed, accepting robins and with every `Open()` succeeding: the prefix is served, then
the loop carries on with the rest. -/
theorem targetedLoop_split (sb : StreamBundle) (hdr : Header) (cb : Option SendCallback)
    (prc : Option Nat) (hm : 1 ≤ sb.multiplier) (pre rest : List Snode) (n : Nat)
    (reopen : Bool) (r : ReadOpenCloser) (bun : bundle)
    (hok : bundleOK sb (pre.length + n) bun)
    (hpres : ∀ di ∈ pre, (mapGet bun di.DaemonID).isSome = true)
    (hopen : ∀ j, r.opened < j → j ≤ r.opened + opensOf reopen pre.length →
      r.openFails j = false) :
    ∃ B T, readersOfTrace T
        = (pre.map (fun di => di.DaemonID)).zip (handedReaders reopen r.opened pre.length) ∧
      (∀ k, (mapGet B k).isSome = (mapGet bun k).isSome) ∧ bundleOK sb n B ∧
      targetedLoop sb hdr cb prc reopen (some r) bun (pre ++ rest) =
        { out := (targetedLoop sb hdr cb prc (reopen || !pre.isEmpty)
            (some { r with opened := r.opened + opensOf reopen pre.length }) B rest).out,
          streams := (targetedLoop sb hdr cb prc (reopen || !pre.isEmpty)
            (some { r with opened := r.opened + opensOf reopen pre.length }) B rest).streams,
          reader := (targetedLoop sb hdr cb prc (reopen || !pre.isEmpty)
            (some { r with opened := r.opened + opensOf reopen pre.length }) B rest).reader,
          trace := T ++ (targetedLoop sb hdr cb prc (reopen || !pre.isEmpty)
            (some { r with opened := r.opened + opensOf reopen pre.length }) B rest).trace } := by
  induction pre generalizing reopen r bun with
  | nil =>
    have h0 : opensOf reopen 0 = 0 := by
      unfold opensOf
      split_ifs <;> rfl
    refine ⟨bun, [], by simp [readersOfTrace], fun k => rfl, ?_, by simp [h0]⟩
    simpa using hok
  | cons di pre2 ih =>
    have hsome := hpres di (by simp)
    obtain ⟨rb, hrb⟩ := Option.isSome_iff_exists.mp hsome
    have hp := hok (di.DaemonID, rb) (mapGet_mem bun di.DaemonID rb hrb)
    have hlen : (di :: pre2).length + n = (pre2.length + n) + 1 := by
      simp only [List.length_cons]
      omega
    rw [hlen] at hok hp
    have hop1 : reopen = true → r.openFails (r.opened + 1) = false := by
      intro hre
      apply hopen (r.opened + 1) (by omega)
      simp [opensOf, hre]
    obtain ⟨h1, h2, h3, h4, h5⟩ :=
      sendOne_accepts sb rb hdr r cb prc reopen (pre2.length + n) hm hp.1 hp.2 hop1
    have hok2 : bundleOK sb (pre2.length + n)
        (mapSet bun di.DaemonID (sendOne sb rb hdr (some r) cb prc reopen).robin) := by
      intro q hq
      rcases mem_mapSet _ _ _ q hq with hq2 | hq2
      · rw [hq2]
        exact ⟨h4, h5⟩
      · exact ⟨robinOK_mono sb _ _ (hok q hq2).1, (hok q hq2).2⟩
    have hget2 : ∀ k, (mapGet (mapSet bun di.DaemonID
        (sendOne sb rb hdr (some r) cb prc reopen).robin) k).isSome = (mapGet bun k).isSome := by
      intro k
      rw [mapGet_mapSet]
      by_cases hk : di.DaemonID = k
      · rw [if_pos hk, ← hk, hrb]
        rfl
      · rw [if_neg hk]
    have hpres2 : ∀ d ∈ pre2, (mapGet (mapSet bun di.DaemonID
        (sendOne sb rb hdr (some r) cb prc reopen).robin) d.DaemonID).isSome = true := by
      intro d hd
      rw [hget2]
      exact hpres d (by simp [hd])
    have hopen2 : ∀ j, (if reopen then r.opened + 1 else r.opened) < j →
        j ≤ (if reopen then r.opened + 1 else r.opened) + opensOf true pre2.length →
        r.openFails j = false := by
      intro j hn1 hn2
      apply hopen j
      · split_ifs at hn1 <;> omega
      · cases reopen
        · simp only [opensOf, Bool.false_eq_true, if_false, if_true, List.length_cons] at hn2 ⊢
          omega
        · simp only [opensOf, if_true, List.length_cons] at hn2 ⊢
          omega
    obtain ⟨B, T, hT, hB, hBok, hloop⟩ := ih true
      { r with opened := if reopen then r.opened + 1 else r.opened } _ hok2 hpres2 hopen2
    have hcount : (if reopen then r.opened + 1 else r.opened) + opensOf true pre2.length
        = r.opened + opensOf reopen (pre2.length + 1) := by
      cases reopen
      · simp [opensOf]
      · simp only [opensOf, if_true]
        omega
    refine ⟨B, traceOf di.DaemonID (sendOne sb rb hdr (some r) cb prc reopen) ++ T, ?_,
      fun k => by rw [hB, hget2], hBok, ?_⟩
    · simp only [readersOfTrace, traceOf, h3, List.map_append, List.map_cons, List.map_nil,
        List.singleton_append, List.length_cons, handedReaders_succ, List.zip_cons_cons]
      refine congrArg₂ _ rfl ?_
      exact hT
    · rw [List.cons_append,
        targetedLoop_cons_ok sb hdr cb prc reopen (some r) bun di _ rb hrb h1, h2, hloop]
      simp only [Bool.true_or, List.length_cons, hcount, List.isEmpty_cons, Bool.not_false,
        Bool.or_true, List.append_assoc]

theorem bundleOK_of_le (sb : StreamBundle) (n m : Nat) (bun : bundle) (hnm : n ≤ m)
    (h : bundleOK sb m bun) : bundleOK sb n bun := by
  intro p hp
  obtain ⟨⟨h1, h2, h3⟩, h4⟩ := h p hp
  refine ⟨⟨h1, h2, ?_⟩, h4⟩
  have : (n : Int) ≤ (m : Int) := by exact_mod_cast hnm
  omega

theorem handedReaders_false_succ (o n : Nat) :
    handedReaders false o (n + 1) = ReadCloser.caller :: reopenedFrom o n := rfl

/-- A broadcast loop over a well-formed, accepting bundle in which every `Open()` succeeds. -/
theorem broadcastLoop_all_ok (sb : StreamBundle) (hdr : Header) (cb : Option SendCallback)
    (prc : Option Nat) (hm : 1 ≤ sb.multiplier) (bun : bundle) (r : ReadOpenCloser)
    (hok : bundleOK sb 1 bun) (hK : 1 ≤ bun.length) (hopen : ∀ n, r.openFails n = false) :
    (broadcastLoop sb hdr cb prc false (some r) bun).out = Outcome.ok ∧
    (broadcastLoop sb hdr cb prc false (some r) bun).reader
      = some { r with opened := r.opened + (bun.length - 1) } ∧
    readersOfTrace (broadcastLoop sb hdr cb prc false (some r) bun).trace
      = (mapKeys bun).zip (ReadCloser.caller :: reopenedFrom r.opened (bun.length - 1)) := by
  obtain ⟨S, T, hT, _, hloop⟩ := broadcastLoop_split sb hdr cb prc hm bun [] false r hok
    (fun n _ _ => hopen n)
  rw [List.append_nil] at hloop
  rw [hloop]
  have hlen : bun.length = (bun.length - 1) + 1 := by omega
  refine ⟨rfl, by simp [broadcastLoop, opensOf], ?_⟩
  simp only [broadcastLoop, List.append_nil, hT]
  rw [hlen, handedReaders_false_succ]
  simp

/-- A broadcast loop in which the `Open()` call for the `j`-th robin visited fails, after the
first `j - 1` robins were served. -/
theorem broadcastLoop_reopen_fails (sb : StreamBundle) (hdr : Header)
    (cb : Option SendCallback) (prc : Option Nat) (hm : 1 ≤ sb.multiplier) (bun : bundle)
    (r : ReadOpenCloser) (j : Nat) (hok : bundleOK sb 1 bun) (hj2 : 2 ≤ j)
    (hjK : j ≤ bun.length)
    (hopen : ∀ n, 1 ≤ n → n < j - 1 → r.openFails (r.opened + n) = false)
    (hfail : r.openFails (r.opened + (j - 1)) = true) :
    (broadcastLoop sb hdr cb prc false (some r) bun).out = Outcome.error SendErr.reopen ∧
    (broadcastLoop sb hdr cb prc false (some r) bun).reader
      = some { r with opened := r.opened + (j - 1) } ∧
    readersOfTrace (broadcastLoop sb hdr cb prc false (some r) bun).trace
      = ((mapKeys bun).take (j - 1)).zip
          (ReadCloser.caller :: reopenedFrom r.opened (j - 2)) := by
  have hlt : j - 1 < bun.length := by omega
  have hsplit : bun = bun.take (j - 1) ++ (bun[j - 1] :: bun.drop (j - 1 + 1)) := by
    rw [← List.drop_eq_getElem_cons hlt, List.take_append_drop]
  have hplen : (bun.take (j - 1)).length = (j - 2) + 1 := by
    rw [List.length_take]
    omega
  have hok1 : bundleOK sb 1 (bun.take (j - 1)) :=
    fun p hp => hok p (List.mem_of_mem_take hp)
  have hopen1 : ∀ n, r.opened < n →
      n ≤ r.opened + opensOf false (bun.take (j - 1)).length → r.openFails n = false := by
    intro n h1 h2
    rw [hplen] at h2
    simp only [opensOf, Bool.false_eq_true, if_false, Nat.add_sub_cancel] at h2
    have := hopen (n - r.opened) (by omega) (by omega)
    rw [show r.opened + (n - r.opened) = n by omega] at this
    exact this
  obtain ⟨S, T, hT, _, hloop⟩ := broadcastLoop_split sb hdr cb prc hm (bun.take (j - 1))
    (bun[j - 1] :: bun.drop (j - 1 + 1)) false r hok1 hopen1
  rw [← hsplit] at hloop
  have hne : (bun.take (j - 1)).isEmpty = false := by
    cases hb : bun.take (j - 1) with
    | nil => rw [hb] at hplen; simp at hplen
    | cons a l => rfl
  have hfail2 : r.openFails (r.opened + opensOf false (bun.take (j - 1)).length + 1) = true := by
    rw [hplen]
    simp only [opensOf, Bool.false_eq_true, if_false, Nat.add_sub_cancel]
    rw [show r.opened + (j - 2) + 1 = r.opened + (j - 1) by omega]
    exact hfail
  have hone := sendOne_reopen_fails sb (bun[j - 1]).2 hdr
    { r with opened := r.opened + opensOf false (bun.take (j - 1)).length } cb prc hfail2
  have hstop := broadcastLoop_cons_stop sb hdr cb prc true
    (some { r with opened := r.opened + opensOf false (bun.take (j - 1)).length })
    (bun[j - 1]).1 (bun[j - 1]).2 (bun.drop (j - 1 + 1)) (by rw [hone]; simp)
  rw [hone] at hstop
  rw [hloop, hne]
  simp only [Bool.not_false, Bool.or_true, Prod.mk.eta, hstop, traceOf, List.append_nil, hT]
  refine ⟨trivial, ?_, ?_⟩
  · rw [hplen]
    simp only [opensOf, Bool.false_eq_true, if_false, Nat.add_sub_cancel]
    congr 2
    omega
  · rw [hplen, handedReaders_false_succ]
    simp [mapKeys, List.map_take]

/-- A targeted loop in which the `Open()` call for the `j`-th listed node fails, after the
first `j - 1` listed nodes were served. -/
theorem targetedLoop_reopen_fails (sb : StreamBundle) (hdr : Header)
    (cb : Option SendCallback) (prc : Option Nat) (hm : 1 ≤ sb.multiplier) (bun : bundle)
    (ns : List Snode) (r : ReadOpenCloser) (j : Nat) (hok : bundleOK sb ns.length bun)
    (hpres : ∀ di ∈ ns, (mapGet bun di.DaemonID).isSome = true)
    (hj2 : 2 ≤ j) (hjK : j ≤ ns.length)
    (hopen : ∀ n, 1 ≤ n → n < j - 1 → r.openFails (r.opened + n) = false)
    (hfail : r.openFails (r.opened + (j - 1)) = true) :
    (targetedLoop sb hdr cb prc false (some r) bun ns).out = Outcome.error SendErr.reopen ∧
    (targetedLoop sb hdr cb prc false (some r) bun ns).reader
      = some { r with opened := r.opened + (j - 1) } ∧
    readersOfTrace (targetedLoop sb hdr cb prc false (some r) bun ns).trace
      = ((ns.map (fun di => di.DaemonID)).take (j - 1)).zip
          (ReadCloser.caller :: reopenedFrom r.opened (j - 2)) := by
  have hlt : j - 1 < ns.length := by omega
  have hsplit : ns = ns.take (j - 1) ++ (ns[j - 1] :: ns.drop (j - 1 + 1)) := by
    rw [← List.drop_eq_getElem_cons hlt, List.take_append_drop]
  have hplen : (ns.take (j - 1)).length = (j - 2) + 1 := by
    rw [List.length_take]
    omega
  have hok1 : bundleOK sb ((ns.take (j - 1)).length + 0) bun :=
    bundleOK_of_le sb _ ns.length bun (by rw [hplen]; omega) hok
  have hpres1 : ∀ di ∈ ns.take (j - 1), (mapGet bun di.DaemonID).isSome = true :=
    fun di hdi => hpres di (List.mem_of_mem_take hdi)
  have hopen1 : ∀ n, r.opened < n →
      n ≤ r.opened + opensOf false (ns.take (j - 1)).length → r.openFails n = false := by
    intro n h1 h2
    rw [hplen] at h2
    simp only [opensOf, Bool.false_eq_true, if_false, Nat.add_sub_cancel] at h2
    have := hopen (n - r.opened) (by omega) (by omega)
    rw [show r.opened + (n - r.opened) = n by omega] at this
    exact this
  obtain ⟨B, T, hT, hB, _, hloop⟩ := targetedLoop_split sb hdr cb prc hm (ns.take (j - 1))
    (ns[j - 1] :: ns.drop (j - 1 + 1)) 0 false r bun hok1 hpres1 hopen1
  rw [← hsplit] at hloop
  have hne : (ns.take (j - 1)).isEmpty = false := by
    cases hb : ns.take (j - 1) with
    | nil => rw [hb] at hplen; simp at hplen
    | cons a l => rfl
  have hfail2 : r.openFails (r.opened + opensOf false (ns.take (j - 1)).length + 1) = true := by
    rw [hplen]
    simp only [opensOf, Bool.false_eq_true, if_false, Nat.add_sub_cancel]
    rw [show r.opened + (j - 2) + 1 = r.opened + (j - 1) by omega]
    exact hfail
  have hsome : (mapGet B (ns[j - 1]).DaemonID).isSome = true := by
    rw [hB]
    exact hpres _ (List.getElem_mem _)
  obtain ⟨rb, hrb⟩ := Option.isSome_iff_exists.mp hsome
  have hone := sendOne_reopen_fails sb rb hdr
    { r with opened := r.opened + opensOf false (ns.take (j - 1)).length } cb prc hfail2
  have hstop := targetedLoop_cons_stop sb hdr cb prc true
    (some { r with opened := r.opened + opensOf false (ns.take (j - 1)).length }) B
    (ns[j - 1]) (ns.drop (j - 1 + 1)) rb hrb (by rw [hone]; simp)
  rw [hone] at hstop
  rw [hloop, hne]
  simp only [Bool.not_false, Bool.or_true, hstop, traceOf, List.append_nil, hT]
  refine ⟨trivial, ?_, ?_⟩
  · rw [hplen]
    simp only [opensOf, Bool.false_eq_true, if_false, Nat.add_sub_cancel]
    congr 2
    omega
  · rw [hplen, handedReaders_false_succ]
    simp [List.map_take]

/-! ## Broadcast reopens the reader K - 1 times (C3) -/

theorem reaches_broadcast (sb : StreamBundle) (h : 1 ≤ sb.get.length) : reachesFanout sb none := by
  refine ⟨?_, fun ns hns => by cases hns⟩
  intro h0
  rw [h0] at h
  simp at h

theorem length_of_readersOfTrace (t : List (String × Nat × Handoff))
    (l : List (String × ReadCloser)) (h : readersOfTrace t = l) : t.length = l.length := by
  rw [← h]
  simp [readersOfTrace]

/-- C3: for a bundle of `K ≥ 1` well-formed destinations whose streams accept and a non-nil
reader whose `Open()` always succeeds, a broadcast `Send` returns nil, calls `Open()` exactly
`K - 1` times, and makes `K` handoffs, one per destination in the order visited: the first
carries the caller's reader itself and each of the other `K - 1` the child that its own
`Open()` call returned. -/
theorem Send_broadcast_reopens (sb : StreamBundle) (heap : List Int) (hdr : Header)
    (r : ReadOpenCloser) (cb : Option SendCallback)
    (hm : 1 ≤ sb.multiplier) (hok : bundleOK sb 1 sb.get) (hK : 1 ≤ sb.get.length)
    (hopen : ∀ n, r.openFails n = false) :
    (Send sb heap hdr (some r) cb none).out = Outcome.ok ∧
    (Send sb heap hdr (some r) cb none).reader
      = some { r with opened := r.opened + (sb.get.length - 1) } ∧
    (Send sb heap hdr (some r) cb none).trace.length = sb.get.length ∧
    readersOfTrace (Send sb heap hdr (some r) cb none).trace
      = (mapKeys sb.get).zip
          (ReadCloser.caller :: reopenedFrom r.opened (sb.get.length - 1)) := by
  obtain ⟨t, ht, hS⟩ := Send_eq_fanout sb heap hdr (some r) cb none (reaches_broadcast sb hK)
  simp only [] at ht
  obtain ⟨h1, h2, h3⟩ := broadcastLoop_all_ok sb hdr (effectiveCb sb cb)
    (if (effectiveCb sb cb).isSome = true ∧ 1 < fanoutWidth sb none then some heap.length
      else none) hm sb.get r hok hK hopen
  rw [← ht] at h1 h2 h3
  rw [hS]
  refine ⟨h1, h2, ?_, h3⟩
  have hl := length_of_readersOfTrace _ _ h3
  rw [hl]
  simp [mapKeys, reopenedFrom]
  omega

theorem sbThree_ok : bundleOK sbThree 1 sbThree.get := by
  intro p hp
  have hrb : p.2 = ⟨[streamA], 0⟩ := by
    simp only [sbThree, sbOf, StreamBundle.get, List.mem_cons, List.mem_singleton,
      List.not_mem_nil, or_false] at hp
    rcases hp with h | h | h <;> rw [h]
  rw [hrb]
  refine ⟨⟨rfl, by decide, by decide⟩, ?_⟩
  intro s hs n
  simp only [List.mem_singleton] at hs
  rw [hs]
  rfl

/-- Witness of C3: a broadcast over three destinations reopens the reader twice. -/
theorem Send_broadcast_reopens_witness :
    1 ≤ sbThree.multiplier ∧ 1 ≤ sbThree.get.length ∧ (∀ n, readerA.openFails n = false) ∧
    (Send sbThree [] hdrA (some readerA) none none).out = Outcome.ok ∧
    (Send sbThree [] hdrA (some readerA) none none).reader
      = some { readerA with opened := readerA.opened + (sbThree.get.length - 1) } ∧
    (Send sbThree [] hdrA (some readerA) none none).trace.length = sbThree.get.length ∧
    readersOfTrace (Send sbThree [] hdrA (some readerA) none none).trace
      = (mapKeys sbThree.get).zip
          (ReadCloser.caller :: reopenedFrom readerA.opened (sbThree.get.length - 1)) :=
  ⟨by decide, by decide, fun _ => rfl,
    Send_broadcast_reopens sbThree [] hdrA readerA none (by decide) sbThree_ok (by decide)
      (fun _ => rfl)⟩

/-! ## A failing reopen stops the fanout (C5, C6) -/

/-- C5: in a fanout (broadcast or targeted) over `K ≥ 2` well-formed destinations whose streams
accept, with a non-nil reader, if `Open()` succeeds for destinations `2 .. j-1` and fails when
the `j`-th destination (`2 ≤ j ≤ K`) is processed, `Send` returns the reader-reopen error, the
handoffs made are exactly those to the first `j - 1` destinations, in order (the first with the
caller's reader, the others with their own child), so the `j`-th and later destinations get
none, and `Open()` has been called `j - 1` times in all, the failing call being the last. -/
theorem Send_reopen_failure (sb : StreamBundle) (heap : List Int) (hdr : Header)
    (r : ReadOpenCloser) (cb : Option SendCallback) (nodes : Option (List Snode)) (j : Nat)
    (hm : 1 ≤ sb.multiplier) (hok : bundleOK sb (fanoutLoad nodes) sb.get)
    (hreach : reachesFanout sb nodes) (hj2 : 2 ≤ j) (hjK : j ≤ fanoutWidth sb nodes)
    (hopen : ∀ n, 1 ≤ n → n < j - 1 → r.openFails (r.opened + n) = false)
    (hfail : r.openFails (r.opened + (j - 1)) = true) :
    (Send sb heap hdr (some r) cb nodes).out = Outcome.error SendErr.reopen ∧
    (Send sb heap hdr (some r) cb nodes).reader = some { r with opened := r.opened + (j - 1) } ∧
    (Send sb heap hdr (some r) cb nodes).trace.length = j - 1 ∧
    readersOfTrace (Send sb heap hdr (some r) cb nodes).trace
      = ((fanoutIDs sb nodes).take (j - 1)).zip
          (ReadCloser.caller :: reopenedFrom r.opened (j - 2)) := by
  obtain ⟨t, ht, hS⟩ := Send_eq_fanout sb heap hdr (some r) cb nodes hreach
  have hlenfact : ∀ l : List String, j - 1 ≤ l.length →
      ((l.take (j - 1)).zip (ReadCloser.caller :: reopenedFrom r.opened (j - 2))).length
        = j - 1 := by
    intro l hl
    simp [reopenedFrom]
    omega
  cases nodes with
  | none =>
    simp only [] at ht
    obtain ⟨h1, h2, h3⟩ := broadcastLoop_reopen_fails sb hdr (effectiveCb sb cb)
      (if (effectiveCb sb cb).isSome = true ∧ 1 < fanoutWidth sb none then some heap.length
        else none) hm sb.get r j hok hj2 hjK hopen hfail
    rw [← ht] at h1 h2 h3
    rw [hS]
    refine ⟨h1, h2, ?_, h3⟩
    rw [length_of_readersOfTrace _ _ h3]
    apply hlenfact
    simp only [mapKeys, List.length_map]
    exact Nat.le_trans (Nat.sub_le j 1) hjK
  | some ns =>
    simp only [] at ht
    obtain ⟨h1, h2, h3⟩ := targetedLoop_reopen_fails sb hdr (effectiveCb sb cb)
      (if (effectiveCb sb cb).isSome = true ∧ 1 < fanoutWidth sb (some ns) then some heap.length
        else none) hm sb.get ns r j hok (hreach.2 ns rfl) hj2 hjK hopen hfail
    rw [← ht] at h1 h2 h3
    rw [hS]
    refine ⟨h1, h2, ?_, h3⟩
    rw [length_of_readersOfTrace _ _ h3]
    apply hlenfact
    simp only [List.length_map]
    exact Nat.le_trans (Nat.sub_le j 1) hjK

/-- Witness of C5: a targeted send to t3, t1, t3 in which the second `Open()`, made for the
third destination, fails. -/
theorem Send_reopen_failure_witness :
    1 ≤ sbThree.multiplier ∧ 2 ≤ 3 ∧
    3 ≤ fanoutWidth sbThree (some [nodeOf "t3", nodeOf "t1", nodeOf "t3"]) ∧
    readerB.openFails (readerB.opened + (3 - 1)) = true ∧
    (Send sbThree [] hdrA (some readerB) none
      (some [nodeOf "t3", nodeOf "t1", nodeOf "t3"])).out = Outcome.error SendErr.reopen ∧
    (Send sbThree [] hdrA (some readerB) none
      (some [nodeOf "t3", nodeOf "t1", nodeOf "t3"])).reader
        = some { readerB with opened := readerB.opened + (3 - 1) } ∧
    (Send sbThree [] hdrA (some readerB) none
      (some [nodeOf "t3", nodeOf "t1", nodeOf "t3"])).trace.length = 3 - 1 ∧
    readersOfTrace (Send sbThree [] hdrA (some readerB) none
      (some [nodeOf "t3", nodeOf "t1", nodeOf "t3"])).trace
      = ((fanoutIDs sbThree (some [nodeOf "t3", nodeOf "t1", nodeOf "t3"])).take (3 - 1)).zip
          (ReadCloser.caller :: reopenedFrom readerB.opened (3 - 2)) :=
  have hok : bundleOK sbThree (fanoutLoad (some [nodeOf "t3", nodeOf "t1", nodeOf "t3"]))
      sbThree.get := by
    intro p hp
    refine ⟨⟨(sbThree_ok p hp).1.1, (sbThree_ok p hp).1.2.1, ?_⟩, (sbThree_ok p hp).2⟩
    have hrb : p.2 = ⟨[streamA], 0⟩ := by
      simp only [sbThree, sbOf, StreamBundle.get, List.mem_cons, List.mem_singleton,
        List.not_mem_nil, or_false] at hp
      rcases hp with h | h | h <;> rw [h]
    rw [hrb]
    decide
  have hreach : reachesFanout sbThree (some [nodeOf "t3", nodeOf "t1", nodeOf "t3"]) := by
    refine ⟨by simp [sbThree, sbOf, StreamBundle.get], fun ns hns di hdi => ?_⟩
    simp only [Option.some.injEq] at hns
    rw [← hns] at hdi
    simp only [List.mem_cons, List.mem_singleton, List.not_mem_nil, or_false] at hdi
    rcases hdi with h | h | h <;> rw [h] <;> rfl
  have hopen : ∀ n, 1 ≤ n → n < 3 - 1 → readerB.openFails (readerB.opened + n) = false := by
    intro n h1 h2
    have : n = 1 := by omega
    rw [this]
    rfl
  ⟨by decide, by decide, by decide, rfl,
    Send_reopen_failure sbThree [] hdrA readerB none
      (some [nodeOf "t3", nodeOf "t1", nodeOf "t3"]) 3 (by decide) hok hreach (by decide)
      (by decide) hopen rfl⟩

/-- C6, as stated, fails: with a reader whose first `Open()` succeeds and whose second fails, a
broadcast to three accepting destinations returns the reader-reopen error after two
destinations, not at most one, have been handed the object. -/
theorem C6_two_handoffs_counterexample :
    readerB.openFails 1 = false ∧ readerB.openFails 2 = true ∧ sbThree.get.length = 3 ∧
    (Send sbThree [] hdrA (some readerB) none none).out = Outcome.error SendErr.reopen ∧
    (Send sbThree [] hdrA (some readerB) none none).trace.map (fun e => e.1) = ["t1", "t2"] ∧
    ¬ (Send sbThree [] hdrA (some readerB) none none).trace.length ≤ 1 := by
  decide

/-- C6 (amended): for a reader whose first `Open()` call succeeds and whose second `Open()` call
returns an error, a broadcast `Send` to a bundle of 3 well-formed destinations whose streams
accept returns the reader-reopen error after exactly two destinations have been handed the
object: the first visited got the caller's reader, the second the child of the first `Open()`,
and the third got nothing. -/
theorem Send_second_open_fails (sb : StreamBundle) (heap : List Int) (hdr : Header)
    (r : ReadOpenCloser) (cb : Option SendCallback)
    (hm : 1 ≤ sb.multiplier) (hok : bundleOK sb 1 sb.get) (h3 : sb.get.length = 3)
    (hfirst : r.openFails (r.opened + 1) = false)
    (hsecond : r.openFails (r.opened + 2) = true) :
    (Send sb heap hdr (some r) cb none).out = Outcome.error SendErr.reopen ∧
    (Send sb heap hdr (some r) cb none).trace.length = 2 ∧
    readersOfTrace (Send sb heap hdr (some r) cb none).trace
      = ((mapKeys sb.get).take 2).zip
          [ReadCloser.caller, ReadCloser.reopened (r.opened + 1)] ∧
    (Send sb heap hdr (some r) cb none).reader = some { r with opened := r.opened + 2 } := by
  obtain ⟨t, ht, hS⟩ := Send_eq_fanout sb heap hdr (some r) cb none
    (reaches_broadcast sb (by omega))
  simp only [] at ht
  have hopen : ∀ n, 1 ≤ n → n < 3 - 1 → r.openFails (r.opened + n) = false := by
    intro n h1 h2
    have : n = 1 := by omega
    rw [this]
    exact hfirst
  obtain ⟨g1, g2, g3⟩ := broadcastLoop_reopen_fails sb hdr (effectiveCb sb cb)
    (if (effectiveCb sb cb).isSome = true ∧ 1 < fanoutWidth sb none then some heap.length
      else none) hm sb.get r 3 hok (by decide) (by omega) hopen hsecond
  rw [← ht] at g1 g2 g3
  have hro : reopenedFrom r.opened (3 - 2) = [ReadCloser.reopened (r.opened + 1)] := by
    show reopenedFrom r.opened 1 = [ReadCloser.reopened (r.opened + 1)]
    simp [reopenedFrom, List.range_succ]
  rw [hro] at g3
  rw [hS]
  refine ⟨g1, ?_, g3, g2⟩
  rw [length_of_readersOfTrace _ _ g3]
  simp [mapKeys, h3]

/-- Witness of C6 (amended): the broadcast of the counterexample. -/
theorem Send_second_open_fails_witness :
    1 ≤ sbThree.multiplier ∧ sbThree.get.length = 3 ∧
    readerB.openFails (readerB.opened + 1) = false ∧
    readerB.openFails (readerB.opened + 2) = true ∧
    (Send sbThree [] hdrA (some readerB) none none).out = Outcome.error SendErr.reopen ∧
    (Send sbThree [] hdrA (some readerB) none none).trace.length = 2 ∧
    readersOfTrace (Send sbThree [] hdrA (some readerB) none none).trace
      = ((mapKeys sbThree.get).take 2).zip
          [ReadCloser.caller, ReadCloser.reopened (readerB.opened + 1)] ∧
    (Send sbThree [] hdrA (some readerB) none none).reader
      = some { readerB with opened := readerB.opened + 2 } :=
  ⟨by decide, rfl, rfl, rfl,
    Send_second_open_fails sbThree [] hdrA readerB none (by decide) sbThree_ok rfl rfl rfl⟩

/-! ## Resync on an unchanged or older snapshot (C12, C13) -/

theorem resync_some_version (wire : String → Nat → Nat → Bool) (sb : StreamBundle) (smap : Smap)
    (r : ResyncResult) (h : resync wire sb smap = some r) :
    r.sb.smap.Version = smap.Version := by
  unfold resync at h
  split_ifs at h with h1 h2
  · simp only [Option.some.injEq] at h
    rw [← h]
    exact h1.symm
  · split at h
    · cases h
    · cases h
    · simp only [] at h
      split at h
      · cases h
      · simp only [Option.some.injEq] at h
        rw [← h]

/-- C12: when the oracle's snapshot version equals the remembered version, `resync` and
`SmapChanged` return at once: no stream is created, no robin is stopped or removed, and the
bundle object (published bundle, remembered snapshot) is as before; and a second `resync` on the
snapshot that a first `resync` has just processed is such a no-op, so two runs leave the state
that one run leaves. -/
theorem resync_idempotent (wire : String → Nat → Nat → Bool) (sb : StreamBundle) (smap : Smap)
    (h : smap.Version = sb.smap.Version) :
    resync wire sb smap = some { sb := sb, created := [], removed := [] } ∧
    SmapChanged wire sb smap = some { sb := sb, created := [], removed := [] } ∧
    ∀ (sb0 : StreamBundle) (r : ResyncResult), resync wire sb0 smap = some r →
      resync wire r.sb smap = some { sb := r.sb, created := [], removed := [] } := by
  refine ⟨by simp [resync, h], by simp [SmapChanged, h], fun sb0 r hr => ?_⟩
  have hv := resync_some_version wire sb0 smap r hr
  simp [resync, hv]

/-- Witness of C12: the snapshot of version 1 on a bundle that remembers version 1. -/
theorem resync_idempotent_witness :
    smapTwoTargets.Version = sbTwo.smap.Version ∧
    resync wireA sbTwo smapTwoTargets = some { sb := sbTwo, created := [], removed := [] } ∧
    SmapChanged wireA sbTwo smapTwoTargets
      = some { sb := sbTwo, created := [], removed := [] } :=
  have h := resync_idempotent wireA sbTwo smapTwoTargets rfl
  ⟨rfl, h.1, h.2.1⟩

/-- The two embeddings of `resync` agree on what the call returns. -/
theorem resync_eq_resyncEnd (wire : String → Nat → Nat → Bool) (sb : StreamBundle)
    (smap : Smap) : resync wire sb smap = (resyncEnd wire sb smap).result := by
  unfold resync resyncEnd
  by_cases h1 : smap.Version = sb.smap.Version
  · simp [h1, ResyncEnd.result]
  · by_cases h2 : smap.Version > sb.smap.Version
    · simp only [h1, h2, if_false, not_true_eq_false]
      cases hold : roleMaps sb.rxNodeType sb.smap with
      | none => simp [ResyncEnd.result]
      | some old =>
        cases hnew : roleMaps sb.rxNodeType smap with
        | none => simp [ResyncEnd.result]
        | some new =>
          simp only []
          cases hrem : removeLoop sb
              ((addLoop wire sb (sb.get, []) (NodeMapDelta old new).1).1, [])
              (NodeMapDelta old new).2 with
          | none => simp [ResyncEnd.result]
          | some shrunk => simp [ResyncEnd.result]
    · simp [h1, h2, ResyncEnd.result]

theorem SmapChanged_eq_SmapChangedEnd (wire : String → Nat → Nat → Bool) (sb : StreamBundle)
    (smap : Smap) : SmapChanged wire sb smap = (SmapChangedEnd wire sb smap).result := by
  unfold SmapChanged SmapChangedEnd
  by_cases h1 : smap.Version = sb.smap.Version
  · simp [h1, ResyncEnd.result]
  · simp only [h1, if_false]
    exact resync_eq_resyncEnd wire sb smap

/-- C13: when the oracle's snapshot version is strictly less than the remembered version,
`resync` (also when reached through `SmapChanged`) ends at the failed
`cmn.Assert(smap.Version > sb.smap.Version)`, not at a runtime panic, and what it has done by
then is nothing: the bundle object is the one it was called on, with the same published pointer
and the same remembered snapshot, no stream has been created and no robin has been removed or
had a stream stopped. The call returns nothing. -/
theorem resync_stale_version (wire : String → Nat → Nat → Bool) (sb : StreamBundle) (smap : Smap)
    (h : smap.Version < sb.smap.Version) :
    resyncEnd wire sb smap
      = ResyncEnd.assertFailed { sb := sb, created := [], removed := [] } ∧
    SmapChangedEnd wire sb smap
      = ResyncEnd.assertFailed { sb := sb, created := [], removed := [] } ∧
    resync wire sb smap = none ∧ SmapChanged wire sb smap = none := by
  have h1 : ¬ smap.Version = sb.smap.Version := by omega
  have h2 : ¬ smap.Version > sb.smap.Version := by omega
  have hE : resyncEnd wire sb smap
      = ResyncEnd.assertFailed { sb := sb, created := [], removed := [] } := by
    simp [resyncEnd, h1, h2]
  have hC : SmapChangedEnd wire sb smap
      = ResyncEnd.assertFailed { sb := sb, created := [], removed := [] } := by
    simp only [SmapChangedEnd, h1, if_false]
    exact hE
  refine ⟨hE, hC, ?_, ?_⟩
  · rw [resync_eq_resyncEnd, hE]
    rfl
  · rw [SmapChanged_eq_SmapChangedEnd, hC]
    rfl

/-- Witness of C13: a snapshot of version 0, whose targets are new to the remembered snapshot,
on a bundle that remembers version 1: the call ends at the assertion with the bundle as it was
and nothing created. -/
theorem resync_stale_version_witness :
    smapZero.Version < sbTwo.smap.Version ∧
    resyncEnd wireA sbTwo smapZero
      = ResyncEnd.assertFailed { sb := sbTwo, created := [], removed := [] } ∧
    SmapChangedEnd wireA sbTwo smapZero
      = ResyncEnd.assertFailed { sb := sbTwo, created := [], removed := [] } ∧
    resync wireA sbTwo smapZero = none ∧ SmapChanged wireA sbTwo smapZero = none :=
  ⟨by decide, resync_stale_version wireA sbTwo smapZero (by decide)⟩

/-! ## The bundle pointer after construction (C14) -/

/-- C14, as stated, fails: on an oracle snapshot of version 0 (which here lists two remote
targets) construction returns with the bundle pointer still nil, `resync` having returned at
its equality test. -/
theorem C14_version_zero_counterexample :
    smapZero.Version = 0 ∧ validRole Targets ∧ validMultiplier [] ∧
    (NewStreamBundle wireA smapZero (nodeOf "local") "data" "tr" none Targets []).map
      (fun sb => sb.streams.isSome) = some false := by
  refine ⟨rfl, Or.inl rfl, trivial, ?_⟩
  rfl

/-- C14 (amended): for every oracle snapshot of positive version present at construction time
and every valid role and multiplier, `NewStreamBundle` returns a bundle whose pointer is
non-nil; on a snapshot of version 0 it returns a bundle whose pointer is nil. -/
theorem NewStreamBundle_publishes (wire : String → Nat → Nat → Bool) (smap : Smap)
    (lsnode : Snode) (network trname : String) (extra : Option Extra) (ntype : Int)
    (multiplier : List Int) (hr : validRole ntype) (hm : validMultiplier multiplier)
    (hv : 0 ≤ smap.Version) :
    ∃ sb, NewStreamBundle wire smap lsnode network trname extra ntype multiplier = some sb ∧
      (0 < smap.Version → ∃ bun, sb.streams = some bun) ∧
      (smap.Version = 0 → sb.streams = none) := by
  obtain ⟨sb, h1, _, _, _, _, h6, h7⟩ :=
    NewStreamBundle_spec wire smap lsnode network trname extra ntype multiplier hr hm hv
  exact ⟨sb, h1, fun hp => (h6 hp).2, h7⟩

/-- Witness of C14 (amended): construction on a snapshot of version 1. -/
theorem NewStreamBundle_publishes_witness :
    validRole Targets ∧ validMultiplier [] ∧ 0 ≤ smapTwoTargets.Version ∧
    ∃ sb, NewStreamBundle wireA smapTwoTargets (nodeOf "local") "data" "tr" none Targets []
        = some sb ∧
      (0 < smapTwoTargets.Version → ∃ bun, sb.streams = some bun) ∧
      (smapTwoTargets.Version = 0 → sb.streams = none) :=
  ⟨Or.inl rfl, trivial, by decide,
    NewStreamBundle_publishes wireA smapTwoTargets (nodeOf "local") "data" "tr" none Targets []
      (Or.inl rfl) trivial (by decide)⟩

/-! ## Close (C16) -/

theorem applyStream_close (gracefully : Bool) (s : Stream) :
    applyStream (if gracefully then closeFin else closeStop) s
      = some (closedStream gracefully s) := by
  cases gracefully <;> by_cases ht : s.terminated = true <;>
    simp [applyStream, closedStream, Stream.Terminated, ht, closeFin, closeStop]

theorem applyStreams_close (gracefully : Bool) (l : List Stream) :
    applyStreams (if gracefully then closeFin else closeStop) l
      = some (l.map (closedStream gracefully)) := by
  induction l with
  | nil => rfl
  | cons s rest ih => simp [applyStreams, applyStream_close, ih]

theorem applyRobins_close (gracefully : Bool) (bun : bundle) :
    applyRobins (if gracefully then closeFin else closeStop) bun
      = some (closedBundle gracefully bun) := by
  induction bun with
  | nil => rfl
  | cons p rest ih =>
    obtain ⟨id, rb⟩ := p
    have ih2 : applyRobins (if gracefully then closeFin else closeStop) rest
        = some (List.map (fun p => (p.1,
            { p.2 with stsdest := p.2.stsdest.map (closedStream gracefully) })) rest) := ih
    simp [applyRobins, applyStreams_close, ih2, closedBundle]

theorem Close_eq (sb : StreamBundle) (gracefully : Bool) :
    Close sb gracefully
      = some { sb with streams := sb.streams.map (closedBundle gracefully) } := by
  have h := applyRobins_close gracefully
  cases gracefully
  · simp only [Bool.false_eq_true, if_false] at h
    cases hs : sb.streams with
    | none =>
      simp only [Close, StreamBundle.apply, hs, Bool.false_eq_true, if_false, Option.map_none']
      rw [← hs]
    | some bun =>
      simp [Close, StreamBundle.apply, hs, h]
  · simp only [if_true] at h
    cases hs : sb.streams with
    | none =>
      simp only [Close, StreamBundle.apply, hs, if_true, Option.map_none']
      rw [← hs]
    | some bun =>
      simp [Close, StreamBundle.apply, hs, h]

theorem closedStream_twice (g g2 : Bool) (s : Stream) :
    closedStream g2 (closedStream g s) = closedStream g s := by
  by_cases ht : s.terminated = true
  · simp [closedStream, ht]
  · cases g <;> simp [closedStream, ht, Stream.Fin, Stream.Stop]

/-- C16: `Close(gracefully)` returns and leaves every stream of every robin of the bundle as
follows: a stream that is terminated is untouched (no `Fin`, no `Stop`); a stream that is not
gets exactly one `Fin` and no `Stop` when `gracefully` is set, exactly one `Stop` and no `Fin`
when it is not. As `Fin` and `Stop` leave a stream terminated, a second `Close`, graceful or
not, changes nothing, that is, it issues no `Fin` and no `Stop`. -/
theorem Close_effect (sb : StreamBundle) (gracefully : Bool) :
    Close sb gracefully
      = some { sb with streams := sb.streams.map (closedBundle gracefully) } ∧
    (∀ s : Stream, s.terminated = true → closedStream gracefully s = s) ∧
    (∀ s : Stream, s.terminated = false →
      (closedStream true s).fins = s.fins + 1 ∧ (closedStream true s).stops = s.stops ∧
      (closedStream false s).stops = s.stops + 1 ∧ (closedStream false s).fins = s.fins) ∧
    ∀ (sb2 : StreamBundle) (again : Bool), Close sb gracefully = some sb2 →
      Close sb2 again = some sb2 := by
  refine ⟨Close_eq sb gracefully, ?_, ?_, ?_⟩
  · intro s hs
    simp [closedStream, hs]
  · intro s hs
    simp [closedStream, hs, Stream.Fin, Stream.Stop]
  · intro sb2 again h
    rw [Close_eq] at h
    simp only [Option.some.injEq] at h
    rw [Close_eq, ← h]
    congr 2
    cases hs : sb.streams with
    | none => rfl
    | some bun =>
      simp only [Option.map_some', Option.some.injEq, closedBundle, List.map_map]
      apply List.map_congr_left
      intro p _
      simp [Function.comp, closedStream_twice]

/-- Witness of C16: a graceful close of two active streams, then an abortive one. -/
theorem Close_effect_witness :
    streamA.terminated = false ∧
    Close sbTwo true = some { sbTwo with streams := sbTwo.streams.map (closedBundle true) } ∧
    (closedStream true streamA).fins = streamA.fins + 1 ∧
    (closedStream true streamA).stops = streamA.stops ∧
    Close { sbTwo with streams := sbTwo.streams.map (closedBundle true) } false
      = some { sbTwo with streams := sbTwo.streams.map (closedBundle true) } :=
  have h := Close_effect sbTwo true
  ⟨rfl, h.1, (h.2.2.1 streamA rfl).1, (h.2.2.1 streamA rfl).2.1, h.2.2.2 _ false h.1⟩

/-! ## Header-only broadcasts (C18) -/

theorem sendOne_nil_reader (sb : StreamBundle) (rb : robin) (hdr : Header)
    (cb : Option SendCallback) (prc : Option Nat) (reopen : Bool) (n : Nat)
    (hm : 1 ≤ sb.multiplier) (hok : robinOK sb (n + 1) rb) (hacc : accepting rb) :
    (sendOne sb rb hdr none cb prc reopen).out = Outcome.ok ∧
    (sendOne sb rb hdr none cb prc reopen).reader = none ∧
    (sendOne sb rb hdr none cb prc reopen).handed
      = some (pickIndex sb rb, ⟨hdr, ReadCloser.nil, cb, prc⟩) := by
  obtain ⟨s, hs, hres⟩ := sendOne_of_open sb rb hdr none cb prc reopen n ReadCloser.nil none
    hm hok rfl
  have hsm : s ∈ rb.stsdest := List.getElem?_mem hs
  rw [hres]
  exact ⟨by simp [hacc s hsm], rfl, rfl⟩

theorem broadcastLoop_nil_reader (sb : StreamBundle) (hdr : Header) (cb : Option SendCallback)
    (prc : Option Nat) (hm : 1 ≤ sb.multiplier) (bun : bundle) (reopen : Bool)
    (hok : bundleOK sb 1 bun) :
    (broadcastLoop sb hdr cb prc reopen none bun).out = Outcome.ok ∧
    (broadcastLoop sb hdr cb prc reopen none bun).reader = none ∧
    readersOfTrace (broadcastLoop sb hdr cb prc reopen none bun).trace
      = (mapKeys bun).map (fun id => (id, ReadCloser.nil)) := by
  induction bun generalizing reopen with
  | nil => simp [broadcastLoop, readersOfTrace, mapKeys]
  | cons p rest ih =>
    obtain ⟨id, rb⟩ := p
    have hp := hok (id, rb) (by simp)
    obtain ⟨h1, h2, h3⟩ := sendOne_nil_reader sb rb hdr cb prc reopen 0 hm hp.1 hp.2
    obtain ⟨g1, g2, g3⟩ := ih true (fun q hq => hok q (by simp [hq]))
    rw [broadcastLoop_cons_ok sb hdr cb prc reopen none id rb rest h1, h2]
    refine ⟨g1, g2, ?_⟩
    simp only [readersOfTrace, traceOf, h3, List.map_append, List.map_cons, List.map_nil,
      List.singleton_append, mapKeys]
    refine congrArg₂ _ rfl ?_
    simpa [readersOfTrace, mapKeys] using g3

/-- C18: on a bundle of `K ≥ 1` well-formed destinations whose streams accept, a broadcast
`SendV` with a nil reader returns nil and makes exactly `K` handoffs, one per destination in
the order visited, each carrying a nil reader, the second and later ones included; there is no
reader on which `Open()` could be invoked, and the reader `Send` leaves behind is nil. -/
theorem SendV_nil_reader (sb : StreamBundle) (heap : List Int) (hdr : Header)
    (cb : Option SendCallback) (hm : 1 ≤ sb.multiplier) (hok : bundleOK sb 1 sb.get)
    (hK : 1 ≤ sb.get.length) :
    (SendV sb heap hdr none cb []).out = Outcome.ok ∧
    (SendV sb heap hdr none cb []).reader = none ∧
    (SendV sb heap hdr none cb []).trace.length = sb.get.length ∧
    readersOfTrace (SendV sb heap hdr none cb []).trace
      = (mapKeys sb.get).map (fun id => (id, ReadCloser.nil)) := by
  have hV : SendV sb heap hdr none cb [] = Send sb heap hdr none cb none := by
    simp [SendV, SendVSlice]
  obtain ⟨t, ht, hS⟩ := Send_eq_fanout sb heap hdr none cb none (reaches_broadcast sb hK)
  simp only [] at ht
  obtain ⟨h1, h2, h3⟩ := broadcastLoop_nil_reader sb hdr (effectiveCb sb cb)
    (if (effectiveCb sb cb).isSome = true ∧ 1 < fanoutWidth sb none then some heap.length
      else none) hm sb.get false hok
  rw [← ht] at h1 h2 h3
  rw [hV, hS]
  refine ⟨h1, h2, ?_, h3⟩
  rw [length_of_readersOfTrace _ _ h3]
  simp [mapKeys]

/-- Witness of C18: a header-only broadcast over three destinations. -/
theorem SendV_nil_reader_witness :
    1 ≤ sbThree.multiplier ∧ 1 ≤ sbThree.get.length ∧
    (SendV sbThree [] hdrA none (some 7) []).out = Outcome.ok ∧
    (SendV sbThree [] hdrA none (some 7) []).reader = none ∧
    (SendV sbThree [] hdrA none (some 7) []).trace.length = sbThree.get.length ∧
    readersOfTrace (SendV sbThree [] hdrA none (some 7) []).trace
      = (mapKeys sbThree.get).map (fun id => (id, ReadCloser.nil)) :=
  ⟨by decide, by decide,
    SendV_nil_reader sbThree [] hdrA (some 7) (by decide) sbThree_ok (by decide)⟩

/-! ## Wrap-around of the round-robin counter (C19) -/

/-- C19 (evaluation at the failing input): with multiplier 3 and the counter at `2^63 - 1`, the
increment wraps to `-2^63`, Go's remainder of that by 3 is `-2`, and `sendOne` aborts on the
index out of range without handing the object over; likewise with multiplier 2 and the
counter at `-2`, where the index is `-1`. -/
theorem sendOne_wrapped_counter_panics :
    wrap64 (9223372036854775807 + 1) = -9223372036854775808 ∧
    Int.tmod (wrap64 (9223372036854775807 + 1)) 3 = -2 ∧
    (sendOne (sbOf none 3) robinFull hdrA none none none false).out = Outcome.panic ∧
    (sendOne (sbOf none 3) robinFull hdrA none none none false).handed = none ∧
    (sendOne (sbOf none 2) { stsdest := [streamA, streamA], i := -2 } hdrA none none none
      false).out = Outcome.panic := by
  decide

/-! ## Statistics after a run of broadcasts (C15) -/

/-- C15 (evaluation at the failing input): with multiplier 4 and two destinations, after 5
successful broadcasts and a graceful close `GetStats` reports `Num = 1` for each destination,
the share of `stsdest[0]`, and after 1 broadcast it reports `Num = 0`; the number of sends to
each destination is 5 and 1. -/
theorem GetStats_first_stream_only :
    statsAfter 4 5 = some [("t1", { Num := 1 }), ("t2", { Num := 1 })] ∧
    statsAfter 4 1 = some [("t1", { Num := 0 }), ("t2", { Num := 0 })] := by
  decide

/-! ## The length of the stream arrays (C11) -/

theorem mem_mapDel {V : Type} (m : List (String × V)) (k : String) (p : String × V)
    (h : p ∈ mapDel m k) : p ∈ m := by
  induction m with
  | nil => simp [mapDel] at h
  | cons q rest ih =>
    obtain ⟨k1, v1⟩ := q
    by_cases h1 : k1 = k
    · simp only [mapDel, h1, if_true] at h
      exact List.mem_cons_of_mem _ (ih h)
    · simp only [mapDel, h1, if_false, List.mem_cons] at h
      rcases h with h | h
      · simp [h]
      · exact List.mem_cons_of_mem _ (ih h)

theorem addLoop_allRobins (wire : String → Nat → Nat → Bool) (sb : StreamBundle)
    (l : List (String × Snode)) (acc : bundle × List (String × Nat × String))
    (h : allRobins sb.multiplier.toNat acc.1) :
    allRobins sb.multiplier.toNat (addLoop wire sb acc l).1 := by
  induction l generalizing acc with
  | nil => simpa [addLoop] using h
  | cons p rest ih =>
    obtain ⟨id, si⟩ := p
    by_cases hid : id = sb.lsnode.DaemonID
    · simp only [addLoop, hid, if_true]
      exact ih acc h
    · simp only [addLoop, hid, if_false]
      apply ih
      intro q hq
      rcases mem_mapSet _ _ _ q hq with hq2 | hq2
      · rw [hq2]
        simp [newRobin]
      · exact h q hq2

theorem removeLoop_allRobins (sb : StreamBundle) (m : Nat) (l : List (String × Snode))
    (acc res : bundle × List (String × robin)) (h : allRobins m acc.1)
    (hres : removeLoop sb acc l = some res) : allRobins m res.1 := by
  induction l generalizing acc with
  | nil =>
    simp only [removeLoop, Option.some.injEq] at hres
    rw [← hres]
    exact h
  | cons p rest ih =>
    obtain ⟨id, si⟩ := p
    by_cases hid : id = sb.lsnode.DaemonID
    · simp only [removeLoop, hid, if_true] at hres
      exact ih acc h hres
    · simp only [removeLoop, hid, if_false] at hres
      cases hg : mapGet acc.1 id with
      | none => simp [hg] at hres
      | some orobin =>
        simp only [hg] at hres
        cases hst : stopStreams sb.multiplier.toNat orobin with
        | none => simp [hst] at hres
        | some stopped =>
          simp only [hst] at hres
          exact ih _ (fun q hq => h q (mem_mapDel _ _ q hq)) hres

theorem resync_allRobins (wire : String → Nat → Nat → Bool) (sb : StreamBundle) (smap : Smap)
    (r : ResyncResult) (h : allRobins sb.multiplier.toNat sb.get)
    (hr : resync wire sb smap = some r) :
    r.sb.multiplier = sb.multiplier ∧ allRobins r.sb.multiplier.toNat r.sb.get := by
  unfold resync at hr
  split_ifs at hr with h1 h2
  · simp only [Option.some.injEq] at hr
    rw [← hr]
    exact ⟨rfl, h⟩
  · split at hr
    · cases hr
    · cases hr
    · rename_i old new _ _
      simp only [] at hr
      cases hrem : removeLoop sb ((addLoop wire sb (sb.get, []) (NodeMapDelta old new).1).1, [])
          (NodeMapDelta old new).2 with
      | none => simp [hrem] at hr
      | some shrunk =>
        simp only [hrem, Option.some.injEq] at hr
        rw [← hr]
        refine ⟨rfl, ?_⟩
        have hadd := addLoop_allRobins wire sb (NodeMapDelta old new).1 (sb.get, []) h
        exact removeLoop_allRobins sb _ _ _ shrunk hadd hrem

theorem NewStreamBundle_allRobins (wire : String → Nat → Nat → Bool) (smap : Smap)
    (lsnode : Snode) (network trname : String) (extra : Option Extra) (ntype : Int)
    (multiplier : List Int) (sb : StreamBundle)
    (h : NewStreamBundle wire smap lsnode network trname extra ntype multiplier = some sb) :
    1 ≤ sb.multiplier ∧ allRobins sb.multiplier.toNat sb.get := by
  have h0 : ∀ m : Int, allRobins (unsynced lsnode network trname extra ntype m).multiplier.toNat
      (unsynced lsnode network trname extra ntype m).get := by
    intro m q hq
    simp [unsynced, StreamBundle.get] at hq
  unfold NewStreamBundle at h
  split_ifs at h with hrole
  cases multiplier with
  | nil =>
    simp only [Option.map_eq_some'] at h
    obtain ⟨r, hr, hsb⟩ := h
    have := resync_allRobins wire (unsynced lsnode network trname extra ntype 1) smap r (h0 1) hr
    rw [← hsb]
    refine ⟨?_, this.2⟩
    rw [this.1]
    exact le_refl (1 : Int)
  | cons m rest =>
    simp only [] at h
    split_ifs at h with hm
    simp only [Option.map_eq_some'] at h
    obtain ⟨r, hr, hsb⟩ := h
    have := resync_allRobins wire (unsynced lsnode network trname extra ntype m) smap r (h0 m) hr
    rw [← hsb]
    refine ⟨?_, this.2⟩
    rw [this.1]
    show 1 ≤ m
    omega

theorem sendOne_length (sb : StreamBundle) (rb : robin) (hdr : Header)
    (reader : Option ReadOpenCloser) (cb : Option SendCallback) (prc : Option Nat)
    (reopen : Bool) :
    (sendOne sb rb hdr reader cb prc reopen).robin.stsdest.length = rb.stsdest.length := by
  unfold sendOne
  cases hop : openFor reader reopen with
  | none => rfl
  | some pr =>
    obtain ⟨reader2, rd⟩ := pr
    simp only []
    split_ifs
    all_goals first
      | rfl
      | (split
         · rfl
         · simp)

theorem broadcastLoop_allRobins (sb : StreamBundle) (hdr : Header) (cb : Option SendCallback)
    (prc : Option Nat) (m : Nat) (bun : bundle) (reopen : Bool) (rd : Option ReadOpenCloser)
    (h : allRobins m bun) :
    allRobins m (broadcastLoop sb hdr cb prc reopen rd bun).streams := by
  induction bun generalizing reopen rd with
  | nil => simpa [broadcastLoop] using h
  | cons p rest ih =>
    obtain ⟨id, rb⟩ := p
    have hrb : (sendOne sb rb hdr rd cb prc reopen).robin.stsdest.length = m := by
      rw [sendOne_length]
      exact h (id, rb) (by simp)
    have hrest : allRobins m rest := fun q hq => h q (by simp [hq])
    by_cases hout : (sendOne sb rb hdr rd cb prc reopen).out = Outcome.ok
    · rw [broadcastLoop_cons_ok sb hdr cb prc reopen rd id rb rest hout]
      intro q hq
      simp only [List.mem_cons] at hq
      rcases hq with hq | hq
      · rw [hq]
        exact hrb
      · exact ih _ _ hrest q hq
    · rw [broadcastLoop_cons_stop sb hdr cb prc reopen rd id rb rest hout]
      intro q hq
      simp only [List.mem_cons] at hq
      rcases hq with hq | hq
      · rw [hq]
        exact hrb
      · exact hrest q hq

theorem targetedLoop_allRobins (sb : StreamBundle) (hdr : Header) (cb : Option SendCallback)
    (prc : Option Nat) (m : Nat) (ns : List Snode) (reopen : Bool) (rd : Option ReadOpenCloser)
    (bun : bundle) (h : allRobins m bun) :
    allRobins m (targetedLoop sb hdr cb prc reopen rd bun ns).streams := by
  induction ns generalizing reopen rd bun with
  | nil => simpa [targetedLoop] using h
  | cons di rest ih =>
    cases hrb : mapGet bun di.DaemonID with
    | none =>
      rw [targetedLoop_cons_missing sb hdr cb prc reopen rd bun di rest hrb]
      exact h
    | some rb =>
      have hset : allRobins m
          (mapSet bun di.DaemonID (sendOne sb rb hdr rd cb prc reopen).robin) := by
        intro q hq
        rcases mem_mapSet _ _ _ q hq with hq2 | hq2
        · rw [hq2]
          show (sendOne sb rb hdr rd cb prc reopen).robin.stsdest.length = m
          rw [sendOne_length]
          exact h _ (mapGet_mem bun di.DaemonID rb hrb)
        · exact h q hq2
      by_cases hout : (sendOne sb rb hdr rd cb prc reopen).out = Outcome.ok
      · rw [targetedLoop_cons_ok sb hdr cb prc reopen rd bun di rest rb hrb hout]
        exact ih _ _ _ hset
      · rw [targetedLoop_cons_stop sb hdr cb prc reopen rd bun di rest rb hrb hout]
        exact hset

theorem Send_sb_cases (sb : StreamBundle) (heap : List Int) (hdr : Header)
    (reader : Option ReadOpenCloser) (cb : Option SendCallback) (nodes : Option (List Snode)) :
    (Send sb heap hdr reader cb nodes).sb = sb ∨
    (∃ prc, (Send sb heap hdr reader cb nodes).sb =
      { sb with
        streams := some (broadcastLoop sb hdr (effectiveCb sb cb) prc false reader sb.get).streams })
      ∨
    (∃ prc ns, (Send sb heap hdr reader cb nodes).sb =
      { sb with
        streams :=
          some (targetedLoop sb hdr (effectiveCb sb cb) prc false reader sb.get ns).streams }) := by
  by_cases h0 : sb.get = []
  · left
    rw [Send_of_get_nil sb heap hdr reader cb nodes h0]
  · have hlen : ¬ sb.get.length = 0 := fun h => h0 (List.length_eq_zero.mp h)
    cases nodes with
    | none =>
      right
      left
      obtain ⟨t, ht, hS⟩ := Send_eq_fanout sb heap hdr reader cb none
        ⟨h0, fun ns hns => by cases hns⟩
      simp only [] at ht
      exact ⟨_, by rw [hS, ht]⟩
    | some ns =>
      by_cases hall : ∀ di ∈ ns, (mapGet sb.get di.DaemonID).isSome = true
      · right
        right
        obtain ⟨t, ht, hS⟩ := Send_eq_fanout sb heap hdr reader cb (some ns)
          ⟨h0, fun ns2 hns => by cases hns; exact hall⟩
        simp only [] at ht
        exact ⟨_, ns, by rw [hS, ht]⟩
      · left
        have hmiss : ∃ di ∈ ns, mapGet sb.get di.DaemonID = none := by
          by_contra hc
          apply hall
          intro di hdi
          cases hg : mapGet sb.get di.DaemonID with
          | none => exact absurd ⟨di, hdi, hg⟩ hc
          | some v => rfl
        obtain ⟨d, hd, _, _⟩ := find_missing hmiss
        simp [Send, hlen, hd]

theorem Send_allRobins (sb : StreamBundle) (heap : List Int) (hdr : Header)
    (reader : Option ReadOpenCloser) (cb : Option SendCallback) (nodes : Option (List Snode))
    (h : allRobins sb.multiplier.toNat sb.get) :
    (Send sb heap hdr reader cb nodes).sb.multiplier = sb.multiplier ∧
    allRobins sb.multiplier.toNat (Send sb heap hdr reader cb nodes).sb.get := by
  rcases Send_sb_cases sb heap hdr reader cb nodes with hS | ⟨prc, hS⟩ | ⟨prc, ns, hS⟩
  · rw [hS]
    exact ⟨rfl, h⟩
  · rw [hS]
    exact ⟨rfl, broadcastLoop_allRobins sb hdr _ _ _ _ _ _ h⟩
  · rw [hS]
    exact ⟨rfl, targetedLoop_allRobins sb hdr _ _ _ _ _ _ _ h⟩

theorem Close_allRobins (sb sb2 : StreamBundle) (gracefully : Bool)
    (h : allRobins sb.multiplier.toNat sb.get) (hc : Close sb gracefully = some sb2) :
    sb2.multiplier = sb.multiplier ∧ allRobins sb.multiplier.toNat sb2.get := by
  rw [Close_eq] at hc
  simp only [Option.some.injEq] at hc
  rw [← hc]
  refine ⟨rfl, ?_⟩
  cases hs : sb.streams with
  | none =>
    intro q hq
    simp [StreamBundle.get] at hq
  | some bun =>
    intro q hq
    simp only [StreamBundle.get, Option.map_some', closedBundle, List.mem_map] at hq
    obtain ⟨p, hp, hpq⟩ := hq
    rw [← hpq]
    simp only [List.length_map]
    apply h p
    simpa [StreamBundle.get, hs] using hp

/-- The invariant of the reachable states: the multiplier is at least 1 and every robin of the
published bundle has exactly that many streams. -/
theorem Reachable_allRobins (sb : StreamBundle) (h : Reachable sb) :
    1 ≤ sb.multiplier ∧ allRobins sb.multiplier.toNat sb.get := by
  induction h with
  | construct wire smap lsnode network trname extra ntype multiplier sb h =>
    exact NewStreamBundle_allRobins wire smap lsnode network trname extra ntype multiplier sb h
  | resync wire sb smap r _ h ih =>
    have := resync_allRobins wire sb smap r ih.2 h
    exact ⟨by rw [this.1]; exact ih.1, this.2⟩
  | send sb heap hdr reader cb nodes _ _ ih =>
    have := Send_allRobins sb heap hdr reader cb nodes ih.2
    exact ⟨by rw [this.1]; exact ih.1, by rw [this.1]; exact this.2⟩
  | close sb sb2 gracefully _ h ih =>
    have := Close_allRobins sb sb2 gracefully ih.2 h
    exact ⟨by rw [this.1]; exact ih.1, by rw [this.1]; exact this.2⟩

theorem statsOf_some (bun : bundle) (h : ∀ p ∈ bun, 1 ≤ p.2.stsdest.length) :
    ∃ stats, statsOf bun = some stats := by
  induction bun with
  | nil => exact ⟨[], rfl⟩
  | cons p rest ih =>
    obtain ⟨id, rb⟩ := p
    obtain ⟨stats, hst⟩ := ih (fun q hq => h q (by simp [hq]))
    have h1 : 0 < rb.stsdest.length := h (id, rb) (by simp)
    refine ⟨(id, (rb.stsdest[0]).GetStats) :: stats, ?_⟩
    simp [statsOf, List.getElem?_eq_getElem h1, hst]

theorem sbFresh_constructed :
    NewStreamBundle wireA smapOneTarget (nodeOf "local") "data" "tr" none Targets [3]
      = some sbFresh := rfl

theorem sbFresh_shape :
    sbFresh.multiplier = 3 ∧
    ∃ rb, sbFresh.get = [("t1", rb)] ∧ rb.stsdest.length = 3 ∧ rb.i = 0 := by
  refine ⟨rfl, _, rfl, rfl, rfl⟩

/-- One header-only broadcast on a bundle of one destination with three streams whose counter
has not reached the largest `int64`: it returns, and the counter is one higher. -/
theorem Send_counts_up (sb : StreamBundle) (id : String) (rb : robin)
    (hm : sb.multiplier = 3) (hget : sb.get = [(id, rb)]) (hlen : rb.stsdest.length = 3)
    (h0 : 0 ≤ rb.i) (h1 : rb.i < 9223372036854775807) :
    (Send sb [] hdrA none none none).out ≠ Outcome.panic ∧
    (Send sb [] hdrA none none none).sb.multiplier = 3 ∧
    ∃ rb2, (Send sb [] hdrA none none none).sb.get = [(id, rb2)] ∧
      rb2.stsdest.length = 3 ∧ rb2.i = rb.i + 1 := by
  have hreach : reachesFanout sb none :=
    ⟨by rw [hget]; simp, fun ns hns => by cases hns⟩
  obtain ⟨t, ht, hS⟩ := Send_eq_fanout sb [] hdrA none none none hreach
  simp only [] at ht
  rw [hget] at ht
  have hok : robinOK sb (0 + 1) rb := by
    refine ⟨by rw [hlen, hm]; rfl, h0, ?_⟩
    push_cast
    omega
  obtain ⟨s, _, hres⟩ := sendOne_of_open sb rb hdrA none (effectiveCb sb none)
    (if (effectiveCb sb none).isSome = true ∧ 1 < fanoutWidth sb none then some ([] : List Int).length
      else none) false 0 ReadCloser.nil none (by rw [hm]; decide) hok rfl
  have hnext : nextCounter sb rb = rb.i + 1 := by simp [nextCounter, hm]
  by_cases hout : (sendOne sb rb hdrA none (effectiveCb sb none)
      (if (effectiveCb sb none).isSome = true ∧ 1 < fanoutWidth sb none
        then some ([] : List Int).length else none) false).out = Outcome.ok
  · rw [broadcastLoop_cons_ok sb hdrA _ _ false none id rb [] hout] at ht
    rw [hS, ht]
    refine ⟨by simp [broadcastLoop], hm, _, rfl, ?_, ?_⟩
    · rw [sendOne_length, hlen]
    · rw [hres]
      exact hnext
  · rw [broadcastLoop_cons_stop sb hdrA _ _ false none id rb [] hout] at ht
    rw [hS, ht]
    refine ⟨?_, hm, _, rfl, ?_, ?_⟩
    · show (sendOne sb rb hdrA none _ _ false).out ≠ Outcome.panic
      rw [hres]
      simp only []
      split_ifs <;> simp
    · rw [sendOne_length, hlen]
    · rw [hres]
      exact hnext

theorem sendSeq_counts_up (n : Nat) (sb : StreamBundle) (id : String) (rb : robin)
    (hr : Reachable sb) (hm : sb.multiplier = 3) (hget : sb.get = [(id, rb)])
    (hlen : rb.stsdest.length = 3) (h0 : 0 ≤ rb.i)
    (h1 : rb.i + (n : Int) ≤ 9223372036854775807) :
    Reachable (sendSeq n sb) ∧ (sendSeq n sb).multiplier = 3 ∧
    ∃ rb2, (sendSeq n sb).get = [(id, rb2)] ∧ rb2.stsdest.length = 3 ∧
      rb2.i = rb.i + (n : Int) := by
  induction n generalizing sb rb with
  | zero => exact ⟨hr, hm, rb, hget, hlen, by simp⟩
  | succ k ih =>
    push_cast at h1
    obtain ⟨g1, g2, rb1, g3, g4, g5⟩ := Send_counts_up sb id rb hm hget hlen h0 (by omega)
    have hr1 : Reachable (Send sb [] hdrA none none none).sb :=
      Reachable.send sb [] hdrA none none none hr g1
    obtain ⟨f1, f2, rb2, f3, f4, f5⟩ := ih (Send sb [] hdrA none none none).sb rb1 hr1 g2 g3 g4
      (by omega) (by omega)
    refine ⟨f1, f2, rb2, f3, f4, ?_⟩
    rw [f5, g5]
    push_cast
    omega

theorem sendOne_full_counter_panics (sb : StreamBundle) (rb : robin)
    (hm : sb.multiplier = 3) (hlen : rb.stsdest.length = 3)
    (hi : rb.i = 9223372036854775807) :
    (sendOne sb rb hdrA none none none false).out = Outcome.panic ∧
    (sendOne sb rb hdrA none none none false).handed = none := by
  have hw : Int.tmod (wrap64 (9223372036854775807 + 1)) ((3 : Nat) : Int) < 0 := by decide
  have hgt : sb.multiplier > 1 := by rw [hm]; decide
  have hne : ¬ (sb.multiplier > 1 ∧ rb.stsdest.length = 0) := by
    rw [hlen]
    simp
  unfold sendOne
  simp only [openFor, hgt, if_true, hne, if_false, hi, hlen, hw]
  exact ⟨rfl, rfl⟩

/-- C11: the indexing `stsdest[i]` of `sendOne` is out of range in a reachable state. The state
reached from construction (one destination, multiplier 3) by `2^63 - 1` header-only broadcasts
is reachable and its robin has three streams, as many as the multiplier, yet the next `sendOne`
on it aborts on `stsdest[i]` and hands nothing over: the counter wraps and `%` gives a negative
index. This is the defect of C19, met in a reachable state. -/
theorem Reachable_sendOne_out_of_range :
    Reachable (sendSeq 9223372036854775807 sbFresh) ∧
    ∃ rb, (sendSeq 9223372036854775807 sbFresh).get = [("t1", rb)] ∧
      rb.stsdest.length = (sendSeq 9223372036854775807 sbFresh).multiplier.toNat ∧
      (sendOne (sendSeq 9223372036854775807 sbFresh) rb hdrA none none none false).out
        = Outcome.panic ∧
      (sendOne (sendSeq 9223372036854775807 sbFresh) rb hdrA none none none false).handed
        = none := by
  obtain ⟨hm, rb0, hget, hlen, hi⟩ := sbFresh_shape
  have hr0 : Reachable sbFresh :=
    Reachable.construct wireA smapOneTarget (nodeOf "local") "data" "tr" none Targets [3] sbFresh
      sbFresh_constructed
  obtain ⟨h1, h2, rb, h3, h4, h5⟩ := sendSeq_counts_up 9223372036854775807 sbFresh "t1" rb0 hr0
    hm hget hlen (by omega) (by rw [hi]; norm_num)
  have hfull : rb.i = 9223372036854775807 := by
    rw [h5, hi]
    norm_num
  have hp := sendOne_full_counter_panics (sendSeq 9223372036854775807 sbFresh) rb h2 h4 hfull
  refine ⟨h1, rb, h3, ?_, hp.1, hp.2⟩
  rw [h4, h2]
  rfl

/-- What the code keeps of the length invariant: in every state reachable from construction
through `resync`, `Send`, `Close` and `GetStats` calls, the multiplier is at least 1 and every
robin stored in the published bundle has exactly that many streams; so `stsdest[0]` is in range
for every robin and `GetStats` returns, `stsdest[k]` is in range for every `k` below the
multiplier and the stopping loop of the removal returns, and the index `sendOne` computes is in
range whenever the counter of the robin lies in `[0, 2^63 - 1)`. -/
theorem Reachable_stream_arrays (sb : StreamBundle) (h : Reachable sb) :
    1 ≤ sb.multiplier ∧
    (∀ p ∈ sb.get, p.2.stsdest.length = sb.multiplier.toNat) ∧
    (∀ p ∈ sb.get, ∃ s, p.2.stsdest[0]? = some s) ∧
    (∃ stats, GetStats sb = some stats) ∧
    (∀ p ∈ sb.get, (∀ k, k < sb.multiplier.toNat → ∃ s, p.2.stsdest[k]? = some s) ∧
      ∃ stopped, stopStreams sb.multiplier.toNat p.2 = some stopped) ∧
    (∀ p ∈ sb.get, 0 ≤ p.2.i → p.2.i < 9223372036854775807 →
      ∀ (hdr : Header) (reader : Option ReadOpenCloser) (cb : Option SendCallback)
        (prc : Option Nat) (reopen : Bool) (reader2 : ReadCloser) (rd : Option ReadOpenCloser),
        openFor reader reopen = some (reader2, rd) →
        ∃ k s, (sendOne sb p.2 hdr reader cb prc reopen).handed
            = some (k, ⟨hdr, reader2, cb, prc⟩) ∧ p.2.stsdest[k]? = some s) := by
  obtain ⟨hm, hall⟩ := Reachable_allRobins sb h
  have hpos : ∀ p ∈ sb.get, 1 ≤ p.2.stsdest.length := by
    intro p hp
    rw [hall p hp]
    omega
  refine ⟨hm, hall, ?_, statsOf_some sb.get hpos, ?_, ?_⟩
  · intro p hp
    have h0 : 0 < p.2.stsdest.length := hpos p hp
    exact ⟨p.2.stsdest[0], List.getElem?_eq_getElem h0⟩
  · intro p hp
    refine ⟨fun k hk => ?_, ?_⟩
    · have hk2 : k < p.2.stsdest.length := by rw [hall p hp]; exact hk
      exact ⟨p.2.stsdest[k], List.getElem?_eq_getElem hk2⟩
    · obtain ⟨stopped, hst, _⟩ := stopStreams_spec sb.multiplier.toNat p.2
        (by rw [hall p hp])
      exact ⟨stopped, hst⟩
  · intro p hp h0 h1 hdr reader cb prc reopen reader2 rd hopen
    have hok : robinOK sb (0 + 1) p.2 := by
      refine ⟨hall p hp, h0, ?_⟩
      push_cast
      omega
    obtain ⟨s, hs, hres⟩ := sendOne_of_open sb p.2 hdr reader cb prc reopen 0 reader2 rd hm hok
      hopen
    exact ⟨pickIndex sb p.2, s, by rw [hres], hs⟩

/-- The length invariant at the state right after construction. -/
theorem Reachable_stream_arrays_witness :
    Reachable sbFresh ∧ 1 ≤ sbFresh.multiplier ∧
    (∀ p ∈ sbFresh.get, p.2.stsdest.length = sbFresh.multiplier.toNat) ∧
    (∃ stats, GetStats sbFresh = some stats) :=
  have hr : Reachable sbFresh :=
    Reachable.construct wireA smapOneTarget (nodeOf "local") "data" "tr" none Targets [3] sbFresh
      sbFresh_constructed
  have h := Reachable_stream_arrays sbFresh hr
  ⟨hr, h.1, h.2.1, h.2.2.2.1⟩

/-! ## What a resync does to the robins (C17, C20) -/

theorem addLoop_get (wire : String → Nat → Nat → Bool) (sb : StreamBundle)
    (l : List (String × Snode)) (acc : bundle × List (String × Nat × String)) (k : String) :
    ((k ∉ mapKeys l ∨ k = sb.lsnode.DaemonID) →
      mapGet (addLoop wire sb acc l).1 k = mapGet acc.1 k) ∧
    (k ∈ mapKeys l → k ≠ sb.lsnode.DaemonID →
      ∃ url, mapGet (addLoop wire sb acc l).1 k = some (newRobin wire sb url)) := by
  induction l generalizing acc with
  | nil => simp [addLoop, mapKeys]
  | cons p rest ih =>
    obtain ⟨id, si⟩ := p
    by_cases hid : id = sb.lsnode.DaemonID
    · simp only [addLoop, hid, if_true]
      refine ⟨fun hk => (ih acc).1 ?_, fun hk hne => (ih acc).2 ?_ hne⟩
      · rcases hk with hk | hk
        · left
          intro hmem
          exact hk (by simp [mapKeys] at hmem ⊢; exact Or.inr hmem)
        · exact Or.inr hk
      · simp only [mapKeys, List.map_cons, List.mem_cons] at hk
        rcases hk with hk | hk
        · exact absurd hk hne
        · exact hk
    · simp only [addLoop, hid, if_false]
      constructor
      · intro hk
        have hkid : ¬ id = k := by
          rcases hk with hk | hk
          · intro e
            exact hk (by simp [mapKeys, e])
          · intro e
            exact hid (e.trans hk)
        rw [(ih _).1 ?_, mapGet_mapSet, if_neg hkid]
        rcases hk with hk | hk
        · left
          intro hmem
          exact hk (by simp [mapKeys] at hmem ⊢; exact Or.inr hmem)
        · exact Or.inr hk
      · intro hk hne
        by_cases hrest : k ∈ mapKeys rest
        · exact (ih _).2 hrest hne
        · have hkid : id = k := by
            simp only [mapKeys, List.map_cons, List.mem_cons] at hk
            rcases hk with hk | hk
            · exact hk.symm
            · exact absurd hk hrest
          refine ⟨si.URL sb.network ++ transportPath sb.trname, ?_⟩
          rw [(ih _).1 (Or.inl hrest), mapGet_mapSet, if_pos hkid]

theorem addLoop_created (wire : String → Nat → Nat → Bool) (sb : StreamBundle)
    (l : List (String × Snode)) (acc : bundle × List (String × Nat × String)) :
    ∀ e ∈ (addLoop wire sb acc l).2,
      e ∈ acc.2 ∨ (e.1 ∈ mapKeys l ∧ e.1 ≠ sb.lsnode.DaemonID) := by
  induction l generalizing acc with
  | nil =>
    intro e he
    exact Or.inl he
  | cons p rest ih =>
    obtain ⟨id, si⟩ := p
    intro e he
    by_cases hid : id = sb.lsnode.DaemonID
    · simp only [addLoop, hid, if_true] at he
      rcases ih acc e he with h | h
      · exact Or.inl h
      · exact Or.inr ⟨by simp [mapKeys] at h ⊢; exact Or.inr h.1, h.2⟩
    · simp only [addLoop, hid, if_false] at he
      rcases ih _ e he with h | h
      · simp only [List.mem_append, List.mem_map, List.mem_range] at h
        rcases h with h | ⟨j, _, hj⟩
        · exact Or.inl h
        · right
          rw [← hj]
          exact ⟨by simp [mapKeys], hid⟩
      · exact Or.inr ⟨by simp [mapKeys] at h ⊢; exact Or.inr h.1, h.2⟩

/-- The stopping loop of the removal, stream by stream: the first `m` streams are stopped
unless terminated, the counter is untouched. -/
theorem stopStreams_effect (m : Nat) (rb : robin) (h : m ≤ rb.stsdest.length) :
    ∃ rb2, stopStreams m rb = some rb2 ∧ rb2.i = rb.i ∧
      rb2.stsdest.length = rb.stsdest.length ∧
      ∀ k, rb2.stsdest[k]?
        = if k < m then (rb.stsdest[k]?).map (closedStream false) else rb.stsdest[k]? := by
  induction m with
  | zero => exact ⟨rb, by simp [stopStreams], rfl, rfl, by simp⟩
  | succ n ih =>
    obtain ⟨r1, hr1, hi1, hl1, hk1⟩ := ih (Nat.le_of_succ_le h)
    have hn : n < r1.stsdest.length := by omega
    have hn0 : n < rb.stsdest.length := by omega
    have hsame : r1.stsdest[n] = rb.stsdest[n] := by
      have := hk1 n
      rw [if_neg (Nat.lt_irrefl n), List.getElem?_eq_getElem hn,
        List.getElem?_eq_getElem hn0] at this
      exact Option.some.inj this
    unfold stopStreams at hr1 ⊢
    rw [List.range_succ, List.foldlM_append, hr1]
    simp only [Option.bind_eq_bind, Option.some_bind, List.foldlM_cons, List.foldlM_nil]
    rw [List.getElem?_eq_getElem hn]
    have hcl : closedStream false (rb.stsdest[n])
        = if (r1.stsdest[n]).Terminated = true then r1.stsdest[n] else (r1.stsdest[n]).Stop := by
      rw [hsame]
      simp [closedStream, Stream.Terminated]
    by_cases ht : (r1.stsdest[n]).Terminated = true
    · refine ⟨r1, by simp [ht], hi1, hl1, fun k => ?_⟩
      rw [hk1 k]
      by_cases hkn : k = n
      · rw [hkn, if_neg (Nat.lt_irrefl n), if_pos (Nat.lt_succ_self n),
          List.getElem?_eq_getElem hn0, Option.map_some', hcl, if_pos ht, hsame]
      · by_cases hlt : k < n
        · rw [if_pos hlt, if_pos (by omega)]
        · rw [if_neg hlt, if_neg (by omega)]
    · refine ⟨{ r1 with stsdest := r1.stsdest.set n (r1.stsdest[n]).Stop }, by simp [ht], hi1,
        by simp [hl1], fun k => ?_⟩
      simp only [List.getElem?_set, hn, if_true]
      by_cases hkn : n = k
      · rw [if_pos hkn, ← hkn, if_pos (Nat.lt_succ_self n), List.getElem?_eq_getElem hn0,
          Option.map_some', hcl, if_neg ht]
      · rw [if_neg hkn, hk1 k]
        by_cases hlt : k < n
        · rw [if_pos hlt, if_pos (by omega)]
        · rw [if_neg hlt, if_neg (by omega)]

theorem stopStreams_all (rb stopped : robin)
    (h : stopStreams rb.stsdest.length rb = some stopped) :
    stopped.i = rb.i ∧ stopped.stsdest = rb.stsdest.map (closedStream false) := by
  obtain ⟨rb2, h1, h2, h3, h4⟩ := stopStreams_effect rb.stsdest.length rb (le_refl _)
  rw [h1] at h
  simp only [Option.some.injEq] at h
  rw [← h]
  refine ⟨h2, ?_⟩
  apply List.ext_getElem?
  intro k
  rw [h4 k, List.getElem?_map]
  by_cases hk : k < rb.stsdest.length
  · rw [if_pos hk]
  · rw [if_neg hk, List.getElem?_eq_none (by omega)]
    rfl

theorem removeLoop_log (sb : StreamBundle) (l : List (String × Snode))
    (acc res : bundle × List (String × robin)) (hnd : (mapKeys l).Nodup)
    (hres : removeLoop sb acc l = some res) :
    (∀ e ∈ res.2, e ∈ acc.2 ∨
      (e.1 ∈ mapKeys l ∧ e.1 ≠ sb.lsnode.DaemonID ∧
        ∃ orobin, mapGet acc.1 e.1 = some orobin ∧
          stopStreams sb.multiplier.toNat orobin = some e.2)) ∧
    (∀ k ∈ mapKeys l, k ≠ sb.lsnode.DaemonID →
      ∃ orobin stopped, mapGet acc.1 k = some orobin ∧
        stopStreams sb.multiplier.toNat orobin = some stopped ∧ (k, stopped) ∈ res.2) ∧
    (∀ e ∈ acc.2, e ∈ res.2) := by
  induction l generalizing acc with
  | nil =>
    simp only [removeLoop, Option.some.injEq] at hres
    rw [← hres]
    exact ⟨fun e he => Or.inl he, fun k hk => by simp [mapKeys] at hk, fun e he => he⟩
  | cons p rest ih =>
    obtain ⟨id, si⟩ := p
    have hnd2 : (mapKeys rest).Nodup := by
      simp only [mapKeys, List.map_cons, List.nodup_cons] at hnd
      exact hnd.2
    have hnotin : id ∉ mapKeys rest := by
      simp only [mapKeys, List.map_cons, List.nodup_cons] at hnd
      exact hnd.1
    have hmem : ∀ k, k ∈ mapKeys ((id, si) :: rest) ↔ k = id ∨ k ∈ mapKeys rest := by
      intro k
      simp [mapKeys]
    by_cases hid : id = sb.lsnode.DaemonID
    · simp only [removeLoop, hid, if_true] at hres
      obtain ⟨a, b, c⟩ := ih acc hnd2 hres
      refine ⟨fun e he => ?_, fun k hk hne => ?_, c⟩
      · rcases a e he with h | ⟨h1, h2, h3⟩
        · exact Or.inl h
        · exact Or.inr ⟨(hmem _).mpr (Or.inr h1), h2, h3⟩
      · rcases (hmem k).mp hk with h | h
        · exact absurd (h.trans hid) hne
        · exact b k h hne
    · simp only [removeLoop, hid, if_false] at hres
      cases hg : mapGet acc.1 id with
      | none => simp [hg] at hres
      | some orobin =>
        simp only [hg] at hres
        cases hst : stopStreams sb.multiplier.toNat orobin with
        | none => simp [hst] at hres
        | some stopped =>
          simp only [hst] at hres
          obtain ⟨a, b, c⟩ := ih (mapDel acc.1 id, acc.2 ++ [(id, stopped)]) hnd2 hres
          have hdel : ∀ k, k ∈ mapKeys rest → mapGet (mapDel acc.1 id) k = mapGet acc.1 k := by
            intro k hk
            rw [mapGet_mapDel, if_neg]
            intro e
            exact hnotin (e ▸ hk)
          refine ⟨fun e he => ?_, fun k hk hne => ?_, fun e he => c e ?_⟩
          · rcases a e he with h | ⟨h1, h2, orb, h3, h4⟩
            · simp only [List.mem_append, List.mem_singleton] at h
              rcases h with h | h
              · exact Or.inl h
              · right
                rw [h]
                exact ⟨(hmem _).mpr (Or.inl rfl), hid, orobin, hg, hst⟩
            · right
              refine ⟨(hmem _).mpr (Or.inr h1), h2, orb, ?_, h4⟩
              rw [← hdel e.1 h1]
              exact h3
          · rcases (hmem k).mp hk with h | h
            · rw [h]
              exact ⟨orobin, stopped, hg, hst, c _ (by simp)⟩
            · obtain ⟨orb, stp, h3, h4, h5⟩ := b k h hne
              refine ⟨orb, stp, ?_, h4, h5⟩
              rw [← hdel k h]
              exact h3
          · simp [he]

/-- The stream left by `Stop` unless terminated: one more `Stop` on an active stream, none on a
terminated one, and no `Fin` either way. -/
theorem closedStream_false_counts (s : Stream) :
    (closedStream false s).stops = (if s.terminated then s.stops else s.stops + 1) ∧
    (closedStream false s).fins = s.fins ∧ (closedStream false s).handed = s.handed := by
  by_cases ht : s.terminated = true <;> simp [closedStream, ht, Stream.Stop]

/-- What a `resync` on a newer snapshot does, robin by robin, to a bundle that is in step with
its remembered snapshot. -/
theorem resync_effect (wire : String → Nat → Nat → Bool) (sb : StreamBundle) (smap : Smap)
    (hs : Synced sb) (hv : smap.Version > sb.smap.Version) :
    ∃ r, resync wire sb smap = some r ∧
      (∀ id rb, mapGet sb.get id = some rb → id ∈ selected sb.rxNodeType smap →
        mapGet r.sb.get id = some rb) ∧
      (∀ e ∈ r.created, e.1 ∈ selected sb.rxNodeType smap ∧
        e.1 ∉ selected sb.rxNodeType sb.smap ∧ e.1 ≠ sb.lsnode.DaemonID) ∧
      (∀ id, id ∈ selected sb.rxNodeType sb.smap → id ∉ selected sb.rxNodeType smap →
        id ≠ sb.lsnode.DaemonID →
        mapGet r.sb.get id = none ∧
        ∃ orobin stopped, mapGet sb.get id = some orobin ∧ (id, stopped) ∈ r.removed ∧
          stopped.i = orobin.i ∧
          stopped.stsdest = orobin.stsdest.map (closedStream false)) ∧
      (∀ e ∈ r.removed, e.1 ∈ selected sb.rxNodeType sb.smap ∧
        e.1 ∉ selected sb.rxNodeType smap ∧ e.1 ≠ sb.lsnode.DaemonID ∧
        ∃ orobin, mapGet sb.get e.1 = some orobin ∧
          e.2.stsdest = orobin.stsdest.map (closedStream false)) ∧
      (∀ id rb, mapGet r.sb.get id = some rb →
        mapGet sb.get id = some rb ∨
        (id ∈ selected sb.rxNodeType smap ∧ id ∉ selected sb.rxNodeType sb.smap ∧
          ∃ url, rb = newRobin wire sb url)) := by
  obtain ⟨old, hold, holdk⟩ := roleMaps_of_valid sb.rxNodeType sb.smap hs.role
  obtain ⟨new, hnew, hnewk⟩ := roleMaps_of_valid sb.rxNodeType smap hs.role
  have hne : ¬ smap.Version = sb.smap.Version := by omega
  have hadd := addLoop_spec wire sb (NodeMapDelta old new).1 (sb.get, []) hs.lens
  have hdk := fun k => NodeMapDelta_keys old new k
  have hin : ∀ k ∈ mapKeys (NodeMapDelta old new).2, k ≠ sb.lsnode.DaemonID →
      (mapGet (addLoop wire sb (sb.get, []) (NodeMapDelta old new).1).1 k).isSome = true := by
    intro k hk hne2
    rw [hadd.2 k]
    left
    rw [← mem_mapKeys_iff, hs.keys k, ← holdk]
    exact ⟨((hdk k).2.mp hk).1, hne2⟩
  have hnd : (mapKeys (NodeMapDelta old new).2).Nodup := nodup_mapKeys_mapOfList _
  obtain ⟨res, hres, hget⟩ := removeLoop_spec sb (NodeMapDelta old new).2
    ((addLoop wire sb (sb.get, []) (NodeMapDelta old new).1).1, []) hnd hin hadd.1
  obtain ⟨la, lb, _⟩ := removeLoop_log sb (NodeMapDelta old new).2 _ res hnd hres
  have hgrow := fun k => addLoop_get wire sb (NodeMapDelta old new).1 (sb.get, []) k
  have hcre := addLoop_created wire sb (NodeMapDelta old new).1 (sb.get, [])
  rw [holdk, hnewk] at hdk
  -- keys of the old bundle are selected in the old snapshot
  have hkeyOld : ∀ id rb, mapGet sb.get id = some rb →
      id ∈ selected sb.rxNodeType sb.smap ∧ id ≠ sb.lsnode.DaemonID := by
    intro id rb hrb
    apply (hs.keys id).mp
    rw [mem_mapKeys_iff, hrb]
    rfl
  -- a stopped robin, stream by stream
  have hstop : ∀ orobin stopped, (∃ id, mapGet sb.get id = some orobin) →
      stopStreams sb.multiplier.toNat orobin = some stopped →
      stopped.i = orobin.i ∧ stopped.stsdest = orobin.stsdest.map (closedStream false) := by
    intro orobin stopped ⟨id, hid⟩ hst
    have hl := hs.lens id orobin hid
    rw [← hl] at hst
    exact stopStreams_all orobin stopped hst
  refine ⟨{ sb := { sb with streams := some res.1, smap := smap },
            created := (addLoop wire sb (sb.get, []) (NodeMapDelta old new).1).2,
            removed := res.2 }, ?_, ?_, ?_, ?_, ?_, ?_⟩
  · simp only [resync, hne, if_false, hv, not_true_eq_false, hold, hnew, hres]
  · intro id rb hrb hnewsel
    show mapGet res.1 id = some rb
    rw [hget id, if_neg (fun hc => ((hdk id).2.mp hc.1).2 hnewsel)]
    rw [(hgrow id).1 (Or.inl (fun hc => ((hdk id).1.mp hc).2 (hkeyOld id rb hrb).1))]
    exact hrb
  · intro e he
    rcases hcre e he with h | h
    · simp at h
    · exact ⟨((hdk e.1).1.mp h.1).1, ((hdk e.1).1.mp h.1).2, h.2⟩
  · intro id ho hn hloc
    have hrem : id ∈ mapKeys (NodeMapDelta old new).2 := (hdk id).2.mpr ⟨ho, hn⟩
    refine ⟨?_, ?_⟩
    · show mapGet res.1 id = none
      rw [hget id, if_pos ⟨hrem, hloc⟩]
    · obtain ⟨orobin, stopped, h1, h2, h3⟩ := lb id hrem hloc
      have h1b : mapGet sb.get id = some orobin := by
        rw [← (hgrow id).1 (Or.inl (fun hc => hn ((hdk id).1.mp hc).1))]
        exact h1
      obtain ⟨h4, h5⟩ := hstop orobin stopped ⟨id, h1b⟩ h2
      exact ⟨orobin, stopped, h1b, h3, h4, h5⟩
  · intro e he
    rcases la e he with h | ⟨h1, h2, orobin, h3, h4⟩
    · simp at h
    · have hsel := (hdk e.1).2.mp h1
      have h3b : mapGet sb.get e.1 = some orobin := by
        rw [← (hgrow e.1).1 (Or.inl (fun hc => hsel.2 ((hdk e.1).1.mp hc).1))]
        exact h3
      exact ⟨hsel.1, hsel.2, h2, orobin, h3b, (hstop orobin e.2 ⟨e.1, h3b⟩ h4).2⟩
  · intro id rb hrb
    have hrb2 : mapGet res.1 id = some rb := hrb
    rw [hget id] at hrb2
    by_cases hrm : id ∈ mapKeys (NodeMapDelta old new).2 ∧ id ≠ sb.lsnode.DaemonID
    · rw [if_pos hrm] at hrb2
      cases hrb2
    · rw [if_neg hrm] at hrb2
      by_cases hnewk2 : id ∈ mapKeys (NodeMapDelta old new).1 ∧ id ≠ sb.lsnode.DaemonID
      · right
        obtain ⟨url, hurl⟩ := (hgrow id).2 hnewk2.1 hnewk2.2
        rw [hurl] at hrb2
        have hsel := (hdk id).1.mp hnewk2.1
        exact ⟨hsel.1, hsel.2, url, (Option.some.inj hrb2).symm⟩
      · left
        have : id ∉ mapKeys (NodeMapDelta old new).1 ∨ id = sb.lsnode.DaemonID := by
          by_cases h1 : id ∈ mapKeys (NodeMapDelta old new).1
          · right
            by_contra h2
            exact hnewk2 ⟨h1, h2⟩
          · exact Or.inl h1
        rw [← (hgrow id).1 this]
        exact hrb2

theorem sbFresh_Synced : Synced sbFresh := by
  obtain ⟨sb, h1, h2, _⟩ := NewStreamBundle_spec wireA smapOneTarget (nodeOf "local") "data" "tr"
    none Targets [3] (Or.inl rfl) (by show (1 : Int) < 3 ∧ (3 : Int) < 256; decide) (by decide)
  rw [sbFresh_constructed] at h1
  rw [Option.some.inj h1]
  exact h2

/-- C17: for a bundle in step with its remembered snapshot (every reachable state is) and a
`resync` that observes a newer snapshot: for every non-local node ID that is
role-selected in the old snapshot and not in the new one, the entry is absent from the newly
published bundle and its robin, which had `multiplier` streams, is removed with every stream
that was not terminated stopped exactly once and every terminated stream untouched; only such
IDs are removed; and every robin of the new bundle is either the robin the old bundle had under
that ID, unchanged, or a robin of new streams, none of which has received a `Stop`. -/
theorem resync_stops_removed (wire : String → Nat → Nat → Bool) (sb : StreamBundle) (smap : Smap)
    (hs : Synced sb) (hv : smap.Version > sb.smap.Version) :
    ∃ r, resync wire sb smap = some r ∧
      (∀ id, id ∈ selected sb.rxNodeType sb.smap → id ∉ selected sb.rxNodeType smap →
        id ≠ sb.lsnode.DaemonID →
        mapGet r.sb.get id = none ∧
        ∃ orobin stopped, mapGet sb.get id = some orobin ∧
          orobin.stsdest.length = sb.multiplier.toNat ∧ (id, stopped) ∈ r.removed ∧
          stopped.stsdest = orobin.stsdest.map (closedStream false)) ∧
      (∀ s : Stream,
        (closedStream false s).stops = (if s.terminated then s.stops else s.stops + 1)) ∧
      (∀ e ∈ r.removed, e.1 ∈ selected sb.rxNodeType sb.smap ∧
        e.1 ∉ selected sb.rxNodeType smap ∧ e.1 ≠ sb.lsnode.DaemonID) ∧
      (∀ id rb, mapGet r.sb.get id = some rb →
        mapGet sb.get id = some rb ∨ ∀ s ∈ rb.stsdest, s.stops = 0 ∧ s.terminated = false) := by
  obtain ⟨r, h0, _, _, h3, h4, h5⟩ := resync_effect wire sb smap hs hv
  refine ⟨r, h0, ?_, fun s => (closedStream_false_counts s).1, ?_, ?_⟩
  · intro id ho hn hl
    obtain ⟨g1, orobin, stopped, g2, g3, _, g5⟩ := h3 id ho hn hl
    exact ⟨g1, orobin, stopped, g2, hs.lens id orobin g2, g3, g5⟩
  · intro e he
    obtain ⟨g1, g2, g3, _⟩ := h4 e he
    exact ⟨g1, g2, g3⟩
  · intro id rb hrb
    rcases h5 id rb hrb with h | ⟨_, _, url, hurl⟩
    · exact Or.inl h
    · right
      intro s hs2
      rw [hurl] at hs2
      simp only [newRobin, List.mem_map, List.mem_range] at hs2
      obtain ⟨k, _, hk⟩ := hs2
      rw [← hk]
      exact ⟨rfl, rfl⟩

/-- Witness of C17: target t1, with three active streams, leaves the targets in version 2. -/
theorem resync_stops_removed_witness :
    Synced sbFresh ∧ smapNext.Version > sbFresh.smap.Version ∧
    ∃ r, resync wireA sbFresh smapNext = some r ∧
      mapGet r.sb.get "t1" = none ∧
      ∃ orobin stopped, mapGet sbFresh.get "t1" = some orobin ∧
        orobin.stsdest.length = sbFresh.multiplier.toNat ∧ ("t1", stopped) ∈ r.removed ∧
        stopped.stsdest = orobin.stsdest.map (closedStream false) :=
  have hv : smapNext.Version > sbFresh.smap.Version := by decide
  have h := resync_stops_removed wireA sbFresh smapNext sbFresh_Synced hv
  ⟨sbFresh_Synced, hv,
    h.elim (fun r hr => ⟨r, hr.1, hr.2.1 "t1" (by decide) (by decide) (by decide)⟩)⟩

/-- C20: for a bundle in step with its remembered snapshot (every reachable state is) and a
`resync` that observes a newer snapshot: every node ID that is a key of the previously published bundle and is not in the
removed set (role-selected before and not any more) is mapped by the newly published bundle to
the very robin it had (same streams in the same order, same counter), and no stream is created
for it; streams are created only for IDs in the added set (role-selected now and not before,
the local node apart), and every robin of the new bundle that is not the one the old bundle
had is a fresh robin of such an ID. -/
theorem resync_keeps_robins (wire : String → Nat → Nat → Bool) (sb : StreamBundle) (smap : Smap)
    (hs : Synced sb) (hv : smap.Version > sb.smap.Version) :
    ∃ r, resync wire sb smap = some r ∧
      (∀ id rb, mapGet sb.get id = some rb →
        ¬ (id ∈ selected sb.rxNodeType sb.smap ∧ id ∉ selected sb.rxNodeType smap) →
        mapGet r.sb.get id = some rb ∧ ∀ e ∈ r.created, e.1 ≠ id) ∧
      (∀ e ∈ r.created, e.1 ∈ selected sb.rxNodeType smap ∧
        e.1 ∉ selected sb.rxNodeType sb.smap ∧ e.1 ≠ sb.lsnode.DaemonID) ∧
      (∀ id rb, mapGet r.sb.get id = some rb →
        mapGet sb.get id = some rb ∨
        (id ∈ selected sb.rxNodeType smap ∧ id ∉ selected sb.rxNodeType sb.smap ∧
          ∃ url, rb = newRobin wire sb url)) := by
  obtain ⟨r, h0, h1, h2, _, _, h5⟩ := resync_effect wire sb smap hs hv
  refine ⟨r, h0, ?_, h2, h5⟩
  intro id rb hrb hkeep
  have hold : id ∈ selected sb.rxNodeType sb.smap := by
    have := (hs.keys id).mp (by rw [mem_mapKeys_iff, hrb]; rfl)
    exact this.1
  have hnew : id ∈ selected sb.rxNodeType smap := by
    by_contra hc
    exact hkeep ⟨hold, hc⟩
  refine ⟨h1 id rb hrb hnew, fun e he heq => ?_⟩
  have hno := (h2 e he).2.1
  rw [heq] at hno
  exact hno hold

/-- Witness of C20: target t1 stays while t2 joins; the robin of t1 is kept and no stream is
created for t1. -/
theorem resync_keeps_robins_witness :
    Synced sbFresh ∧ smapGrow.Version > sbFresh.smap.Version ∧
    ∃ r, resync wireA sbFresh smapGrow = some r ∧
      ∀ rb, mapGet sbFresh.get "t1" = some rb →
        mapGet r.sb.get "t1" = some rb ∧ ∀ e ∈ r.created, e.1 ≠ "t1" :=
  have hv : smapGrow.Version > sbFresh.smap.Version := by decide
  have h := resync_keeps_robins wireA sbFresh smapGrow sbFresh_Synced hv
  ⟨sbFresh_Synced, hv,
    h.elim (fun r hr => ⟨r, hr.1, fun rb hrb => hr.2.1 "t1" rb hrb (by decide)⟩)⟩

/-! ## Reachable states are in step with the remembered snapshot -/

theorem Synced_of_sameShape (sb sb2 : StreamBundle) (hs : Synced sb)
    (h1 : sb2.smap = sb.smap) (h2 : sb2.lsnode = sb.lsnode)
    (h3 : sb2.rxNodeType = sb.rxNodeType) (h4 : sb2.multiplier = sb.multiplier)
    (h5 : sameShape sb.get sb2.get) : Synced sb2 := by
  refine ⟨by rw [h3]; exact hs.role, fun k => ?_, fun k rb hrb => ?_⟩
  · rw [h1, h2, h3, ← hs.keys k, mem_mapKeys_iff, mem_mapKeys_iff]
    have := h5 k
    cases ha : mapGet sb2.get k <;> cases hb : mapGet sb.get k <;> simp [ha, hb] at this ⊢
  · have := h5 k
    rw [hrb] at this
    cases hb : mapGet sb.get k with
    | none => simp [hb] at this
    | some rb0 =>
      simp only [hb, Option.map_some', Option.some.injEq] at this
      rw [h4, this]
      exact hs.lens k rb0 hb

theorem broadcastLoop_sameShape (sb : StreamBundle) (hdr : Header) (cb : Option SendCallback)
    (prc : Option Nat) (bun : bundle) (reopen : Bool) (rd : Option ReadOpenCloser) :
    sameShape bun (broadcastLoop sb hdr cb prc reopen rd bun).streams := by
  induction bun generalizing reopen rd with
  | nil =>
    intro k
    simp [broadcastLoop]
  | cons p rest ih =>
    obtain ⟨id, rb⟩ := p
    intro k
    by_cases hout : (sendOne sb rb hdr rd cb prc reopen).out = Outcome.ok
    · rw [broadcastLoop_cons_ok sb hdr cb prc reopen rd id rb rest hout]
      by_cases hk : id = k
      · simp [mapGet, hk, sendOne_length]
      · simp only [mapGet, hk, if_false]
        exact ih _ _ k
    · rw [broadcastLoop_cons_stop sb hdr cb prc reopen rd id rb rest hout]
      by_cases hk : id = k
      · simp [mapGet, hk, sendOne_length]
      · simp only [mapGet, hk, if_false]

theorem targetedLoop_sameShape (sb : StreamBundle) (hdr : Header) (cb : Option SendCallback)
    (prc : Option Nat) (ns : List Snode) (reopen : Bool) (rd : Option ReadOpenCloser)
    (bun : bundle) :
    sameShape bun (targetedLoop sb hdr cb prc reopen rd bun ns).streams := by
  induction ns generalizing reopen rd bun with
  | nil =>
    intro k
    simp [targetedLoop]
  | cons di rest ih =>
    cases hrb : mapGet bun di.DaemonID with
    | none =>
      rw [targetedLoop_cons_missing sb hdr cb prc reopen rd bun di rest hrb]
      intro k
      rfl
    | some rb =>
      have hset : sameShape bun
          (mapSet bun di.DaemonID (sendOne sb rb hdr rd cb prc reopen).robin) := by
        intro k
        rw [mapGet_mapSet]
        by_cases hk : di.DaemonID = k
        · rw [if_pos hk, ← hk, hrb]
          simp [sendOne_length]
        · rw [if_neg hk]
      by_cases hout : (sendOne sb rb hdr rd cb prc reopen).out = Outcome.ok
      · rw [targetedLoop_cons_ok sb hdr cb prc reopen rd bun di rest rb hrb hout]
        intro k
        rw [ih _ _ _ k]
        exact hset k
      · rw [targetedLoop_cons_stop sb hdr cb prc reopen rd bun di rest rb hrb hout]
        exact hset

theorem closedBundle_sameShape (gracefully : Bool) (bun : bundle) :
    sameShape bun (closedBundle gracefully bun) := by
  intro k
  induction bun with
  | nil => rfl
  | cons p rest ih =>
    obtain ⟨id, rb⟩ := p
    have ih2 : Option.map (fun rb => rb.stsdest.length)
        (mapGet (List.map (fun p => (p.1,
          { p.2 with stsdest := p.2.stsdest.map (closedStream gracefully) })) rest) k)
        = Option.map (fun rb => rb.stsdest.length) (mapGet rest k) := ih
    by_cases hk : id = k
    · simp [closedBundle, mapGet, hk]
    · simp only [closedBundle, List.map_cons, mapGet, hk, if_false]
      exact ih2

theorem NewStreamBundle_Synced (wire : String → Nat → Nat → Bool) (smap : Smap)
    (lsnode : Snode) (network trname : String) (extra : Option Extra) (ntype : Int)
    (multiplier : List Int) (sb : StreamBundle)
    (h : NewStreamBundle wire smap lsnode network trname extra ntype multiplier = some sb) :
    Synced sb := by
  have hr : validRole ntype := by
    by_contra hc
    have hc2 : ¬ (ntype = Targets ∨ ntype = Proxies ∨ ntype = AllNodes) := hc
    simp [NewStreamBundle, hc2] at h
  have hm : validMultiplier multiplier := by
    cases multiplier with
    | nil => trivial
    | cons m rest =>
      by_contra hc
      have hc2 : ¬ (1 < m ∧ m < 256) := hc
      have hr2 : ntype = Targets ∨ ntype = Proxies ∨ ntype = AllNodes := hr
      simp [NewStreamBundle, hr2, hc2] at h
  have hv : 0 ≤ smap.Version := by
    by_contra hc
    rw [NewStreamBundle_eq wire smap lsnode network trname extra ntype multiplier hr hm] at h
    have h1 : ¬ smap.Version = 0 := by omega
    have h2 : ¬ smap.Version > 0 := by omega
    simp [resync, unsynced, h1, h2] at h
  obtain ⟨sb2, g1, g2, _⟩ :=
    NewStreamBundle_spec wire smap lsnode network trname extra ntype multiplier hr hm hv
  rw [h] at g1
  rw [Option.some.inj g1]
  exact g2

theorem resync_Synced (wire : String → Nat → Nat → Bool) (sb : StreamBundle) (smap : Smap)
    (r : ResyncResult) (hs : Synced sb) (h : resync wire sb smap = some r) : Synced r.sb := by
  by_cases heq : smap.Version = sb.smap.Version
  · simp only [resync, heq, if_true, Option.some.injEq] at h
    rw [← h]
    exact hs
  · by_cases hgt : smap.Version > sb.smap.Version
    · obtain ⟨r2, g1, g2, _⟩ := resync_step wire sb smap hs hgt
      rw [h] at g1
      rw [Option.some.inj g1]
      exact g2
    · simp [resync, heq, hgt] at h

/-- Every reachable state is in step with its remembered snapshot. -/
theorem Reachable_Synced (sb : StreamBundle) (h : Reachable sb) : Synced sb := by
  induction h with
  | construct wire smap lsnode network trname extra ntype multiplier sb h =>
    exact NewStreamBundle_Synced wire smap lsnode network trname extra ntype multiplier sb h
  | resync wire sb smap r _ h ih => exact resync_Synced wire sb smap r ih h
  | send sb heap hdr reader cb nodes _ _ ih =>
    rcases Send_sb_cases sb heap hdr reader cb nodes with hS | ⟨prc, hS⟩ | ⟨prc, ns, hS⟩
    · rw [hS]
      exact ih
    · rw [hS]
      exact Synced_of_sameShape sb _ ih rfl rfl rfl rfl
        (broadcastLoop_sameShape sb hdr _ _ _ _ _)
    · rw [hS]
      exact Synced_of_sameShape sb _ ih rfl rfl rfl rfl
        (targetedLoop_sameShape sb hdr _ _ _ _ _ _)
  | close sb sb2 gracefully _ h ih =>
    rw [Close_eq] at h
    rw [← Option.some.inj h]
    refine Synced_of_sameShape sb _ ih rfl rfl rfl rfl ?_
    cases hs : sb.streams with
    | none =>
      intro k
      simp [StreamBundle.get, hs]
    | some bun =>
      intro k
      have := closedBundle_sameShape gracefully bun k
      simpa [StreamBundle.get, hs] using this

/-! ## A send to an empty node list (C21) -/

theorem republish_of_nonempty (sb : StreamBundle) (hK : 1 ≤ sb.get.length) :
    { sb with streams := some sb.get } = sb := by
  cases hs : sb.streams with
  | none => simp [StreamBundle.get, hs] at hK
  | some b =>
    have hg : sb.get = b := by simp [StreamBundle.get, hs]
    rw [hg, ← hs]

theorem targetedLoop_trace_listed (sb : StreamBundle) (hdr : Header) (cb : Option SendCallback)
    (prc : Option Nat) (ns : List Snode) (reopen : Bool) (rd : Option ReadOpenCloser)
    (bun : bundle) :
    ∀ e ∈ (targetedLoop sb hdr cb prc reopen rd bun ns).trace, ∃ di ∈ ns, e.1 = di.DaemonID := by
  induction ns generalizing reopen rd bun with
  | nil => simp [targetedLoop]
  | cons di rest ih =>
    intro e he
    cases hrb : mapGet bun di.DaemonID with
    | none =>
      rw [targetedLoop_cons_missing sb hdr cb prc reopen rd bun di rest hrb] at he
      simp at he
    | some rb =>
      by_cases hout : (sendOne sb rb hdr rd cb prc reopen).out = Outcome.ok
      · rw [targetedLoop_cons_ok sb hdr cb prc reopen rd bun di rest rb hrb hout] at he
        simp only [List.mem_append] at he
        rcases he with he | he
        · exact ⟨di, by simp, (traceOf_carries _ _ e he).2⟩
        · obtain ⟨d, hd, hed⟩ := ih _ _ _ e he
          exact ⟨d, by simp [hd], hed⟩
      · rw [targetedLoop_cons_stop sb hdr cb prc reopen rd bun di rest rb hrb hout] at he
        exact ⟨di, by simp, (traceOf_carries _ _ e he).2⟩

/-- The handoffs of a `Send` with a non-nil node list go to listed nodes only. -/
theorem Send_trace_listed (sb : StreamBundle) (heap : List Int) (hdr : Header)
    (reader : Option ReadOpenCloser) (cb : Option SendCallback) (ns : List Snode) :
    ∀ e ∈ (Send sb heap hdr reader cb (some ns)).trace, ∃ di ∈ ns, e.1 = di.DaemonID := by
  intro e he
  by_cases h0 : sb.get = []
  · rw [Send_of_get_nil sb heap hdr reader cb (some ns) h0] at he
    simp at he
  · have hlen : ¬ sb.get.length = 0 := fun h => h0 (List.length_eq_zero.mp h)
    by_cases hall : ∀ di ∈ ns, (mapGet sb.get di.DaemonID).isSome = true
    · obtain ⟨t, ht, hS⟩ := Send_eq_fanout sb heap hdr reader cb (some ns)
        ⟨h0, fun ns2 hns => by cases hns; exact hall⟩
      simp only [] at ht
      rw [hS] at he
      have he2 : e ∈ t.trace := he
      rw [ht] at he2
      exact targetedLoop_trace_listed sb hdr _ _ ns false reader sb.get e he2
    · have hmiss : ∃ di ∈ ns, mapGet sb.get di.DaemonID = none := by
        by_contra hc
        apply hall
        intro di hdi
        cases hg : mapGet sb.get di.DaemonID with
        | none => exact absurd ⟨di, hdi, hg⟩ hc
        | some v => rfl
      obtain ⟨d, hd, _, _⟩ := find_missing hmiss
      simp [Send, hlen, hd] at he

/-- A broadcast over well-formed, accepting destinations with a reader that reopens (or a nil
reader) hands the object to every destination of the bundle, in the order visited. -/
theorem Send_broadcast_ids (sb : StreamBundle) (heap : List Int) (hdr : Header)
    (reader : Option ReadOpenCloser) (cb : Option SendCallback)
    (hm : 1 ≤ sb.multiplier) (hok : bundleOK sb 1 sb.get) (hK : 1 ≤ sb.get.length)
    (hopen : ∀ r, reader = some r → ∀ n, r.openFails n = false) :
    (Send sb heap hdr reader cb none).out = Outcome.ok ∧
    (Send sb heap hdr reader cb none).trace.map (fun e => e.1) = mapKeys sb.get := by
  obtain ⟨t, ht, hS⟩ := Send_eq_fanout sb heap hdr reader cb none (reaches_broadcast sb hK)
  simp only [] at ht
  rw [hS]
  cases reader with
  | none =>
    obtain ⟨h1, _, h3⟩ := broadcastLoop_nil_reader sb hdr (effectiveCb sb cb)
      (if (effectiveCb sb cb).isSome = true ∧ 1 < fanoutWidth sb none then some heap.length
        else none) hm sb.get false hok
    rw [← ht] at h1 h3
    refine ⟨h1, ?_⟩
    have := congrArg (List.map Prod.fst) h3
    simpa [readersOfTrace, Function.comp_def] using this
  | some r =>
    obtain ⟨h1, _, h3⟩ := broadcastLoop_all_ok sb hdr (effectiveCb sb cb)
      (if (effectiveCb sb cb).isSome = true ∧ 1 < fanoutWidth sb none then some heap.length
        else none) hm sb.get r hok hK (hopen r rfl)
    rw [← ht] at h1 h3
    refine ⟨h1, ?_⟩
    have := congrArg (List.map Prod.fst) h3
    rw [List.map_fst_zip] at this
    · simpa [readersOfTrace, Function.comp_def] using this
    · simp [mapKeys, reopenedFrom]
      omega

/-- C21: on a non-empty bundle, a `Send` with a non-nil but empty node list returns nil and
changes nothing: no handoff is made to any stream (so no callback is ever invoked for it), the
reader is as it was (no `Open()` call), no refcount is allocated, and the bundle is as it was.
A broadcast needs the nil list: `SendV` without destination arguments is `Send` with the nil
list, which on well-formed, accepting destinations, with a nil reader or one whose `Open()`
succeeds, hands the object to every destination of the bundle; a `Send` with a non-nil list
hands it to listed nodes only. -/
theorem Send_empty_node_list (sb : StreamBundle) (heap : List Int) (hdr : Header)
    (reader : Option ReadOpenCloser) (cb : Option SendCallback) (hK : 1 ≤ sb.get.length) :
    Send sb heap hdr reader cb (some []) =
      { out := Outcome.ok, sb := sb, reader := reader, heap := heap, trace := [] } ∧
    SendV sb heap hdr reader cb [] = Send sb heap hdr reader cb none ∧
    (1 ≤ sb.multiplier → bundleOK sb 1 sb.get →
      (∀ r, reader = some r → ∀ n, r.openFails n = false) →
      (Send sb heap hdr reader cb none).out = Outcome.ok ∧
      (Send sb heap hdr reader cb none).trace.map (fun e => e.1) = mapKeys sb.get ∧
      (Send sb heap hdr reader cb none).trace ≠ []) ∧
    (∀ ns, ∀ e ∈ (Send sb heap hdr reader cb (some ns)).trace, ∃ di ∈ ns, e.1 = di.DaemonID) := by
  have hlen : ¬ sb.get.length = 0 := by omega
  refine ⟨?_, by simp [SendV, SendVSlice], ?_, fun ns => Send_trace_listed sb heap hdr reader cb ns⟩
  · have hS : Send sb heap hdr reader cb (some []) =
        { out := Outcome.ok, sb := { sb with streams := some sb.get }, reader := reader,
          heap := heap, trace := [] } := by
      simp [Send, hlen, targetedLoop]
    rw [hS, republish_of_nonempty sb hK]
  · intro hm hok hopen
    obtain ⟨h1, h2⟩ := Send_broadcast_ids sb heap hdr reader cb hm hok hK hopen
    refine ⟨h1, h2, ?_⟩
    intro hnil
    rw [hnil] at h2
    have h3 := congrArg List.length h2
    simp only [List.map_nil, List.length_nil, mapKeys, List.length_map] at h3
    omega

/-- Witness of C21: on a bundle of three destinations, a send with callback 7 and an empty,
non-nil node list returns nil, hands nothing over and leaves reader, heap and bundle as they
were, while the broadcast hands the object to t1, t2 and t3. -/
theorem Send_empty_node_list_witness :
    1 ≤ sbThree.get.length ∧
    Send sbThree [5] hdrA (some readerA) (some 7) (some []) =
      { out := Outcome.ok, sb := sbThree, reader := some readerA, heap := [5], trace := [] } ∧
    (Send sbThree [5] hdrA (some readerA) (some 7) none).trace.map (fun e => e.1)
      = ["t1", "t2", "t3"] :=
  ⟨by decide,
    (Send_empty_node_list sbThree [5] hdrA (some readerA) (some 7) (by decide)).1,
    by decide⟩

/-! ## A failed fanout leaves the completion refcount above zero (C22) -/

theorem Stream_Send_accepted (s : Stream) (hdr : Header) (reader : ReadCloser)
    (cb : Option SendCallback) (prc : Option Nat) :
    (s.Send hdr reader cb prc).1.accepted
      = s.accepted + (if s.refuses s.handed.length then 0 else 1) := by
  simp only [Stream.Send, Stream.accepted, List.length_append, List.length_singleton,
    List.range_succ, List.filter_append, List.filter_singleton]
  cases s.refuses s.handed.length <;> simp

theorem sum_accepted_set (l : List Stream) (i : Nat) (s s2 : Stream) (h : l[i]? = some s) :
    ((l.set i s2).map Stream.accepted).sum + s.accepted
      = (l.map Stream.accepted).sum + s2.accepted := by
  induction l generalizing i with
  | nil => simp at h
  | cons a rest ih =>
    cases i with
    | zero =>
      simp only [List.getElem?_cons_zero, Option.some.injEq] at h
      simp only [List.set_cons_zero, List.map_cons, List.sum_cons, h]
      omega
    | succ k =>
      simp only [List.getElem?_cons_succ] at h
      have := ih k h
      simp only [List.set_cons_succ, List.map_cons, List.sum_cons]
      omega

theorem acceptedIn_mapSet (bun : bundle) (k : String) (rb rb2 : robin)
    (h : mapGet bun k = some rb) :
    acceptedIn (mapSet bun k rb2) + rb.accepted = acceptedIn bun + rb2.accepted := by
  induction bun with
  | nil => simp [mapGet] at h
  | cons p rest ih =>
    obtain ⟨k1, v1⟩ := p
    by_cases hk : k1 = k
    · simp only [mapGet, hk, if_true, Option.some.injEq] at h
      simp only [mapSet, hk, if_true, acceptedIn, List.map_cons, List.sum_cons, h]
      omega
    · simp only [mapGet, hk, if_false] at h
      have := ih h
      simp only [mapSet, hk, if_false, acceptedIn, List.map_cons, List.sum_cons] at this ⊢
      omega

theorem handoff_accepted (l : List Stream) (k : Nat) (s : Stream) (hs : l[k]? = some s)
    (hdr : Header) (reader2 : ReadCloser) (cb : Option SendCallback) (prc : Option Nat) :
    ((s.Send hdr reader2 cb prc).2 = false ∧
      ((l.set k (s.Send hdr reader2 cb prc).1).map Stream.accepted).sum
        = (l.map Stream.accepted).sum + 1) ∨
    ((s.Send hdr reader2 cb prc).2 = true ∧
      ((l.set k (s.Send hdr reader2 cb prc).1).map Stream.accepted).sum
        = (l.map Stream.accepted).sum) := by
  have hsum := sum_accepted_set l k s (s.Send hdr reader2 cb prc).1 hs
  rw [Stream_Send_accepted] at hsum
  cases hr : s.refuses s.handed.length with
  | false =>
    left
    simp only [hr, Bool.false_eq_true, if_false] at hsum
    exact ⟨by simp [Stream.Send, hr], by omega⟩
  | true =>
    right
    simp only [hr, if_true] at hsum
    exact ⟨by simp [Stream.Send, hr], by omega⟩

/-- The four ways a `sendOne` call can end, with the handoff it made and what it adds to the
accepted sends of its robin. -/
theorem sendOne_cases (sb : StreamBundle) (rb : robin) (hdr : Header)
    (reader : Option ReadOpenCloser) (cb : Option SendCallback) (prc : Option Nat)
    (reopen : Bool) :
    ((sendOne sb rb hdr reader cb prc reopen).out = Outcome.ok ∧
      (sendOne sb rb hdr reader cb prc reopen).robin.accepted = rb.accepted + 1 ∧
      (sendOne sb rb hdr reader cb prc reopen).handed.isSome = true) ∨
    ((sendOne sb rb hdr reader cb prc reopen).out = Outcome.error SendErr.streamSend ∧
      (sendOne sb rb hdr reader cb prc reopen).robin.accepted = rb.accepted ∧
      (sendOne sb rb hdr reader cb prc reopen).handed.isSome = true) ∨
    ((sendOne sb rb hdr reader cb prc reopen).out = Outcome.error SendErr.reopen ∧
      (sendOne sb rb hdr reader cb prc reopen).robin.accepted = rb.accepted ∧
      (sendOne sb rb hdr reader cb prc reopen).handed = none) ∨
    (sendOne sb rb hdr reader cb prc reopen).out = Outcome.panic := by
  unfold sendOne
  cases hop : openFor reader reopen with
  | none => simp
  | some pr =>
    obtain ⟨reader2, rd⟩ := pr
    simp only []
    split_ifs
    all_goals first
      | (simp; done)
      | (split
         · simp
         · next s hs =>
           rcases handoff_accepted rb.stsdest _ s hs hdr reader2 cb prc with ⟨h2, hsum⟩ | ⟨h2, hsum⟩
           · left
             simp only [List.map_set] at hsum
             simp [h2, robin.accepted]
             simpa using hsum
           · right
             left
             simp only [List.map_set] at hsum
             simp [h2, robin.accepted]
             simpa using hsum)

theorem traceOf_length_some (id : String) (r : SendOneResult) (h : r.handed.isSome = true) :
    (traceOf id r).length = 1 := by
  unfold traceOf
  cases hr : r.handed with
  | none => simp [hr] at h
  | some kh => rfl

theorem traceOf_length_none (id : String) (r : SendOneResult) (h : r.handed = none) :
    (traceOf id r).length = 0 := by
  simp [traceOf, h]

theorem broadcastCalls_cons_ok (sb : StreamBundle) (hdr : Header) (cb : Option SendCallback)
    (prc : Option Nat) (reopen : Bool) (rd : Option ReadOpenCloser) (id : String) (rb : robin)
    (rest : bundle) (h : (sendOne sb rb hdr rd cb prc reopen).out = Outcome.ok) :
    broadcastCalls sb hdr cb prc reopen rd ((id, rb) :: rest) =
      broadcastCalls sb hdr cb prc true (sendOne sb rb hdr rd cb prc reopen).reader rest + 1 := by
  rw [broadcastCalls]
  simp only [h]

theorem broadcastCalls_cons_stop (sb : StreamBundle) (hdr : Header) (cb : Option SendCallback)
    (prc : Option Nat) (reopen : Bool) (rd : Option ReadOpenCloser) (id : String) (rb : robin)
    (rest : bundle) (h : (sendOne sb rb hdr rd cb prc reopen).out ≠ Outcome.ok) :
    broadcastCalls sb hdr cb prc reopen rd ((id, rb) :: rest) = 1 := by
  rw [broadcastCalls]
  cases hout : (sendOne sb rb hdr rd cb prc reopen).out with
  | ok => exact absurd hout h
  | error e => simp only [hout]
  | panic => simp only [hout]

theorem targetedCalls_cons_ok (sb : StreamBundle) (hdr : Header) (cb : Option SendCallback)
    (prc : Option Nat) (reopen : Bool) (rd : Option ReadOpenCloser) (bun : bundle) (di : Snode)
    (rest : List Snode) (rb : robin) (hrb : mapGet bun di.DaemonID = some rb)
    (h : (sendOne sb rb hdr rd cb prc reopen).out = Outcome.ok) :
    targetedCalls sb hdr cb prc reopen rd bun (di :: rest) =
      targetedCalls sb hdr cb prc true (sendOne sb rb hdr rd cb prc reopen).reader
        (mapSet bun di.DaemonID (sendOne sb rb hdr rd cb prc reopen).robin) rest + 1 := by
  rw [targetedCalls]
  simp only [hrb, h]

theorem targetedCalls_cons_stop (sb : StreamBundle) (hdr : Header) (cb : Option SendCallback)
    (prc : Option Nat) (reopen : Bool) (rd : Option ReadOpenCloser) (bun : bundle) (di : Snode)
    (rest : List Snode) (rb : robin) (hrb : mapGet bun di.DaemonID = some rb)
    (h : (sendOne sb rb hdr rd cb prc reopen).out ≠ Outcome.ok) :
    targetedCalls sb hdr cb prc reopen rd bun (di :: rest) = 1 := by
  rw [targetedCalls]
  cases hout : (sendOne sb rb hdr rd cb prc reopen).out with
  | ok => exact absurd hout h
  | error e => simp only [hrb, hout]
  | panic => simp only [hrb, hout]

theorem targetedCalls_cons_missing (sb : StreamBundle) (hdr : Header)
    (cb : Option SendCallback) (prc : Option Nat) (reopen : Bool) (rd : Option ReadOpenCloser)
    (bun : bundle) (di : Snode) (rest : List Snode) (hrb : mapGet bun di.DaemonID = none) :
    targetedCalls sb hdr cb prc reopen rd bun (di :: rest) = 1 := by
  rw [targetedCalls]
  simp only [hrb]

/-- A broadcast loop that returns an error: the failing call is one of the calls made, all the
calls before it were accepted, and the failing call itself added no accepted handoff. -/
theorem broadcastLoop_failed (sb : StreamBundle) (hdr : Header) (cb : Option SendCallback)
    (prc : Option Nat) (bun : bundle) (reopen : Bool) (rd : Option ReadOpenCloser) :
    broadcastCalls sb hdr cb prc reopen rd bun ≤ bun.length ∧
    ((broadcastLoop sb hdr cb prc reopen rd bun).out = Outcome.error SendErr.streamSend →
      1 ≤ broadcastCalls sb hdr cb prc reopen rd bun ∧
      acceptedIn (broadcastLoop sb hdr cb prc reopen rd bun).streams + 1
        = acceptedIn bun + broadcastCalls sb hdr cb prc reopen rd bun ∧
      (broadcastLoop sb hdr cb prc reopen rd bun).trace.length
        = broadcastCalls sb hdr cb prc reopen rd bun) ∧
    ((broadcastLoop sb hdr cb prc reopen rd bun).out = Outcome.error SendErr.reopen →
      1 ≤ broadcastCalls sb hdr cb prc reopen rd bun ∧
      acceptedIn (broadcastLoop sb hdr cb prc reopen rd bun).streams + 1
        = acceptedIn bun + broadcastCalls sb hdr cb prc reopen rd bun ∧
      (broadcastLoop sb hdr cb prc reopen rd bun).trace.length + 1
        = broadcastCalls sb hdr cb prc reopen rd bun) := by
  induction bun generalizing reopen rd with
  | nil => simp [broadcastLoop, broadcastCalls]
  | cons p rest ih =>
    obtain ⟨id, rb⟩ := p
    rcases sendOne_cases sb rb hdr rd cb prc reopen with
      ⟨ho, ha, hh⟩ | ⟨ho, ha, hh⟩ | ⟨ho, ha, hh⟩ | ho
    · obtain ⟨i1, i2, i3⟩ := ih true (sendOne sb rb hdr rd cb prc reopen).reader
      rw [broadcastLoop_cons_ok sb hdr cb prc reopen rd id rb rest ho,
        broadcastCalls_cons_ok sb hdr cb prc reopen rd id rb rest ho]
      have hl := traceOf_length_some id _ hh
      simp only [List.length_cons, acceptedIn, List.map_cons, List.sum_cons, List.length_append,
        ha, hl]
      simp only [acceptedIn] at i2 i3
      refine ⟨by omega, fun h => ?_, fun h => ?_⟩
      · obtain ⟨j1, j2, j3⟩ := i2 h
        omega
      · obtain ⟨j1, j2, j3⟩ := i3 h
        omega
    · have hne : (sendOne sb rb hdr rd cb prc reopen).out ≠ Outcome.ok := by rw [ho]; simp
      rw [broadcastLoop_cons_stop sb hdr cb prc reopen rd id rb rest hne,
        broadcastCalls_cons_stop sb hdr cb prc reopen rd id rb rest hne]
      have hl := traceOf_length_some id _ hh
      simp only [List.length_cons, acceptedIn, List.map_cons, List.sum_cons, ha, hl, ho]
      refine ⟨by omega, fun _ => ⟨le_refl 1, trivial, trivial⟩, fun h => by simp at h⟩
    · have hne : (sendOne sb rb hdr rd cb prc reopen).out ≠ Outcome.ok := by rw [ho]; simp
      rw [broadcastLoop_cons_stop sb hdr cb prc reopen rd id rb rest hne,
        broadcastCalls_cons_stop sb hdr cb prc reopen rd id rb rest hne]
      have hl := traceOf_length_none id _ hh
      simp only [List.length_cons, acceptedIn, List.map_cons, List.sum_cons, ha, hl, ho]
      refine ⟨by omega, fun h => by simp at h, fun _ => ⟨le_refl 1, trivial, trivial⟩⟩
    · have hne : (sendOne sb rb hdr rd cb prc reopen).out ≠ Outcome.ok := by rw [ho]; simp
      rw [broadcastLoop_cons_stop sb hdr cb prc reopen rd id rb rest hne,
        broadcastCalls_cons_stop sb hdr cb prc reopen rd id rb rest hne]
      simp only [List.length_cons, ho]
      refine ⟨by omega, fun h => by simp at h, fun h => by simp at h⟩

/-- A targeted loop that returns an error: the failing call is one of the calls made, all the
calls before it were accepted, and the failing call itself added no accepted handoff. -/
theorem targetedLoop_failed (sb : StreamBundle) (hdr : Header) (cb : Option SendCallback)
    (prc : Option Nat) (ns : List Snode) (reopen : Bool) (rd : Option ReadOpenCloser)
    (bun : bundle) :
    targetedCalls sb hdr cb prc reopen rd bun ns ≤ ns.length ∧
    ((targetedLoop sb hdr cb prc reopen rd bun ns).out = Outcome.error SendErr.streamSend →
      1 ≤ targetedCalls sb hdr cb prc reopen rd bun ns ∧
      acceptedIn (targetedLoop sb hdr cb prc reopen rd bun ns).streams + 1
        = acceptedIn bun + targetedCalls sb hdr cb prc reopen rd bun ns ∧
      (targetedLoop sb hdr cb prc reopen rd bun ns).trace.length
        = targetedCalls sb hdr cb prc reopen rd bun ns) ∧
    ((targetedLoop sb hdr cb prc reopen rd bun ns).out = Outcome.error SendErr.reopen →
      1 ≤ targetedCalls sb hdr cb prc reopen rd bun ns ∧
      acceptedIn (targetedLoop sb hdr cb prc reopen rd bun ns).streams + 1
        = acceptedIn bun + targetedCalls sb hdr cb prc reopen rd bun ns ∧
      (targetedLoop sb hdr cb prc reopen rd bun ns).trace.length + 1
        = targetedCalls sb hdr cb prc reopen rd bun ns) := by
  induction ns generalizing reopen rd bun with
  | nil => simp [targetedLoop, targetedCalls]
  | cons di rest ih =>
    cases hrb : mapGet bun di.DaemonID with
    | none =>
      rw [targetedLoop_cons_missing sb hdr cb prc reopen rd bun di rest hrb,
        targetedCalls_cons_missing sb hdr cb prc reopen rd bun di rest hrb]
      simp only [List.length_cons]
      exact ⟨by omega, fun h => by simp at h, fun h => by simp at h⟩
    | some rb =>
      rcases sendOne_cases sb rb hdr rd cb prc reopen with
        ⟨ho, ha, hh⟩ | ⟨ho, ha, hh⟩ | ⟨ho, ha, hh⟩ | ho
      · obtain ⟨i1, i2, i3⟩ := ih true (sendOne sb rb hdr rd cb prc reopen).reader
          (mapSet bun di.DaemonID (sendOne sb rb hdr rd cb prc reopen).robin)
        have hset := acceptedIn_mapSet bun di.DaemonID rb
          (sendOne sb rb hdr rd cb prc reopen).robin hrb
        rw [targetedLoop_cons_ok sb hdr cb prc reopen rd bun di rest rb hrb ho,
          targetedCalls_cons_ok sb hdr cb prc reopen rd bun di rest rb hrb ho]
        have hl := traceOf_length_some di.DaemonID _ hh
        simp only [List.length_cons, List.length_append, hl]
        refine ⟨by omega, fun h => ?_, fun h => ?_⟩
        · obtain ⟨j1, j2, j3⟩ := i2 h
          omega
        · obtain ⟨j1, j2, j3⟩ := i3 h
          omega
      · have hne : (sendOne sb rb hdr rd cb prc reopen).out ≠ Outcome.ok := by rw [ho]; simp
        have hset := acceptedIn_mapSet bun di.DaemonID rb
          (sendOne sb rb hdr rd cb prc reopen).robin hrb
        rw [targetedLoop_cons_stop sb hdr cb prc reopen rd bun di rest rb hrb hne,
          targetedCalls_cons_stop sb hdr cb prc reopen rd bun di rest rb hrb hne]
        have hl := traceOf_length_some di.DaemonID _ hh
        simp only [List.length_cons, hl, ho]
        exact ⟨by omega, fun _ => ⟨le_refl 1, by omega, trivial⟩, fun h => by simp at h⟩
      · have hne : (sendOne sb rb hdr rd cb prc reopen).out ≠ Outcome.ok := by rw [ho]; simp
        have hset := acceptedIn_mapSet bun di.DaemonID rb
          (sendOne sb rb hdr rd cb prc reopen).robin hrb
        rw [targetedLoop_cons_stop sb hdr cb prc reopen rd bun di rest rb hrb hne,
          targetedCalls_cons_stop sb hdr cb prc reopen rd bun di rest rb hrb hne]
        have hl := traceOf_length_none di.DaemonID _ hh
        simp only [List.length_cons, hl, ho]
        exact ⟨by omega, fun h => by simp at h, fun _ => ⟨le_refl 1, by omega, by simp⟩⟩
      · have hne : (sendOne sb rb hdr rd cb prc reopen).out ≠ Outcome.ok := by rw [ho]; simp
        rw [targetedLoop_cons_stop sb hdr cb prc reopen rd bun di rest rb hrb hne,
          targetedCalls_cons_stop sb hdr cb prc reopen rd bun di rest rb hrb hne]
        simp only [List.length_cons, ho]
        exact ⟨by omega, fun h => by simp at h, fun h => by simp at h⟩

/-- The ghost counter of a `Send` that gets past its checks, as the counter of its loop. -/
theorem sendCalls_eq_fanout (sb : StreamBundle) (heap : List Int) (hdr : Header)
    (reader : Option ReadOpenCloser) (cb : Option SendCallback) (nodes : Option (List Snode))
    (hreach : reachesFanout sb nodes) :
    sendCalls sb heap hdr reader cb nodes =
      match nodes with
      | none => broadcastCalls sb hdr (effectiveCb sb cb)
          (if (effectiveCb sb cb).isSome = true ∧ 1 < fanoutWidth sb nodes
            then some heap.length else none) false reader sb.get
      | some ns => targetedCalls sb hdr (effectiveCb sb cb)
          (if (effectiveCb sb cb).isSome = true ∧ 1 < fanoutWidth sb nodes
            then some heap.length else none) false reader sb.get ns := by
  obtain ⟨hne, hpres⟩ := hreach
  have hlen : ¬ sb.get.length = 0 := fun h0 => hne (List.length_eq_zero.mp h0)
  cases nodes with
  | none =>
    by_cases hc : (effectiveCb sb cb).isSome = true ∧ 1 < sb.get.length
    · simp [sendCalls, hlen, fanoutWidth, hc, hc.1, hc.2]
    · by_cases h1 : (effectiveCb sb cb).isSome = true
      · have h2 : ¬ 1 < sb.get.length := fun h => hc ⟨h1, h⟩
        simp [sendCalls, hlen, fanoutWidth, h1, h2]
      · simp [sendCalls, hlen, fanoutWidth, h1]
  | some ns =>
    have hf := find_none_of_present sb.get ns (hpres ns rfl)
    by_cases hc : (effectiveCb sb cb).isSome = true ∧ 1 < ns.length
    · simp [sendCalls, hlen, fanoutWidth, hc, hc.1, hc.2, hf]
    · by_cases h1 : (effectiveCb sb cb).isSome = true
      · have h2 : ¬ 1 < ns.length := fun h => hc ⟨h1, h⟩
        simp [sendCalls, hlen, fanoutWidth, h1, h2, hf]
      · simp [sendCalls, hlen, fanoutWidth, h1, hf]

/-- A `Send` that returns an error of its fanout loop has got past its checks. -/
theorem reaches_of_fanout_error (sb : StreamBundle) (heap : List Int) (hdr : Header)
    (reader : Option ReadOpenCloser) (cb : Option SendCallback) (nodes : Option (List Snode))
    (hfail : (Send sb heap hdr reader cb nodes).out = Outcome.error SendErr.reopen ∨
      (Send sb heap hdr reader cb nodes).out = Outcome.error SendErr.streamSend) :
    reachesFanout sb nodes := by
  by_cases h0 : sb.get = []
  · rw [Send_of_get_nil sb heap hdr reader cb nodes h0] at hfail
    simp at hfail
  · refine ⟨h0, fun ns hns => ?_⟩
    have hlen : ¬ sb.get.length = 0 := fun h => h0 (List.length_eq_zero.mp h)
    by_contra hall
    have hmiss : ∃ di ∈ ns, mapGet sb.get di.DaemonID = none := by
      by_contra hc
      apply hall
      intro di hdi
      cases hg : mapGet sb.get di.DaemonID with
      | none => exact absurd ⟨di, hdi, hg⟩ hc
      | some v => rfl
    obtain ⟨d, hd, _, _⟩ := find_missing hmiss
    rw [hns] at hfail
    simp [Send, hlen, hd] at hfail

/-- What a failed fanout of `Send` leaves behind, with `j` the number of `sendOne` calls. -/
theorem Send_failed_fanout (sb : StreamBundle) (heap : List Int) (hdr : Header)
    (reader : Option ReadOpenCloser) (cb : Option SendCallback) (nodes : Option (List Snode))
    (hfail : (Send sb heap hdr reader cb nodes).out = Outcome.error SendErr.reopen ∨
      (Send sb heap hdr reader cb nodes).out = Outcome.error SendErr.streamSend) :
    1 ≤ sendCalls sb heap hdr reader cb nodes ∧
    sendCalls sb heap hdr reader cb nodes ≤ fanoutWidth sb nodes ∧
    acceptedIn (Send sb heap hdr reader cb nodes).sb.get + 1
      = acceptedIn sb.get + sendCalls sb heap hdr reader cb nodes ∧
    (Send sb heap hdr reader cb nodes).trace.length
      = (if (Send sb heap hdr reader cb nodes).out = Outcome.error SendErr.streamSend
          then sendCalls sb heap hdr reader cb nodes
          else sendCalls sb heap hdr reader cb nodes - 1) := by
  have hreach := reaches_of_fanout_error sb heap hdr reader cb nodes hfail
  obtain ⟨t, ht, hS⟩ := Send_eq_fanout sb heap hdr reader cb nodes hreach
  have hC := sendCalls_eq_fanout sb heap hdr reader cb nodes hreach
  rw [hS] at hfail ⊢
  have hget : ({ sb with streams := some t.streams } : StreamBundle).get = t.streams := rfl
  simp only [hget]
  have hfail2 : t.out = Outcome.error SendErr.reopen ∨ t.out = Outcome.error SendErr.streamSend :=
    hfail
  cases nodes with
  | none =>
    simp only [] at ht hC
    obtain ⟨i1, i2, i3⟩ := broadcastLoop_failed sb hdr (effectiveCb sb cb)
      (if (effectiveCb sb cb).isSome = true ∧ 1 < fanoutWidth sb none then some heap.length
        else none) sb.get false reader
    rw [← ht, ← hC] at i2 i3
    rw [← hC] at i1
    rcases hfail2 with h | h
    · obtain ⟨j1, j2, j3⟩ := i3 h
      refine ⟨j1, i1, j2, ?_⟩
      rw [if_neg (by rw [h]; simp)]
      omega
    · obtain ⟨j1, j2, j3⟩ := i2 h
      refine ⟨j1, i1, j2, ?_⟩
      rw [if_pos h]
      exact j3
  | some ns =>
    simp only [] at ht hC
    obtain ⟨i1, i2, i3⟩ := targetedLoop_failed sb hdr (effectiveCb sb cb)
      (if (effectiveCb sb cb).isSome = true ∧ 1 < fanoutWidth sb (some ns) then some heap.length
        else none) ns false reader sb.get
    rw [← ht, ← hC] at i2 i3
    rw [← hC] at i1
    rcases hfail2 with h | h
    · obtain ⟨j1, j2, j3⟩ := i3 h
      refine ⟨j1, i1, j2, ?_⟩
      rw [if_neg (by rw [h]; simp)]
      omega
    · obtain ⟨j1, j2, j3⟩ := i2 h
      refine ⟨j1, i1, j2, ?_⟩
      rw [if_pos h]
      exact j3

theorem refcountAfter_fresh (heap : List Int) (K : Int) (c : Nat) :
    refcountAfter (heap ++ [K]) heap.length c = some (K - (c : Int)) := by
  simp [refcountAfter]

/-- C22: let a `Send` with a non-nil effective callback and `K > 1` destinations fail in its
fanout, with the reader-reopen error or the error of a stream's `Send`, and let `j` be the
number of `sendOne` calls it made, so that the `j`-th destination is the one it failed at.
Then `1 ≤ j ≤ K`; the call allocated one refcount with initial value `K`, whose address every
handoff of the call carries together with the callback; it made `j` handoffs when the `j`-th
stream refused, and `j - 1` when `Open()` failed; the streams of the bundle accepted exactly
`j - 1 < K` of them. With one decrement per completed accepted handoff the refcount is,
after any number of these completions, at least `K - j + 1 > 0`: it never reaches zero. -/
theorem Send_failure_keeps_refcount (sb : StreamBundle) (heap : List Int) (hdr : Header)
    (reader : Option ReadOpenCloser) (cb : Option SendCallback) (nodes : Option (List Snode))
    (hcb : (effectiveCb sb cb).isSome = true) (hK : 1 < fanoutWidth sb nodes)
    (hfail : (Send sb heap hdr reader cb nodes).out = Outcome.error SendErr.reopen ∨
      (Send sb heap hdr reader cb nodes).out = Outcome.error SendErr.streamSend) :
    1 ≤ sendCalls sb heap hdr reader cb nodes ∧
    sendCalls sb heap hdr reader cb nodes ≤ fanoutWidth sb nodes ∧
    (Send sb heap hdr reader cb nodes).heap = heap ++ [(fanoutWidth sb nodes : Int)] ∧
    (∀ e ∈ (Send sb heap hdr reader cb nodes).trace,
      e.2.2.prc = some heap.length ∧ e.2.2.cb = effectiveCb sb cb) ∧
    (Send sb heap hdr reader cb nodes).trace.length
      = (if (Send sb heap hdr reader cb nodes).out = Outcome.error SendErr.streamSend
          then sendCalls sb heap hdr reader cb nodes
          else sendCalls sb heap hdr reader cb nodes - 1) ∧
    acceptedIn (Send sb heap hdr reader cb nodes).sb.get
      = acceptedIn sb.get + (sendCalls sb heap hdr reader cb nodes - 1) ∧
    sendCalls sb heap hdr reader cb nodes - 1 < fanoutWidth sb nodes ∧
    ∀ c, c ≤ acceptedIn (Send sb heap hdr reader cb nodes).sb.get - acceptedIn sb.get →
      ∃ v, refcountAfter (Send sb heap hdr reader cb nodes).heap heap.length c = some v ∧
        (fanoutWidth sb nodes : Int) - (sendCalls sb heap hdr reader cb nodes : Int) + 1 ≤ v ∧
        0 < v := by
  obtain ⟨h1, h2, h3, h4⟩ := Send_failed_fanout sb heap hdr reader cb nodes hfail
  have hreach := reaches_of_fanout_error sb heap hdr reader cb nodes hfail
  have hcar := Send_trace_carries sb heap hdr reader cb nodes hreach
  obtain ⟨t, _, hS⟩ := Send_eq_fanout sb heap hdr reader cb nodes hreach
  have hheap : (Send sb heap hdr reader cb nodes).heap
      = heap ++ [(fanoutWidth sb nodes : Int)] := by
    rw [hS]
    simp [hcb, hK]
  refine ⟨h1, h2, hheap, fun e he => ?_, h4, by omega, by omega, fun c hc => ?_⟩
  · have := hcar e he
    rw [if_pos ⟨hcb, hK⟩] at this
    exact ⟨this.2, this.1⟩
  · rw [hheap, refcountAfter_fresh]
    refine ⟨_, rfl, ?_, ?_⟩ <;> omega

/-- Witness of C22: a broadcast with callback 7 over three destinations of which the second
answers its `Send` with an error. The call fails at destination 2 of 3 with the refcount
allocated at address 1 with value 3, and one handoff was accepted; after its completion the
refcount is 2. -/
theorem Send_failure_keeps_refcount_witness :
    (effectiveCb sbRefusing (some 7)).isSome = true ∧ 1 < fanoutWidth sbRefusing none ∧
    (Send sbRefusing [5] hdrA (some readerA) (some 7) none).out
      = Outcome.error SendErr.streamSend ∧
    sendCalls sbRefusing [5] hdrA (some readerA) (some 7) none = 2 ∧
    fanoutWidth sbRefusing none = 3 ∧
    acceptedIn (Send sbRefusing [5] hdrA (some readerA) (some 7) none).sb.get
      - acceptedIn sbRefusing.get = 1 ∧
    refcountAfter (Send sbRefusing [5] hdrA (some readerA) (some 7) none).heap 1 1 = some 2 ∧
    (Send sbRefusing [5] hdrA (some readerA) (some 7) none).heap
      = [5] ++ [(fanoutWidth sbRefusing none : Int)] ∧
    ∀ c, c ≤ acceptedIn (Send sbRefusing [5] hdrA (some readerA) (some 7) none).sb.get
        - acceptedIn sbRefusing.get →
      ∃ v, refcountAfter (Send sbRefusing [5] hdrA (some readerA) (some 7) none).heap
          [(5 : Int)].length c = some v ∧
        (fanoutWidth sbRefusing none : Int)
          - (sendCalls sbRefusing [5] hdrA (some readerA) (some 7) none : Int) + 1 ≤ v ∧
        0 < v :=
  ⟨by decide, by decide, by decide, by decide, by decide, by decide, by decide,
    (Send_failure_keeps_refcount sbRefusing [5] hdrA (some readerA) (some 7) none (by decide)
      (by decide) (Or.inr (by decide))).2.2.1,
    (Send_failure_keeps_refcount sbRefusing [5] hdrA (some readerA) (some 7) none (by decide)
      (by decide) (Or.inr (by decide))).2.2.2.2.2.2.2⟩

end transport

namespace cmn

/-! ## The classification of errors by IsIOError (C23) -/

theorem isIO_iff (e : GoError) : isIO e = true ↔ ∃ n ∈ listedErrnos, e = GoError.Errno n := by
  simp [listedErrnos, isIO]
  tauto

/-- C23, as stated, fails for two error values: on the nil pointer of type `*os.PathError`
and on the nil pointer of type `*os.SyscallError`, each an error value that is not nil and has
no wrapped error, the call aborts on `e.Err` and returns neither true nor false. -/
theorem C23_nil_pointer_counterexample :
    GoError.nilPathError ≠ GoError.nil ∧ GoError.nilSyscallError ≠ GoError.nil ∧
    IsIOError GoError.nilPathError = none ∧ IsIOError GoError.nilSyscallError = none ∧
    IsIOError GoError.nilPathError ≠ some true ∧ IsIOError GoError.nilPathError ≠ some false ∧
    IsIOError GoError.nilSyscallError ≠ some true ∧
    IsIOError GoError.nilSyscallError ≠ some false := by
  decide

/-- C23 (amended): `IsIOError` returns for every error value other than a nil pointer of type
`*os.PathError` or `*os.SyscallError`, and on these two it aborts. Where it returns, it returns
true exactly for `io.ErrShortWrite` and for an `*os.PathError` or `*os.SyscallError` whose
wrapped error is one of the errnos EIO, ENOTDIR, EBUSY, ENXIO, EBADF, ENODEV, EUCLEAN, EROFS,
EDQUOT, ESTALE, ENOSPC. Case by case: it returns false for nil, true for `io.ErrShortWrite`,
for either wrapper true if and only if the wrapped error is a listed errno and false if not,
false for a bare errno, a listed one included, and false for an error of any other type. -/
theorem IsIOError_classifies :
    (∀ err, IsIOError err = none ↔
      err = GoError.nilPathError ∨ err = GoError.nilSyscallError) ∧
    (∀ err, IsIOError err = some true ↔
      err = GoError.ErrShortWrite ∨
      ∃ n ∈ listedErrnos, (∃ op path, err = GoError.PathError op path (GoError.Errno n)) ∨
        ∃ call, err = GoError.SyscallError call (GoError.Errno n)) ∧
    IsIOError GoError.nil = some false ∧
    IsIOError GoError.ErrShortWrite = some true ∧
    (∀ op path e, ∃ b, IsIOError (GoError.PathError op path e) = some b ∧
      (b = true ↔ ∃ n ∈ listedErrnos, e = GoError.Errno n)) ∧
    (∀ call e, ∃ b, IsIOError (GoError.SyscallError call e) = some b ∧
      (b = true ↔ ∃ n ∈ listedErrnos, e = GoError.Errno n)) ∧
    (∀ n, IsIOError (GoError.Errno n) = some false) ∧
    (∀ msg, IsIOError (GoError.other msg) = some false) := by
  have hP : ∀ op path e, IsIOError (GoError.PathError op path e) = some ( isIO e) := by
    intro op path e
    simp [IsIOError]
  have hS : ∀ call e, IsIOError (GoError.SyscallError call e) = some ( isIO e) := by
    intro call e
    simp [IsIOError]
  refine ⟨?_, ?_, rfl, rfl, fun op path e => ⟨ isIO e, hP op path e, isIO_iff e⟩,
    fun call e => ⟨ isIO e, hS call e, isIO_iff e⟩, fun n => by simp [IsIOError],
    fun msg => by simp [IsIOError]⟩
  · intro err
    cases err with
    | nil => simp [IsIOError]
    | ErrShortWrite => simp [IsIOError]
    | Errno n => simp [IsIOError]
    | PathError op path e => simp [hP]
    | nilPathError => simp [IsIOError]
    | SyscallError call e => simp [hS]
    | nilSyscallError => simp [IsIOError]
    | other msg => simp [IsIOError]
  · intro err
    cases err with
    | nil => simp [IsIOError]
    | ErrShortWrite => simp [IsIOError]
    | Errno n => simp [IsIOError]
    | PathError op path e =>
      rw [hP, Option.some.injEq, isIO_iff]
      constructor
      · rintro ⟨n, hn, rfl⟩
        exact Or.inr ⟨n, hn, Or.inl ⟨op, path, rfl⟩⟩
      · rintro (h | ⟨n, hn, ⟨op2, path2, h⟩ | ⟨call, h⟩⟩)
        · cases h
        · cases h
          exact ⟨n, hn, rfl⟩
        · cases h
    | nilPathError => simp [IsIOError]
    | SyscallError call e =>
      rw [hS, Option.some.injEq, isIO_iff]
      constructor
      · rintro ⟨n, hn, rfl⟩
        exact Or.inr ⟨n, hn, Or.inr ⟨call, rfl⟩⟩
      · rintro (h | ⟨n, hn, ⟨op2, path2, h⟩ | ⟨call2, h⟩⟩)
        · cases h
        · cases h
        · cases h
          exact ⟨n, hn, rfl⟩
    | nilSyscallError => simp [IsIOError]
    | other msg => simp [IsIOError]

/-- Witness of C23 (amended): an `*os.PathError` that wraps ENOSPC is an I/O error, the bare
ENOSPC is not. -/
theorem IsIOError_classifies_witness :
    IsIOError (GoError.PathError "open" "/data/f" (GoError.Errno ENOSPC)) = some true ∧
    IsIOError (GoError.Errno ENOSPC) = some false :=
  ⟨(IsIOError_classifies.2.1 _).mpr
      (Or.inr ⟨ENOSPC, by decide, Or.inl ⟨"open", "/data/f", rfl⟩⟩),
    IsIOError_classifies.2.2.2.2.2.2.1 ENOSPC⟩

end cmn
